import Mathlib

/-!
# THK command validation: a shallow embedding of `drivers/misc/thk`

The definitions below follow `drivers/misc/thk/thk_exec.c`, `drivers/misc/thk/thk_main.c`,
`drivers/misc/thk/thk.h` and `include/uapi/misc/thk.h`; the last part follows
`build_json_response` of `tools/thk/thkd.c`.

Modelling conventions

* `char` buffers are lists of byte values (`List Nat`); the C string held in a buffer is
  the run of bytes before its first NUL (`cstr`).
* `u32` / `u64` values are `Nat`; the 64-bit statistics counters wrap explicitly
  (`atomic64_inc`).
* `ktime_t` is `Int` (nanoseconds).
* What the kernel supplies from outside the function (`ktime_get()`, the outcome of
  `kzalloc`, `capable(CAP_SYS_ADMIN)`, the audit subsystem) is read from a `thk_env`.
* The three spinlocks are not part of the state: every function runs as one atomic step.
  The order in which `thk_exec_validate` takes and releases them is given separately, as
  a list of events (`thk_exec_validate_events`).
-/

namespace Thk

/-! ## Constants -/

/-- The value of `THK_MAX_CMD_LEN` (uapi/misc/thk.h). -/
@[reducible] def THK_MAX_CMD_LEN : Nat := 4096
/-- The value of `THK_MAX_REASON_LEN`. -/
@[reducible] def THK_MAX_REASON_LEN : Nat := 256
/-- The value of `THK_MAX_BLOCKLIST_PAT`. -/
@[reducible] def THK_MAX_BLOCKLIST_PAT : Nat := 64
/-- The value of `THK_MAX_BLOCKLIST_ENTRIES`. -/
@[reducible] def THK_MAX_BLOCKLIST_ENTRIES : Nat := 128

/-- Flag `THK_EXEC_F_AUDIT = 1U << 0`. -/
@[reducible] def THK_EXEC_F_AUDIT : Nat := 1 <<< 0
/-- Flag `THK_EXEC_F_DRYRUN = 1U << 1`. -/
@[reducible] def THK_EXEC_F_DRYRUN : Nat := 1 <<< 1
/-- Flag `THK_EXEC_F_FORCE = 1U << 2`. -/
@[reducible] def THK_EXEC_F_FORCE : Nat := 1 <<< 2

/-- Result code `THK_RESULT_OK`. -/
@[reducible] def THK_RESULT_OK : Nat := 0
/-- Result code `THK_RESULT_BLOCKED`. -/
@[reducible] def THK_RESULT_BLOCKED : Nat := 1
/-- Result code `THK_RESULT_RATE_LIMITED`. -/
@[reducible] def THK_RESULT_RATE_LIMITED : Nat := 2
/-- Result code `THK_RESULT_INVALID`. -/
@[reducible] def THK_RESULT_INVALID : Nat := 3

/-- The value of `THK_RATE_HASH_BITS` (drivers/misc/thk/thk.h). -/
@[reducible] def THK_RATE_HASH_BITS : Nat := 8
/-- The value of `THK_RATE_HASH_SIZE = 1 << THK_RATE_HASH_BITS`. -/
@[reducible] def THK_RATE_HASH_SIZE : Nat := 1 <<< THK_RATE_HASH_BITS
/-- The value of `THK_RATE_WINDOW_SECS`. -/
@[reducible] def THK_RATE_WINDOW_SECS : Int := 60
/-- Kernel constant `NSEC_PER_SEC`. -/
@[reducible] def NSEC_PER_SEC : Int := 1000000000
/-- The value of `THK_VERSION` (1.0.0). -/
@[reducible] def THK_VERSION : Nat := 0x00010000
/-- The ioctl magic number `THK_IOC_MAGIC`. -/
@[reducible] def THK_IOC_MAGIC : Nat := 0xBB

/-- Kernel errno `EPERM`. -/
@[reducible] def EPERM : Int := 1
/-- Kernel errno `EFAULT`. -/
@[reducible] def EFAULT : Int := 14
/-- Kernel errno `ENOTTY`. -/
@[reducible] def ENOTTY : Int := 25

/-- Direction bits of an ioctl number (asm-generic/ioctl.h): `_IOC_NONE`. -/
@[reducible] def _IOC_NONE : Nat := 0
/-- Direction bits of an ioctl number: `_IOC_WRITE`. -/
@[reducible] def _IOC_WRITE : Nat := 1
/-- Direction bits of an ioctl number: `_IOC_READ`. -/
@[reducible] def _IOC_READ : Nat := 2

/-- Kernel macro `_IOC(dir, type, nr, size)` (asm-generic/ioctl.h): direction in bits
30..31, size in bits 16..29, type in bits 8..15, number in bits 0..7. -/
def _IOC (dir type nr size : Nat) : Nat :=
  (dir <<< 30) ||| (type <<< 8) ||| (nr <<< 0) ||| (size <<< 16)

/-- The ioctl number `THK_IOC_EXEC_VALIDATE = _IOW(THK_IOC_MAGIC, 0x01, struct thk_exec_request)`;
the struct is 4096 + 4 + 4 bytes. -/
def THK_IOC_EXEC_VALIDATE : Nat := _IOC _IOC_WRITE THK_IOC_MAGIC 0x01 (THK_MAX_CMD_LEN + 4 + 4)
/-- The ioctl number `THK_IOC_EXEC_STATUS = _IOR(THK_IOC_MAGIC, 0x02, struct thk_exec_result)`;
the struct is 4 + 4 + 256 bytes. -/
def THK_IOC_EXEC_STATUS : Nat := _IOC _IOC_READ THK_IOC_MAGIC 0x02 (4 + 4 + THK_MAX_REASON_LEN)
/-- The ioctl number `THK_IOC_GET_STATS = _IOR(THK_IOC_MAGIC, 0x03, struct thk_stats)`;
the struct is five `__u64`. -/
def THK_IOC_GET_STATS : Nat := _IOC _IOC_READ THK_IOC_MAGIC 0x03 40
/-- The ioctl number `THK_IOC_GET_CONFIG = _IOR(THK_IOC_MAGIC, 0x04, struct thk_config)`;
the struct is four `__u32`. -/
def THK_IOC_GET_CONFIG : Nat := _IOC _IOC_READ THK_IOC_MAGIC 0x04 16
/-- The ioctl number `THK_IOC_SET_CONFIG = _IOW(THK_IOC_MAGIC, 0x05, struct thk_config)`. -/
def THK_IOC_SET_CONFIG : Nat := _IOC _IOC_WRITE THK_IOC_MAGIC 0x05 16
/-- The ioctl number `THK_IOC_VERSION = _IOR(THK_IOC_MAGIC, 0x06, __u32)`. -/
def THK_IOC_VERSION : Nat := _IOC _IOC_READ THK_IOC_MAGIC 0x06 4

/-- Kernel constant `DEFAULT_OVERFLOWUID`, the value of `overflowuid`. -/
@[reducible] def overflowuid : Nat := 65534

/-! ## Kernel library routines used by the driver -/

/-- Byte values of an ASCII literal (one byte per character). -/
def bytes (s : String) : List Nat := s.toList.map Char.toNat

/-- The C string stored in a buffer: the bytes before the first NUL. -/
def cstr (buf : List Nat) : List Nat := buf.takeWhile (fun b => b != 0)

/-- Kernel `strlen`. -/
def strlen (buf : List Nat) : Nat := (cstr buf).length

/-- Kernel `memcmp(a, b, n)`: `0` exactly when the first `n` bytes agree (the sign of a
non-zero result is not modelled). A buffer that ends before `n` bytes never compares
equal to one that has `n` bytes. -/
def memcmp (a b : List Nat) (n : Nat) : Nat :=
  if a.take n = b.take n then 0 else 1

/-- The loop of kernel `strnstr` (lib/string.c):
`while (len >= l2) { len--; if (!memcmp(s1, s2, l2)) return s1; s1++; }`.
`off` is the distance of `s1` from the start of the searched buffer; the result is the
offset of the returned pointer, or `none` for `NULL`. -/
def strnstr_loop (s2 : List Nat) (l2 : Nat) : Nat → List Nat → Nat → Option Nat
  | 0, _, off => if 0 ≥ l2 then some off else none
  | len + 1, s1, off =>
    if len + 1 ≥ l2 then
      if memcmp s1 s2 l2 = 0 then some off
      else strnstr_loop s2 l2 len s1.tail (off + 1)
    else none

/-- Kernel `strnstr(s1, s2, len)` (lib/string.c):
`l2 = strlen(s2); if (!l2) return (char *)s1;`, then the loop above, then `return NULL`.
The bytes of `s1` are compared with `memcmp` at each of the offsets `0 .. len - l2`; the
routine does not look for a NUL in `s1`. -/
def strnstr (s1 s2 : List Nat) (len : Nat) : Option Nat :=
  let l2 := strlen s2
  if l2 = 0 then some 0 else strnstr_loop s2 l2 len s1 0

/-- What `strscpy(dst, src, count)` and `snprintf(dst, count, ...)` leave in `dst` when
the text to store is `s`: at most `count - 1` bytes of `s`, then a NUL; the bytes of
`dst` behind the NUL are left as they were. -/
def store_cstr (dst : List Nat) (s : List Nat) (count : Nat) : List Nat :=
  if count = 0 then dst
  else
    let t := s.take (count - 1)
    t ++ 0 :: dst.drop (t.length + 1)

/-- Kernel `strscpy(dst, src, count)`; `src` is a buffer holding a C string. -/
def strscpy (dst src : List Nat) (count : Nat) : List Nat :=
  store_cstr dst (cstr src) count

/-- Kernel `rol32`. -/
def rol32 (word shift : Nat) : Nat :=
  ((word <<< shift) ||| (word >>> (32 - shift))) % 2 ^ 32

/-- Subtraction of `u32` values. -/
def sub32 (a b : Nat) : Nat := (a + 2 ^ 32 - b % 2 ^ 32) % 2 ^ 32

/-- Kernel `__jhash_final(a, b, c)` (linux/jhash.h); the value left in `c`. -/
def jhash_final (a b c : Nat) : Nat :=
  let c := c ^^^ b
  let c := sub32 c (rol32 b 14)
  let a := a ^^^ c
  let a := sub32 a (rol32 c 11)
  let b := b ^^^ a
  let b := sub32 b (rol32 a 25)
  let c := c ^^^ b
  let c := sub32 c (rol32 b 16)
  let a := a ^^^ c
  let a := sub32 a (rol32 c 4)
  let b := b ^^^ a
  let b := sub32 b (rol32 a 14)
  let c := c ^^^ b
  sub32 c (rol32 b 24)

/-- Kernel `jhash_1word(a, initval)`:
`__jhash_nwords(a, 0, 0, initval + JHASH_INITVAL + (1 << 2))`. -/
def jhash_1word (a initval : Nat) : Nat :=
  let iv := (initval + 0xdeadbeef + (1 <<< 2)) % 2 ^ 32
  jhash_final ((a + iv) % 2 ^ 32) ((0 + iv) % 2 ^ 32) ((0 + iv) % 2 ^ 32)

/-- Kernel `make_kuid(&init_user_ns, uid)`: the initial namespace maps ids to themselves. -/
def make_kuid (uid : Nat) : Nat := uid

/-- Kernel `from_kuid_munged(&init_user_ns, kuid)`: the id itself, with the invalid id
`(uid_t)-1` replaced by `overflowuid`. -/
def from_kuid_munged (kuid : Nat) : Nat :=
  if kuid = 2 ^ 32 - 1 then overflowuid else kuid

/-- Kernel `atomic64_inc` on a counter read back as `u64`. -/
def atomic64_inc (v : Nat) : Nat := (v + 1) % 2 ^ 64

/-! ## Data model -/

/-- The C `struct thk_rate_entry` (the `hlist_node` is the position in the bucket list). -/
structure thk_rate_entry where
  uid : Nat
  count : Nat
  window_start : Int
deriving DecidableEq, Repr

/-- The C `struct thk_exec_request`. -/
structure thk_exec_request where
  command : List Nat
  flags : Nat
  uid : Nat
deriving DecidableEq, Repr

/-- The C `struct thk_exec_result`. -/
structure thk_exec_result where
  result : Nat
  flags : Nat
  reason : List Nat
deriving DecidableEq, Repr

/-- The C `struct thk_device`, without its spinlocks. `rate_hash` is the array of
`THK_RATE_HASH_SIZE` bucket heads; a bucket is the list of its entries, head first. -/
structure thk_device where
  total_requests : Nat
  total_blocked : Nat
  total_allowed : Nat
  total_rate_limited : Nat
  load_time : Int
  audit_enabled : Nat
  rate_limit : Nat
  blocklist_count : Nat
  blocklist : List (List Nat)
  rate_hash : Fin THK_RATE_HASH_SIZE → List thk_rate_entry
  last_result : thk_exec_result

/-- The C `struct thk_stats`. -/
structure thk_stats where
  total_requests : Nat
  total_blocked : Nat
  total_allowed : Nat
  total_rate_limited : Nat
  uptime_secs : Nat
deriving DecidableEq, Repr

/-- The C `struct thk_config`. -/
structure thk_config where
  audit_enabled : Nat
  rate_limit : Nat
  blocklist_count : Nat
  reserved : Nat
deriving DecidableEq, Repr

/-- The user memory behind the `arg` of an ioctl, as `copy_from_user` and `copy_to_user`
see it. -/
structure thk_uarg where
  /-- What `copy_from_user(&req, uarg, sizeof(req))` reads; `none` when it faults. -/
  from_user_request : Option thk_exec_request
  /-- What `copy_from_user(&cfg, uarg, sizeof(cfg))` reads; `none` when it faults. -/
  from_user_config : Option thk_config
  /-- Whether `copy_to_user(uarg, ...)` succeeds. -/
  to_user_ok : Bool
deriving DecidableEq, Repr

/-- What an ioctl copies to user space. -/
inductive thk_user_write where
  | version (v : Nat)
  | result (r : thk_exec_result)
  | stats (s : thk_stats)
  | config (c : thk_config)
deriving DecidableEq, Repr

/-- What one call reads from the rest of the kernel. -/
structure thk_env where
  /-- The value returned by `ktime_get()`. -/
  now : Int
  /-- The value returned by `ktime_get_seconds()`. -/
  now_seconds : Int
  /-- Whether `kzalloc(sizeof(*entry), GFP_ATOMIC)` returns an entry. -/
  alloc_ok : Bool
  /-- The value of `capable(CAP_SYS_ADMIN)` for the caller. -/
  cap_sys_admin : Bool
  /-- Whether the kernel is built with `CONFIG_THK_AUDIT`. -/
  config_thk_audit : Bool
  /-- Whether `audit_log_start` returns a buffer. -/
  audit_start_ok : Bool
deriving DecidableEq, Repr

/-- The record written by `thk_audit_log`:
`"thk: uid=%u cmd=\"%.256s\" result=%s"`. -/
structure thk_audit_record where
  uid : Nat
  cmd : List Nat
  label : String
deriving DecidableEq, Repr

/-- The effect of `thk_exec_validate`: its return value, the device afterwards and the
audit record emitted, if any. -/
structure thk_validate_out where
  ret : Int
  dev : thk_device
  audit : Option thk_audit_record

/-- The effect of `thk_ioctl`: its return value, the device afterwards, what was copied to
user space and the audit record emitted, if any. -/
structure thk_ioctl_out where
  ret : Int
  dev : thk_device
  to_user : Option thk_user_write
  audit : Option thk_audit_record

/-! ## thk_exec.c -/

/-- The table `default_blocklist`. -/
def default_blocklist : List String :=
  [ "rm -rf /",
    "rm -rf /*",
    ":()\x7b :|:& \x7d;:",
    "dd if=/dev/zero of=/dev/sd",
    "dd if=/dev/random of=/dev/sd",
    "mkfs.",
    "> /dev/sd",
    "chmod -R 777 /",
    "chown -R",
    "mv /* /dev/null",
    "wget|sh",
    "curl|sh",
    "wget|bash",
    "curl|bash",
    "\\x",
    "/dev/tcp/",
    "nc -e",
    "ncat -e",
    "python -c.*import.*socket",
    "perl -e.*socket" ]

/-- The loop of `thk_exec_init_blocklist`, from index `i`, with `fuel` bounding the
remaining iterations; returns the slots and the final `i`. -/
def init_blocklist_loop : Nat → Nat → List (List Nat) → List (List Nat) × Nat
  | 0, i, bl => (bl, i)
  | fuel + 1, i, bl =>
    if i < default_blocklist.length ∧ i < THK_MAX_BLOCKLIST_ENTRIES then
      init_blocklist_loop fuel (i + 1)
        (bl.set i (strscpy (bl.getD i []) (bytes (default_blocklist.getD i "") ++ [0])
          THK_MAX_BLOCKLIST_PAT))
    else (bl, i)

/-- The function `thk_exec_init_blocklist`. -/
def thk_exec_init_blocklist (dev : thk_device) : thk_device :=
  let r := init_blocklist_loop (default_blocklist.length + 1) 0 dev.blocklist
  { dev with blocklist := r.1, blocklist_count := r.2 }

/-- The text produced by the format `"blocked: matches pattern '%s'"`. -/
def blocked_reason (pat : List Nat) : List Nat :=
  bytes "blocked: matches pattern '" ++ cstr pat ++ bytes "'"

/-- The loop of `thk_check_blocklist` from index `i`, `n` iterations left
(`n = blocklist_count - i`). Returns `blocked` and the reason buffer. Each slot is read
as a buffer of its own; in the array `blocklist[128][64]` this is what `strlen` and `%s`
read whenever the slot holds a NUL among its 64 bytes (`slot_string_in_array`), which
statements about the slots carry as the hypothesis `strlen slot < THK_MAX_BLOCKLIST_PAT`. -/
def check_blocklist_loop (blocklist : List (List Nat)) (cmd : List Nat)
    (reason : List Nat) (reason_len : Nat) : Nat → Nat → Bool × List Nat
  | 0, _ => (false, reason)
  | n + 1, i =>
    if (strnstr cmd (blocklist.getD i []) THK_MAX_CMD_LEN).isSome then
      (true, store_cstr reason (blocked_reason (blocklist.getD i [])) reason_len)
    else check_blocklist_loop blocklist cmd reason reason_len n (i + 1)

/-- The function `thk_check_blocklist`. -/
def thk_check_blocklist (dev : thk_device) (cmd : List Nat) (reason : List Nat)
    (reason_len : Nat) : Bool × List Nat :=
  check_blocklist_loop dev.blocklist cmd reason reason_len dev.blocklist_count 0

/-- The function `thk_uid_hash`. -/
def thk_uid_hash (uid : Nat) : Nat :=
  jhash_1word (from_kuid_munged uid) 0 &&& (THK_RATE_HASH_SIZE - 1)

/-- The bucket `&dev->rate_hash[hash]` selected for a uid. -/
def rate_bucket (uid : Nat) : Fin THK_RATE_HASH_SIZE :=
  ⟨thk_uid_hash uid, Nat.lt_succ_of_le Nat.and_le_right⟩

/-- The `hlist_for_each_entry` loop of `thk_check_rate_limit` over one bucket: `none`
when no entry has the uid, otherwise the `limited` flag and the bucket afterwards.
`elapsed` is the integer difference `now - window_start`; it is the value of the `s64`
subtraction `ktime_sub` whenever that difference lies in the range of `s64`
(`ktime_sub_eq`), which statements about timestamps far apart carry as a hypothesis. -/
def rate_scan (uid : Nat) (now : Int) (limit : Nat) :
    List thk_rate_entry → Option (Bool × List thk_rate_entry)
  | [] => none
  | entry :: rest =>
    if entry.uid = uid then
      let elapsed := now - entry.window_start
      if elapsed > THK_RATE_WINDOW_SECS * NSEC_PER_SEC then
        some (false, { entry with window_start := now, count := 1 } :: rest)
      else if entry.count ≥ limit then
        some (true, entry :: rest)
      else
        some (false, { entry with count := entry.count + 1 } :: rest)
    else
      (rate_scan uid now limit rest).map (fun r => (r.1, entry :: r.2))

/-- The function `thk_check_rate_limit`: the `limited` flag and the device afterwards. -/
def thk_check_rate_limit (env : thk_env) (dev : thk_device) (uid : Nat) :
    Bool × thk_device :=
  let hash := rate_bucket uid
  let now := env.now
  let limit := dev.rate_limit
  if limit = 0 then (false, dev)
  else
    match rate_scan uid now limit (dev.rate_hash hash) with
    | some (limited, bucket) =>
      (limited, { dev with rate_hash := Function.update dev.rate_hash hash bucket })
    | none =>
      if env.alloc_ok then
        let entry : thk_rate_entry := { uid := uid, count := 1, window_start := now }
        (false, { dev with
          rate_hash := Function.update dev.rate_hash hash (entry :: dev.rate_hash hash) })
      else (false, dev)

/-- The function `thk_audit_log`: the record emitted, if any. -/
def thk_audit_log (env : thk_env) (cmd : List Nat) (uid : Nat) (result : Nat) :
    Option thk_audit_record :=
  if env.config_thk_audit then
    if env.audit_start_ok then
      some { uid := from_kuid_munged uid,
             cmd := (cstr cmd).take 256,
             label := if result = THK_RESULT_OK then "allowed"
                      else if result = THK_RESULT_BLOCKED then "blocked"
                      else if result = THK_RESULT_RATE_LIMITED then "rate_limited"
                      else "invalid" }
    else none
  else none

/-- The code of `thk_exec_validate` from the label `out:` on. -/
def thk_exec_validate_out (env : thk_env) (dev : thk_device) (req : thk_exec_request)
    (uid : Nat) (result : thk_exec_result) : thk_validate_out :=
  { ret := 0,
    dev := { dev with last_result := result },
    audit :=
      if dev.audit_enabled ≠ 0 ∧ req.flags &&& THK_EXEC_F_AUDIT ≠ 0 then
        thk_audit_log env req.command uid result.result
      else none }

/-- The function `thk_exec_validate`. Each `goto out` is a call of
`thk_exec_validate_out`. `chk` is the blocklist step: the pair returned by
`thk_check_blocklist` (the flag `blocked` and the reason buffer it may have written)
when the condition `!(req->flags & THK_EXEC_F_FORCE) || !capable(CAP_SYS_ADMIN)` holds,
and no match with the buffer untouched when the step is skipped. -/
def thk_exec_validate (env : thk_env) (dev : thk_device) (req : thk_exec_request) :
    thk_validate_out :=
  let result : thk_exec_result :=
    { result := 0, flags := 0, reason := List.replicate THK_MAX_REASON_LEN 0 }
  let uid := make_kuid req.uid
  let dev := { dev with total_requests := atomic64_inc dev.total_requests }
  if req.command.getD 0 0 = 0 then
    thk_exec_validate_out env dev req uid
      { result with
        result := THK_RESULT_INVALID,
        reason := strscpy result.reason (bytes "empty command" ++ [0]) THK_MAX_REASON_LEN }
  else
    let rl := thk_check_rate_limit env dev uid
    let dev := rl.2
    if rl.1 then
      thk_exec_validate_out env
        { dev with total_rate_limited := atomic64_inc dev.total_rate_limited } req uid
        { result with
          result := THK_RESULT_RATE_LIMITED,
          reason := strscpy result.reason (bytes "rate limit exceeded" ++ [0])
            THK_MAX_REASON_LEN }
    else
      let chk :=
        if req.flags &&& THK_EXEC_F_FORCE = 0 ∨ env.cap_sys_admin = false then
          thk_check_blocklist dev req.command result.reason THK_MAX_REASON_LEN
        else (false, result.reason)
      if chk.1 then
        thk_exec_validate_out env
          { dev with total_blocked := atomic64_inc dev.total_blocked } req uid
          { result with result := THK_RESULT_BLOCKED, reason := chk.2 }
      else
        thk_exec_validate_out env
          { dev with total_allowed := atomic64_inc dev.total_allowed } req uid
          { result with result := THK_RESULT_OK, flags := req.flags, reason := chk.2 }

/-! ## thk_main.c: device creation and ioctl dispatch -/

/-- The device built by `thk_init`: zeroed by `kzalloc`, then `audit_enabled = 1`,
`rate_limit = 10`, the load time and the seeded blocklist. -/
def thk_init (load_time : Int) : thk_device :=
  thk_exec_init_blocklist
    { total_requests := 0, total_blocked := 0, total_allowed := 0, total_rate_limited := 0,
      load_time := load_time,
      audit_enabled := 1,
      rate_limit := 10,
      blocklist_count := 0,
      blocklist := List.replicate THK_MAX_BLOCKLIST_ENTRIES
        (List.replicate THK_MAX_BLOCKLIST_PAT 0),
      rate_hash := fun _ => [],
      last_result := { result := 0, flags := 0, reason := List.replicate THK_MAX_REASON_LEN 0 } }

/-- A request as the selftests build it: a zeroed `struct thk_exec_request` whose command
buffer receives the text through `snprintf`. -/
def mk_request (text : String) (flags uid : Nat) : thk_exec_request :=
  { command := store_cstr (List.replicate THK_MAX_CMD_LEN 0) (bytes text) THK_MAX_CMD_LEN,
    flags := flags, uid := uid }

/-- The tail common to the reading cases of `thk_ioctl`:
`if (copy_to_user(uarg, &x, sizeof(x))) return -EFAULT; return 0;`. -/
def ioctl_copy_to_user (dev : thk_device) (uarg : thk_uarg) (x : thk_user_write) :
    thk_ioctl_out :=
  if uarg.to_user_ok then { ret := 0, dev := dev, to_user := some x, audit := none }
  else { ret := -EFAULT, dev := dev, to_user := none, audit := none }

/-- The function `thk_ioctl`; `dev` is `file->private_data`, the `switch (cmd)` is the
chain of comparisons. -/
def thk_ioctl (env : thk_env) (dev : thk_device) (cmd : Nat) (uarg : thk_uarg) :
    thk_ioctl_out :=
  if cmd = THK_IOC_VERSION then
    ioctl_copy_to_user dev uarg (.version THK_VERSION)
  else if cmd = THK_IOC_EXEC_VALIDATE then
    match uarg.from_user_request with
    | none => { ret := -EFAULT, dev := dev, to_user := none, audit := none }
    | some req =>
      let req := { req with command := req.command.set (THK_MAX_CMD_LEN - 1) 0 }
      let o := thk_exec_validate env dev req
      { ret := o.ret, dev := o.dev, to_user := none, audit := o.audit }
  else if cmd = THK_IOC_EXEC_STATUS then
    ioctl_copy_to_user dev uarg (.result dev.last_result)
  else if cmd = THK_IOC_GET_STATS then
    ioctl_copy_to_user dev uarg
      (.stats
        { total_requests := dev.total_requests,
          total_blocked := dev.total_blocked,
          total_allowed := dev.total_allowed,
          total_rate_limited := dev.total_rate_limited,
          uptime_secs :=
            ((env.now_seconds - dev.load_time.tdiv NSEC_PER_SEC) % 2 ^ 64).toNat })
  else if cmd = THK_IOC_GET_CONFIG then
    ioctl_copy_to_user dev uarg
      (.config
        { audit_enabled := dev.audit_enabled,
          rate_limit := dev.rate_limit,
          blocklist_count := dev.blocklist_count,
          reserved := 0 })
  else if cmd = THK_IOC_SET_CONFIG then
    if env.cap_sys_admin = false then
      { ret := -EPERM, dev := dev, to_user := none, audit := none }
    else
      match uarg.from_user_config with
      | none => { ret := -EFAULT, dev := dev, to_user := none, audit := none }
      | some cfg =>
        { ret := 0,
          dev := { dev with audit_enabled := cfg.audit_enabled, rate_limit := cfg.rate_limit },
          to_user := none, audit := none }
  else
    { ret := -ENOTTY, dev := dev, to_user := none, audit := none }

/-! ## Vocabulary of the statements -/

/-- A pattern `p` occurs in `s` at an offset from which it fits in the first `len` bytes. -/
def occurs_within (p s : List Nat) (len : Nat) : Prop :=
  ∃ k, k + p.length ≤ len ∧ (s.drop k).take p.length = p

/-- The `i`-th configured pattern: the C string held in slot `i` of the blocklist. -/
def pattern (dev : thk_device) (i : Nat) : List Nat := cstr (dev.blocklist.getD i [])

/-- Whether `thk_check_rate_limit` limits a request of `uid` on `dev`. -/
def rate_limited (env : thk_env) (dev : thk_device) (uid : Nat) : Bool :=
  (thk_check_rate_limit env dev (make_kuid uid)).1

/-- Whether the request asks for the blocklist bypass and the caller may have it:
`(req->flags & THK_EXEC_F_FORCE) && capable(CAP_SYS_ADMIN)`. -/
def force_admin (env : thk_env) (req : thk_exec_request) : Bool :=
  decide (req.flags &&& THK_EXEC_F_FORCE ≠ 0) && env.cap_sys_admin

/-- The rate table, as `thk_check_rate_limit` sees and changes it. -/
abbrev rate_table := Fin THK_RATE_HASH_SIZE → List thk_rate_entry

/-- The action of `thk_check_rate_limit` on the rate table alone, for the limit read from
the device: the `limited` flag and the table afterwards (see
`thk_check_rate_limit_eq`). -/
def rate_step (now : Int) (alloc_ok : Bool) (limit uid : Nat) (tbl : rate_table) :
    Bool × rate_table :=
  if limit = 0 then (false, tbl)
  else
    match rate_scan uid now limit (tbl (rate_bucket uid)) with
    | some (limited, bucket) => (limited, Function.update tbl (rate_bucket uid) bucket)
    | none =>
      if alloc_ok then
        (false, Function.update tbl (rate_bucket uid)
          ({ uid := uid, count := 1, window_start := now } :: tbl (rate_bucket uid)))
      else (false, tbl)

/-- The length of the rate window in nanoseconds:
`(s64)THK_RATE_WINDOW_SECS * NSEC_PER_SEC`. -/
@[reducible] def RATE_WINDOW_NS : Int := THK_RATE_WINDOW_SECS * NSEC_PER_SEC

/-- The entry that the bucket scan of `thk_check_rate_limit` finds for a uid: the first
entry of the uid's bucket that carries the uid. -/
def rate_lookup (tbl : rate_table) (uid : Nat) : Option thk_rate_entry :=
  (tbl (rate_bucket uid)).find? (fun e => decide (e.uid = uid))

/-- The three-way update that `thk_check_rate_limit` applies to the entry it found: the
`limited` flag and the entry afterwards. -/
def entry_step (now : Int) (limit : Nat) (e : thk_rate_entry) : Bool × thk_rate_entry :=
  if now - e.window_start > RATE_WINDOW_NS then
    (false, { e with window_start := now, count := 1 })
  else if e.count ≥ limit then (true, e)
  else (false, { e with count := e.count + 1 })

/-- The rate limiter seen from one uid: the `limited` flag and the uid's entry afterwards,
from the uid's entry before (`none`: no entry). -/
def lookup_step (now : Int) (alloc_ok : Bool) (limit uid : Nat)
    (o : Option thk_rate_entry) : Bool × Option thk_rate_entry :=
  if limit = 0 then (false, o)
  else
    match o with
    | some e => ((entry_step now limit e).1, some (entry_step now limit e).2)
    | none =>
      if alloc_ok then (false, some { uid := uid, count := 1, window_start := now })
      else (false, none)

/-- Consecutive calls of `thk_exec_validate`, each with its own environment: the device
after the last call and the result code recorded by each call, in order. -/
def validate_seq (dev : thk_device) :
    List (thk_env × thk_exec_request) → thk_device × List Nat
  | [] => (dev, [])
  | c :: cs =>
    let d := (thk_exec_validate c.1 dev c.2).dev
    ((validate_seq d cs).1, d.last_result.result :: (validate_seq d cs).2)

/-- The rate-limit decisions seen by uid `u` in a sequence of calls: for each call whose
request carries `u`, whether it was recorded as `THK_RESULT_RATE_LIMITED`. -/
def limited_decisions (u : Nat) (dev : thk_device) :
    List (thk_env × thk_exec_request) → List Bool
  | [] => []
  | c :: cs =>
    let d := (thk_exec_validate c.1 dev c.2).dev
    if c.2.uid = u then
      decide (d.last_result.result = THK_RESULT_RATE_LIMITED) :: limited_decisions u d cs
    else limited_decisions u d cs

/-- One call of `thk_ioctl`: what the kernel supplies, the command code and the user
memory behind `arg`. -/
structure thk_ioctl_call where
  env : thk_env
  cmd : Nat
  uarg : thk_uarg

/-- Consecutive `thk_ioctl` calls on one device: the device after the last call. -/
def ioctl_seq (dev : thk_device) : List thk_ioctl_call → thk_device
  | [] => dev
  | c :: cs => ioctl_seq (thk_ioctl c.env dev c.cmd c.uarg).dev cs

/-- Whether a call is a Validate that reached `thk_exec_validate` (its request was copied
in) and was recorded as `THK_RESULT_INVALID`. -/
def call_invalid (dev : thk_device) (c : thk_ioctl_call) : Bool :=
  decide (c.cmd = THK_IOC_EXEC_VALIDATE) && c.uarg.from_user_request.isSome &&
    decide ((thk_ioctl c.env dev c.cmd c.uarg).dev.last_result.result = THK_RESULT_INVALID)

/-- The number of Validate calls of a run whose outcome was Invalid. -/
def invalid_count (dev : thk_device) : List thk_ioctl_call → Nat
  | [] => 0
  | c :: cs =>
    (if call_invalid dev c then 1 else 0)
      + invalid_count (thk_ioctl c.env dev c.cmd c.uarg).dev cs

/-! ## Concrete inputs -/

/-- An unprivileged caller at time `now`, allocation and audit working. -/
def env_user (now : Int) : thk_env :=
  { now := now, now_seconds := now / NSEC_PER_SEC, alloc_ok := true,
    cap_sys_admin := false, config_thk_audit := true, audit_start_ok := true }

/-- A caller holding `CAP_SYS_ADMIN` at time `now`. -/
def env_admin (now : Int) : thk_env :=
  { now := now, now_seconds := now / NSEC_PER_SEC, alloc_ok := true,
    cap_sys_admin := true, config_thk_audit := true, audit_start_ok := true }

/-- A rate table holding one entry, in the bucket of its uid. -/
def rate_table_one (e : thk_rate_entry) : rate_table :=
  Function.update (fun _ => []) (rate_bucket e.uid) [e]

/-- The freshly loaded device with another limit and one rate entry. -/
def dev_with_entry (limit : Nat) (e : thk_rate_entry) : thk_device :=
  { thk_init 0 with rate_limit := limit, rate_hash := rate_table_one e }

/-- User memory holding a request, readable and writable. -/
def uarg_request (req : thk_exec_request) : thk_uarg :=
  { from_user_request := some req, from_user_config := none, to_user_ok := true }

/-- User memory holding a `struct thk_config`, readable and writable. -/
def uarg_config (cfg : thk_config) : thk_uarg :=
  { from_user_request := none, from_user_config := some cfg, to_user_ok := true }

/-- A run of four ioctls by an unprivileged caller: an empty command, `rm -rf /`, a
SetConfig and a GetStats. -/
def sample_ops : List thk_ioctl_call :=
  [ { env := env_user 0, cmd := THK_IOC_EXEC_VALIDATE,
      uarg := uarg_request (mk_request "" 0 1000) },
    { env := env_user 1, cmd := THK_IOC_EXEC_VALIDATE,
      uarg := uarg_request (mk_request "rm -rf /" 0 1000) },
    { env := env_user 2, cmd := THK_IOC_SET_CONFIG,
      uarg := uarg_config { audit_enabled := 0, rate_limit := 0, blocklist_count := 0,
                            reserved := 0 } },
    { env := env_user 3, cmd := THK_IOC_GET_STATS,
      uarg := uarg_config { audit_enabled := 0, rate_limit := 0, blocklist_count := 0,
                            reserved := 0 } } ]

/-- A caller on a kernel built without `CONFIG_THK_AUDIT`. -/
def env_no_audit_config (now : Int) : thk_env :=
  { now := now, now_seconds := now / NSEC_PER_SEC, alloc_ok := true,
    cap_sys_admin := false, config_thk_audit := false, audit_start_ok := true }

/-- A caller for whom `audit_log_start` returns `NULL`. -/
def env_audit_start_fails (now : Int) : thk_env :=
  { now := now, now_seconds := now / NSEC_PER_SEC, alloc_ok := true,
    cap_sys_admin := false, config_thk_audit := true, audit_start_ok := false }

/-- A caller for whom the allocation of a rate entry fails. -/
def env_alloc_fails (now : Int) : thk_env :=
  { now := now, now_seconds := now / NSEC_PER_SEC, alloc_ok := false,
    cap_sys_admin := false, config_thk_audit := true, audit_start_ok := true }

/-- The loop of kernel `strnstr` with its reads of `s1` written down: for every call
`memcmp(s1, s2, l2)` that the loop makes, the offset of `s1` in the searched buffer and
the number `l2` of bytes compared. The control flow is that of `strnstr_loop`. -/
def strnstr_loop_reads (s2 : List Nat) (l2 : Nat) :
    Nat → List Nat → Nat → List (Nat × Nat)
  | 0, _, off => if 0 ≥ l2 then [(off, l2)] else []
  | len + 1, s1, off =>
    if len + 1 ≥ l2 then
      (off, l2) ::
        (if memcmp s1 s2 l2 = 0 then []
         else strnstr_loop_reads s2 l2 len s1.tail (off + 1))
    else []

/-- The byte ranges `(offset, length)` of `s1` that `strnstr(s1, s2, len)` reads. -/
def strnstr_reads (s1 s2 : List Nat) (len : Nat) : List (Nat × Nat) :=
  let l2 := strlen s2
  if l2 = 0 then [] else strnstr_loop_reads s2 l2 len s1 0

/-- The policy state of the device, the fields that `config_lock` protects:
`audit_enabled`, `rate_limit`, `blocklist_count` and the blocklist array. -/
def policy_state (dev : thk_device) : Nat × Nat × Nat × List (List Nat) :=
  (dev.audit_enabled, dev.rate_limit, dev.blocklist_count, dev.blocklist)

/-- Whether a call is a `THK_IOC_SET_CONFIG` issued by a caller for whom
`capable(CAP_SYS_ADMIN)` holds. -/
def privileged_set_config (c : thk_ioctl_call) : Bool :=
  decide (c.cmd = THK_IOC_SET_CONFIG) && c.env.cap_sys_admin

/-- The action of `thk_check_rate_limit` on the rate table, with the bucket of a uid given
by an arbitrary function `hash` in place of `thk_uid_hash`; `rate_step` is the case
`hash = rate_bucket`. -/
def rate_step_hashed (hash : Nat → Fin THK_RATE_HASH_SIZE) (now : Int) (alloc_ok : Bool)
    (limit uid : Nat) (tbl : rate_table) : Bool × rate_table :=
  if limit = 0 then (false, tbl)
  else
    match rate_scan uid now limit (tbl (hash uid)) with
    | some (limited, bucket) => (limited, Function.update tbl (hash uid) bucket)
    | none =>
      if alloc_ok then
        (false, Function.update tbl (hash uid)
          ({ uid := uid, count := 1, window_start := now } :: tbl (hash uid)))
      else (false, tbl)

/-- What varies from one call of `thk_check_rate_limit` to the next: the uid asked for,
the limit read from the device, the time and whether the allocation succeeds. -/
structure rate_call where
  uid : Nat
  limit : Nat
  now : Int
  alloc_ok : Bool
deriving DecidableEq, Repr

/-- The environment of a call of `thk_check_rate_limit`; the function reads the time and
the outcome of the allocation only. -/
def rate_call_env (c : rate_call) : thk_env :=
  { now := c.now, now_seconds := 0, alloc_ok := c.alloc_ok, cap_sys_admin := false,
    config_thk_audit := false, audit_start_ok := false }

/-- Consecutive calls of `thk_check_rate_limit` on one device, `rate_limit` holding the
limit of each call: the decisions in order and the device after the last call. -/
def check_rate_limit_run (dev : thk_device) : List rate_call → List Bool × thk_device
  | [] => ([], dev)
  | c :: cs =>
    let r := thk_check_rate_limit (rate_call_env c) { dev with rate_limit := c.limit } c.uid
    ((r.1 :: (check_rate_limit_run r.2 cs).1), (check_rate_limit_run r.2 cs).2)

/-- Consecutive calls on the rate table alone, for an arbitrary hash function. -/
def rate_run_hashed (hash : Nat → Fin THK_RATE_HASH_SIZE) (tbl : rate_table) :
    List rate_call → List Bool × rate_table
  | [] => ([], tbl)
  | c :: cs =>
    let r := rate_step_hashed hash c.now c.alloc_ok c.limit c.uid tbl
    ((r.1 :: (rate_run_hashed hash r.2 cs).1), (rate_run_hashed hash r.2 cs).2)

/-- The state of the abstract rate limiter: a finite map from identity to
`(count, window_start)`. -/
abbrev rate_map := Finmap (fun _ : Nat => Nat × Int)

/-- The abstract rate limiter of the specification, `check(identity, limit)`: with
`limit = 0` not limited and the map untouched; for an identity found in the map, reset
(`window_start = now`, `count = 1`) when the elapsed time exceeds the window, limited with
the map unchanged when `count >= limit`, `count += 1` otherwise; for an identity not
found, insert `count = 1`, `window_start = now`, or nothing when the allocation fails. -/
def abstract_rate_check (now : Int) (alloc_ok : Bool) (limit identity : Nat)
    (m : rate_map) : Bool × rate_map :=
  if limit = 0 then (false, m)
  else
    match m.lookup identity with
    | some (count, window_start) =>
      if now - window_start > RATE_WINDOW_NS then (false, m.insert identity (1, now))
      else if count ≥ limit then (true, m)
      else (false, m.insert identity (count + 1, window_start))
    | none =>
      if alloc_ok then (false, m.insert identity (1, now)) else (false, m)

/-- Consecutive calls of the abstract rate limiter. -/
def abstract_rate_run (m : rate_map) : List rate_call → List Bool × rate_map
  | [] => ([], m)
  | c :: cs =>
    let r := abstract_rate_check c.now c.alloc_ok c.limit c.uid m
    ((r.1 :: (abstract_rate_run r.2 cs).1), (abstract_rate_run r.2 cs).2)

/-- The entries of the table are exactly the pairs of the map: an entry
`(uid, count, window_start)` is in some bucket if and only if the map sends `uid` to
`(count, window_start)`. -/
def table_represents (tbl : rate_table) (m : rate_map) : Prop :=
  ∀ (uid count : Nat) (window_start : Int),
    (∃ b, ({ uid := uid, count := count, window_start := window_start } : thk_rate_entry)
      ∈ tbl b) ↔ m.lookup uid = some (count, window_start)

/-- The invariant of a rate table filled through the hash function `hash`: every entry
lies in the bucket of its uid and has `count >= 1`, and no bucket holds two entries with
the same uid. -/
def rate_table_inv_hashed (hash : Nat → Fin THK_RATE_HASH_SIZE) (tbl : rate_table) : Prop :=
  ∀ b : Fin THK_RATE_HASH_SIZE,
    (∀ e ∈ tbl b, hash e.uid = b ∧ 1 ≤ e.count) ∧ ((tbl b).map (fun e => e.uid)).Nodup

/-- The invariant of the rate table: every entry lies in the bucket with index
`thk_uid_hash(uid)` and has `count >= 1`, and no bucket holds two entries with the same
uid (so the table holds at most one entry per uid). -/
def rate_table_inv (tbl : rate_table) : Prop :=
  ∀ b : Fin THK_RATE_HASH_SIZE,
    (∀ e ∈ tbl b, rate_bucket e.uid = b ∧ 1 ≤ e.count) ∧
      ((tbl b).map (fun e => e.uid)).Nodup

/-- The three spinlocks of `struct thk_device`. -/
inductive thk_lock where
  | config_lock
  | rate_lock
  | result_lock
deriving DecidableEq, Repr

/-- The steps of a validation that matter for locking: taking and releasing a spinlock,
and the call `thk_audit_log(req->command, uid, result.result)`. -/
inductive thk_event where
  | spin_lock (l : thk_lock)
  | spin_unlock (l : thk_lock)
  | call_thk_audit_log
deriving DecidableEq, Repr

/-- The lock operations of `thk_check_rate_limit`, in program order: `config_lock` around
the read of `rate_limit`; then, unless the limit is 0, `rate_lock` around the bucket
scan and the insertion (both return paths release it). -/
def thk_check_rate_limit_events (dev : thk_device) : List thk_event :=
  [.spin_lock .config_lock, .spin_unlock .config_lock] ++
    (if dev.rate_limit = 0 then []
     else [.spin_lock .rate_lock, .spin_unlock .rate_lock])

/-- The lock operations of `thk_check_blocklist`: `config_lock` around the loop, released
before either `return`. -/
def thk_check_blocklist_events : List thk_event :=
  [.spin_lock .config_lock, .spin_unlock .config_lock]

/-- The events of `thk_exec_validate` from the label `out:` on:
`spin_lock(&dev->config_lock); if (dev->audit_enabled && (req->flags & THK_EXEC_F_AUDIT))
thk_audit_log(...); spin_unlock(&dev->config_lock);` and then `result_lock` around the
store of `last_result`. -/
def thk_exec_validate_out_events (dev : thk_device) (req : thk_exec_request) :
    List thk_event :=
  [.spin_lock .config_lock] ++
    (if dev.audit_enabled ≠ 0 ∧ req.flags &&& THK_EXEC_F_AUDIT ≠ 0 then
      [.call_thk_audit_log] else []) ++
    [.spin_unlock .config_lock, .spin_lock .result_lock, .spin_unlock .result_lock]

/-- The events of `thk_exec_validate` in program order, with the control flow of
`thk_exec_validate`. -/
def thk_exec_validate_events (env : thk_env) (dev : thk_device) (req : thk_exec_request) :
    List thk_event :=
  let uid := make_kuid req.uid
  let dev := { dev with total_requests := atomic64_inc dev.total_requests }
  if req.command.getD 0 0 = 0 then
    thk_exec_validate_out_events dev req
  else
    let rl := thk_check_rate_limit env dev uid
    thk_check_rate_limit_events dev ++
      (if rl.1 then thk_exec_validate_out_events rl.2 req
       else
        (if req.flags &&& THK_EXEC_F_FORCE = 0 ∨ env.cap_sys_admin = false then
          thk_check_blocklist_events else []) ++
          thk_exec_validate_out_events rl.2 req)

/-- For every call of `thk_audit_log` in a sequence of events, the locks held at the
moment of the call; `held` is the list of locks held before the first event. -/
def audit_call_locks (held : List thk_lock) : List thk_event → List (List thk_lock)
  | [] => []
  | .spin_lock l :: es => audit_call_locks (l :: held) es
  | .spin_unlock l :: es => audit_call_locks (held.erase l) es
  | .call_thk_audit_log :: es => held :: audit_call_locks held es

/-- The locks held after a sequence of events. -/
def locks_held (held : List thk_lock) : List thk_event → List thk_lock
  | [] => held
  | .spin_lock l :: es => locks_held (l :: held) es
  | .spin_unlock l :: es => locks_held (held.erase l) es
  | .call_thk_audit_log :: es => locks_held held es

/-! ## tools/thk/thkd.c: the JSON response of the daemon -/

/-- The value of `THK_MAX_RESPONSE_LEN` (tools/thk/thk_common.h). -/
@[reducible] def THK_MAX_RESPONSE_LEN : Nat := 65536
/-- The value of `THK_MAX_STEPS`. -/
@[reducible] def THK_MAX_STEPS : Nat := 32
/-- The value of `THK_MAX_DESC_LEN`. -/
@[reducible] def THK_MAX_DESC_LEN : Nat := 512
/-- The value of `THK_MAX_SUMMARY_LEN`. -/
@[reducible] def THK_MAX_SUMMARY_LEN : Nat := 1024
/-- The C constant `INT_MAX`. -/
@[reducible] def INT_MAX : Int := 2147483647

/-- The C `struct thk_step` (thk_common.h); `description` and `command` are the buffers
of `THK_MAX_DESC_LEN` and `THK_MAX_CMD_LEN` bytes. -/
structure thk_step where
  index : Int
  description : List Nat
  command : List Nat
  flags : Nat
deriving DecidableEq, Repr

/-- The C `struct thk_response`; `steps` is the array of `THK_MAX_STEPS` steps. -/
structure thk_response where
  summary : List Nat
  steps : List thk_step
  step_count : Int
deriving DecidableEq, Repr

/-- One byte stored through the pointer `out`: the index and the value. -/
abbrev out_write := Int × Nat

/-- The cast `(int)out_len` of a `size_t`: the low 32 bits read as a signed number. -/
def size_to_int (n : Nat) : Int :=
  if n % 2 ^ 32 < 2 ^ 31 then ((n % 2 ^ 32 : Nat) : Int)
  else ((n % 2 ^ 32 : Nat) : Int) - 2 ^ 32

/-- The expression `out_len - off` with `off` an `int`: `off` is converted to `size_t` and
the difference is taken modulo `2 ^ 64`. -/
def size_sub (out_len : Nat) (off : Int) : Nat := (((out_len : Int) - off) % 2 ^ 64).toNat

/-- The bytes `s` stored at the indices `off`, `off + 1`, ... -/
def bytes_at : Int → List Nat → List out_write
  | _, [] => []
  | off, b :: bs => (off, b) :: bytes_at (off + 1) bs

/-- The call `snprintf(out + off, n, ...)` whose formatted text is `s`: the value
returned and the bytes stored. With `n = 0` nothing is stored; otherwise at most `n - 1`
bytes of the text and a NUL are stored; the value returned is the length of the whole
text. `eoverflow` says what the C library does when `n` exceeds `INT_MAX`, which is what
`out_len - off` is once `off` has passed `out_len`: `false` for a library that formats
anyway (the C standard), `true` for one that stores nothing and returns `-1` with
`EOVERFLOW` (POSIX). -/
def snprintf (eoverflow : Bool) (off : Int) (n : Nat) (s : List Nat) :
    Int × List out_write :=
  if eoverflow = true ∧ (n : Int) > INT_MAX then (-1, [])
  else if n = 0 then ((s.length : Int), [])
  else
    ((s.length : Int),
      bytes_at off (s.take (n - 1)) ++ [(off + ((s.take (n - 1)).length : Int), 0)])

/-- The decimal digits of a number, as `%u` prints them. -/
def fmt_u (n : Nat) : List Nat := (Nat.toDigits 10 n).map Char.toNat

/-- The text that `%d` prints for an `int`. -/
def fmt_d (i : Int) : List Nat :=
  if i < 0 then 45 :: fmt_u (-i).toNat else fmt_u i.toNat

/-- The statement `off += snprintf(out + off, out_len - off, ...)` with formatted text
`s`, on the pair of `off` and the bytes stored so far. -/
def json_snprintf (eoverflow : Bool) (out_len : Nat) (s : List Nat)
    (w : Int × List out_write) : Int × List out_write :=
  (w.1 + (snprintf eoverflow w.1 (size_sub out_len w.1) s).1,
    w.2 ++ (snprintf eoverflow w.1 (size_sub out_len w.1) s).2)

/-- The statement `out[off++] = c`. -/
def json_putc (c : Nat) (w : Int × List out_write) : Int × List out_write :=
  (w.1 + 1, w.2 ++ [(w.1, c)])

/-- The escaping loop
`for (s = str; *s && off < (int)out_len - 10; s++) { if (*s == '"' || *s == '\\')
out[off++] = '\\'; out[off++] = *s; }` over the bytes of `str` from `s` on; `lim` is
`(int)out_len - 10`. -/
def json_escape_loop (lim : Int) : List Nat → Int × List out_write → Int × List out_write
  | [], w => w
  | c :: cs, w =>
    if c ≠ 0 ∧ w.1 < lim then
      json_escape_loop lim cs
        (json_putc c (if c = 34 ∨ c = 92 then json_putc 92 w else w))
    else w

/-- The body of the loop over the steps of `build_json_response`, for step `i`. -/
def json_step (eoverflow : Bool) (out_len : Nat) (i : Nat) (step : thk_step)
    (w : Int × List out_write) : Int × List out_write :=
  let w := if i > 0 then json_putc 44 w else w
  let w := json_snprintf eoverflow out_len
    (bytes "\x7b\"index\":" ++ fmt_d step.index ++ bytes ",\"description\":\"") w
  let w := json_escape_loop (size_to_int out_len - 10) step.description w
  let w := json_snprintf eoverflow out_len (bytes "\",\"command\":\"") w
  let w := json_escape_loop (size_to_int out_len - 10) step.command w
  json_snprintf eoverflow out_len (bytes "\",\"flags\":" ++ fmt_u step.flags ++ bytes "\x7d") w

/-- A `struct thk_step` of zero bytes, read when `steps[i]` lies behind the list. -/
def zero_step : thk_step :=
  { index := 0, description := List.replicate THK_MAX_DESC_LEN 0,
    command := List.replicate THK_MAX_CMD_LEN 0, flags := 0 }

/-- The loop `for (i = 0; i < resp->step_count; i++)` from index `i` on; the first
argument bounds the iterations left and is `step_count - i` on entry. -/
def json_steps_loop (eoverflow : Bool) (resp : thk_response) (out_len : Nat) :
    Nat → Nat → Int × List out_write → Int × List out_write
  | 0, _, w => w
  | fuel + 1, i, w =>
    if (i : Int) < resp.step_count then
      json_steps_loop eoverflow resp out_len fuel (i + 1)
        (json_step eoverflow out_len i (resp.steps.getD i zero_step) w)
    else w

/-- The function `build_json_response` (tools/thk/thkd.c): the value returned and the
bytes stored through `out`, in program order. -/
def build_json_response (eoverflow : Bool) (resp : thk_response) (out_len : Nat) :
    Int × List out_write :=
  let w : Int × List out_write := (0, [])
  let w := json_snprintf eoverflow out_len (bytes "\x7b\"type\":\"response\",\"summary\":\"") w
  let w := json_escape_loop (size_to_int out_len - 10) resp.summary w
  let w := json_snprintf eoverflow out_len (bytes "\",\"steps\":[") w
  let w := json_steps_loop eoverflow resp out_len resp.step_count.toNat 0 w
  json_snprintf eoverflow out_len (bytes "]\x7d") w

/-- The property claimed for `build_json_response`: every byte is stored at an index
below `out_len` and the offset returned is below `out_len`. -/
def json_within (out_len : Nat) (r : Int × List out_write) : Prop :=
  (∀ p ∈ r.2, 0 ≤ p.1 ∧ p.1 < (out_len : Int)) ∧ r.1 < (out_len : Int)

/-- A response of `n` steps with empty summary, descriptions and commands. -/
def empty_response (n : Nat) : thk_response :=
  { summary := List.replicate THK_MAX_SUMMARY_LEN 0,
    steps := (List.range n).map (fun i => { zero_step with index := (i : Int) }),
    step_count := (n : Int) }

/-- A response that fits `struct thk_response`: 32 steps whose commands hold 4095 bytes
`a` and a NUL, with empty summary and descriptions. -/
def long_response : thk_response :=
  { summary := List.replicate THK_MAX_SUMMARY_LEN 0,
    steps := List.replicate THK_MAX_STEPS
      { index := 1, description := List.replicate THK_MAX_DESC_LEN 0,
        command := List.replicate (THK_MAX_CMD_LEN - 1) 97 ++ [0], flags := 0 },
    step_count := 32 }

/-- Kernel `ktime_sub(lhs, rhs)` on `ktime_t`, an `s64` (the kernel is built with
`-fno-strict-overflow`): the difference, wrapped into the range of `s64`. -/
def ktime_sub (lhs rhs : Int) : Int :=
  (lhs - rhs + 9223372036854775808) % 18446744073709551616 - 9223372036854775808

/-- The bytes of the array `char blocklist[THK_MAX_BLOCKLIST_ENTRIES][THK_MAX_BLOCKLIST_PAT]`
from the start of slot `i` on: slot `i`, then the slots behind it. This is what `strlen`
and `%s` walk through when they are handed `dev->blocklist[i]`. -/
def blocklist_bytes_from (blocklist : List (List Nat)) (i : Nat) : List Nat :=
  (blocklist.drop i).flatten

/-- The loop of kernel `strnstr` as in `strnstr_loop`, returning with the offset found the
byte ranges `(offset, length)` of `s1` that its `memcmp` calls read, in program order. -/
def strnstr_loop_traced (s2 : List Nat) (l2 : Nat) :
    Nat → List Nat → Nat → Option Nat × List (Nat × Nat)
  | 0, _, off => if 0 ≥ l2 then (some off, [(off, l2)]) else (none, [])
  | len + 1, s1, off =>
    if len + 1 ≥ l2 then
      if memcmp s1 s2 l2 = 0 then (some off, [(off, l2)])
      else
        ((strnstr_loop_traced s2 l2 len s1.tail (off + 1)).1,
          (off, l2) :: (strnstr_loop_traced s2 l2 len s1.tail (off + 1)).2)
    else (none, [])

/-- Kernel `strnstr(s1, s2, len)` with the byte ranges of `s1` that it reads. -/
def strnstr_traced (s1 s2 : List Nat) (len : Nat) : Option Nat × List (Nat × Nat) :=
  let l2 := strlen s2
  if l2 = 0 then (some 0, []) else strnstr_loop_traced s2 l2 len s1 0

/-- The loop of `thk_check_blocklist` as in `check_blocklist_loop`, returning with its
result the byte ranges of `cmd` read by its calls
`strnstr(cmd, dev->blocklist[i], THK_MAX_CMD_LEN)`. -/
def check_blocklist_loop_traced (blocklist : List (List Nat)) (cmd : List Nat)
    (reason : List Nat) (reason_len : Nat) :
    Nat → Nat → (Bool × List Nat) × List (Nat × Nat)
  | 0, _ => ((false, reason), [])
  | n + 1, i =>
    if (strnstr_traced cmd (blocklist.getD i []) THK_MAX_CMD_LEN).1.isSome then
      ((true, store_cstr reason (blocked_reason (blocklist.getD i [])) reason_len),
        (strnstr_traced cmd (blocklist.getD i []) THK_MAX_CMD_LEN).2)
    else
      ((check_blocklist_loop_traced blocklist cmd reason reason_len n (i + 1)).1,
        (strnstr_traced cmd (blocklist.getD i []) THK_MAX_CMD_LEN).2 ++
          (check_blocklist_loop_traced blocklist cmd reason reason_len n (i + 1)).2)

/-- The function `thk_check_blocklist` with the byte ranges of `cmd` that it reads. -/
def thk_check_blocklist_traced (dev : thk_device) (cmd : List Nat) (reason : List Nat)
    (reason_len : Nat) : (Bool × List Nat) × List (Nat × Nat) :=
  check_blocklist_loop_traced dev.blocklist cmd reason reason_len dev.blocklist_count 0

/-- The bytes of `cmd` that `thk_audit_log` reads: the conversion `%.256s` walks through
the string up to its NUL, and through 256 bytes at most. -/
def thk_audit_log_reads (env : thk_env) (cmd : List Nat) : List (Nat × Nat) :=
  if env.config_thk_audit then
    if env.audit_start_ok then [(0, min 256 (strlen cmd + 1))] else []
  else []

/-- The function `thk_exec_validate` as in `thk_exec_validate`, returning with its effect
the byte ranges `(offset, length)` of `req->command` that it reads, in program order:
the test of `req->command[0]`, the `memcmp` calls of the `strnstr` calls made by
`thk_check_blocklist`, and the `%.256s` of `thk_audit_log` (called from `out:` under the
condition tested there). -/
def thk_exec_validate_traced (env : thk_env) (dev : thk_device) (req : thk_exec_request) :
    thk_validate_out × List (Nat × Nat) :=
  let result : thk_exec_result :=
    { result := 0, flags := 0, reason := List.replicate THK_MAX_REASON_LEN 0 }
  let uid := make_kuid req.uid
  let dev := { dev with total_requests := atomic64_inc dev.total_requests }
  let out_reads : List (Nat × Nat) :=
    if dev.audit_enabled ≠ 0 ∧ req.flags &&& THK_EXEC_F_AUDIT ≠ 0 then
      thk_audit_log_reads env req.command
    else []
  if req.command.getD 0 0 = 0 then
    (thk_exec_validate_out env dev req uid
      { result with
        result := THK_RESULT_INVALID,
        reason := strscpy result.reason (bytes "empty command" ++ [0]) THK_MAX_REASON_LEN },
      (0, 1) :: out_reads)
  else
    let rl := thk_check_rate_limit env dev uid
    let dev := rl.2
    if rl.1 then
      (thk_exec_validate_out env
        { dev with total_rate_limited := atomic64_inc dev.total_rate_limited } req uid
        { result with
          result := THK_RESULT_RATE_LIMITED,
          reason := strscpy result.reason (bytes "rate limit exceeded" ++ [0])
            THK_MAX_REASON_LEN },
        (0, 1) :: out_reads)
    else
      let chk :=
        if req.flags &&& THK_EXEC_F_FORCE = 0 ∨ env.cap_sys_admin = false then
          thk_check_blocklist_traced dev req.command result.reason THK_MAX_REASON_LEN
        else ((false, result.reason), [])
      if chk.1.1 then
        (thk_exec_validate_out env
          { dev with total_blocked := atomic64_inc dev.total_blocked } req uid
          { result with result := THK_RESULT_BLOCKED, reason := chk.1.2 },
          (0, 1) :: (chk.2 ++ out_reads))
      else
        (thk_exec_validate_out env
          { dev with total_allowed := atomic64_inc dev.total_allowed } req uid
          { result with result := THK_RESULT_OK, flags := req.flags, reason := chk.1.2 },
          (0, 1) :: (chk.2 ++ out_reads))

/-! ## Lemmas on the library routines -/

theorem cstr_eq_take (buf : List Nat) : buf.take (strlen buf) = cstr buf := by
  unfold strlen cstr
  induction buf with
  | nil => simp
  | cons b bs ih =>
    by_cases h : b = 0
    · subst h; simp [List.takeWhile]
    · have hb : (b != 0) = true := by simpa using h
      simp only [List.takeWhile, hb, List.length_cons, List.take_succ_cons, ih]

theorem cstr_length (buf : List Nat) : (cstr buf).length = strlen buf := rfl

theorem memcmp_eq_zero_iff (s1 s2 : List Nat) :
    memcmp s1 s2 (strlen s2) = 0 ↔ s1.take (strlen s2) = cstr s2 := by
  unfold memcmp
  rw [cstr_eq_take]
  split <;> simp_all

theorem strnstr_loop_isSome_iff (s2 : List Nat) :
    ∀ (len : Nat) (s1 : List Nat) (off : Nat),
      (strnstr_loop s2 (strlen s2) len s1 off).isSome = true ↔
        occurs_within (cstr s2) s1 len := by
  intro len
  induction len with
  | zero =>
    intro s1 off
    unfold occurs_within
    simp only [strnstr_loop, cstr_length]
    constructor
    · intro h
      split at h
      · rename_i h0
        have h0 : strlen s2 = 0 := by omega
        refine ⟨0, by omega, ?_⟩
        have : cstr s2 = [] := List.length_eq_zero.mp h0
        simp [h0, this]
      · simp at h
    · rintro ⟨k, hk, _⟩
      have h0 : strlen s2 = 0 := by omega
      simp [h0]
  | succ n ih =>
    intro s1 off
    unfold occurs_within at *
    simp only [strnstr_loop, cstr_length] at *
    by_cases hle : n + 1 ≥ strlen s2
    · rw [if_pos hle]
      by_cases hm : memcmp s1 s2 (strlen s2) = 0
      · rw [if_pos hm]
        simp only [Option.isSome_some, true_iff]
        exact ⟨0, by omega, by simpa using (memcmp_eq_zero_iff s1 s2).mp hm⟩
      · rw [if_neg hm, ih]
        constructor
        · rintro ⟨k, hk, he⟩
          refine ⟨k + 1, by omega, ?_⟩
          cases s1 with
          | nil => simpa using he
          | cons a as => simpa using he
        · rintro ⟨k, hk, he⟩
          cases k with
          | zero =>
            exfalso; apply hm
            exact (memcmp_eq_zero_iff s1 s2).mpr (by simpa using he)
          | succ k =>
            refine ⟨k, by omega, ?_⟩
            cases s1 with
            | nil => simpa using he
            | cons a as => simpa using he
    · rw [if_neg hle]
      simp only [Option.isSome_none, Bool.false_eq_true, false_iff]
      rintro ⟨k, hk, _⟩
      omega

theorem strnstr_isSome_iff (s1 s2 : List Nat) (len : Nat) :
    (strnstr s1 s2 len).isSome = true ↔ occurs_within (cstr s2) s1 len := by
  unfold strnstr
  by_cases h0 : strlen s2 = 0
  · simp only [h0, if_true, Option.isSome_some, true_iff]
    have : cstr s2 = [] := List.length_eq_zero.mp h0
    exact ⟨0, by simp [this], by simp [this]⟩
  · simp only [h0, if_false]
    exact strnstr_loop_isSome_iff s2 len s1 0

theorem occurs_within_infix (p s : List Nat) (len : Nat) (h : occurs_within p s len) :
    p <:+: s := by
  obtain ⟨k, _, he⟩ := h
  refine ⟨s.take k, (s.drop k).drop p.length, ?_⟩
  have h1 := List.take_append_drop p.length (s.drop k)
  rw [he] at h1
  rw [List.append_assoc, h1, List.take_append_drop]

theorem occurs_within_iff_infix (p s : List Nat) (len : Nat) (hlen : s.length ≤ len) :
    occurs_within p s len ↔ p <:+: s := by
  constructor
  · rintro ⟨k, _, he⟩
    refine ⟨s.take k, (s.drop k).drop p.length, ?_⟩
    have h1 := List.take_append_drop p.length (s.drop k)
    rw [he] at h1
    rw [List.append_assoc, h1, List.take_append_drop]
  · rintro ⟨a, b, rfl⟩
    refine ⟨a.length, ?_, ?_⟩
    · simp at hlen; omega
    · simp

theorem cstr_infix (buf : List Nat) : cstr buf <:+: buf :=
  (List.takeWhile_prefix _).isInfix

theorem cstr_ne_zero (buf : List Nat) : ∀ b ∈ cstr buf, b ≠ 0 := by
  intro b hb
  have := List.mem_takeWhile_imp hb
  simpa using this

theorem cstr_append_zero (t rest : List Nat) (h : ∀ b ∈ t, b ≠ 0) :
    cstr (t ++ 0 :: rest) = t := by
  unfold cstr
  induction t with
  | nil => simp [List.takeWhile]
  | cons a as ih =>
    have ha : (a != 0) = true := by simpa using h a (List.mem_cons_self a as)
    have has : ∀ b ∈ as, b ≠ 0 := fun b hb => h b (List.mem_cons_of_mem a hb)
    have ih2 := ih has
    rw [List.cons_append, List.takeWhile_cons, if_pos ha, ih2]

theorem cstr_store_cstr (dst s : List Nat) (count : Nat) (hs : ∀ b ∈ s, b ≠ 0)
    (hlen : s.length < count) : cstr (store_cstr dst s count) = s := by
  unfold store_cstr
  have hc : count ≠ 0 := by omega
  have ht : s.take (count - 1) = s := List.take_of_length_le (by omega)
  simp only [hc, if_false, ht]
  exact cstr_append_zero s _ hs

theorem blocked_reason_length (pat : List Nat) :
    (blocked_reason pat).length = 27 + strlen pat := by
  unfold blocked_reason strlen
  have h1 : (bytes "blocked: matches pattern '").length = 26 := by decide
  have h2 : (bytes "'").length = 1 := by decide
  simp only [List.length_append, h1, h2]
  omega

theorem blocked_reason_ne_zero (pat : List Nat) : ∀ b ∈ blocked_reason pat, b ≠ 0 := by
  intro b hb
  unfold blocked_reason at hb
  rw [List.mem_append, List.mem_append] at hb
  rcases hb with (hb | hb) | hb
  · have : ∀ x ∈ bytes "blocked: matches pattern '", x ≠ 0 := by decide
    exact this b hb
  · exact cstr_ne_zero pat b hb
  · have : ∀ x ∈ bytes "'", x ≠ 0 := by decide
    exact this b hb

/-- The reason text stored for a matched slot is the whole formatted text whenever the
pattern is shorter than a blocklist slot. -/
theorem cstr_blocked_reason (pat : List Nat) (hpat : strlen pat < THK_MAX_BLOCKLIST_PAT) :
    cstr (store_cstr (List.replicate THK_MAX_REASON_LEN 0) (blocked_reason pat)
      THK_MAX_REASON_LEN) = blocked_reason pat := by
  apply cstr_store_cstr _ _ _ (blocked_reason_ne_zero pat)
  rw [blocked_reason_length]
  simp only [THK_MAX_BLOCKLIST_PAT, THK_MAX_REASON_LEN] at *
  omega

/-! ## Lemmas on `thk_check_blocklist` -/

/-- The loop of `thk_check_blocklist` either stops at the first slot of its range that
`strnstr` finds in the command, or finds none and leaves the reason buffer alone. -/
theorem check_blocklist_loop_cases (bl : List (List Nat)) (cmd reason : List Nat)
    (rl : Nat) : ∀ (n i : Nat),
    (∃ j, i ≤ j ∧ j < i + n ∧
        (strnstr cmd (bl.getD j []) THK_MAX_CMD_LEN).isSome = true ∧
        (∀ k, i ≤ k → k < j → (strnstr cmd (bl.getD k []) THK_MAX_CMD_LEN).isSome = false) ∧
        check_blocklist_loop bl cmd reason rl n i
          = (true, store_cstr reason (blocked_reason (bl.getD j [])) rl)) ∨
    ((∀ k, i ≤ k → k < i + n →
        (strnstr cmd (bl.getD k []) THK_MAX_CMD_LEN).isSome = false) ∧
      check_blocklist_loop bl cmd reason rl n i = (false, reason)) := by
  intro n
  induction n with
  | zero =>
    intro i
    right
    exact ⟨fun k h1 h2 => by omega, rfl⟩
  | succ n ih =>
    intro i
    by_cases hm : (strnstr cmd (bl.getD i []) THK_MAX_CMD_LEN).isSome = true
    · left
      refine ⟨i, le_refl i, by omega, hm, fun k h1 h2 => by omega, ?_⟩
      simp only [check_blocklist_loop, hm, if_true]
    · have hm' : (strnstr cmd (bl.getD i []) THK_MAX_CMD_LEN).isSome = false := by
        simpa using hm
      have hstep : check_blocklist_loop bl cmd reason rl (n + 1) i
          = check_blocklist_loop bl cmd reason rl n (i + 1) := by
        simp only [check_blocklist_loop, hm', Bool.false_eq_true, if_false]
      rcases ih (i + 1) with ⟨j, h1, h2, h3, h4, h5⟩ | ⟨h1, h2⟩
      · left
        refine ⟨j, by omega, by omega, h3, ?_, by rw [hstep, h5]⟩
        intro k hk1 hk2
        by_cases hki : k = i
        · rw [hki]; exact hm'
        · exact h4 k (by omega) hk2
      · right
        refine ⟨?_, by rw [hstep, h2]⟩
        intro k hk1 hk2
        by_cases hki : k = i
        · rw [hki]; exact hm'
        · exact h1 k (by omega) (by omega)

/-- A slot is found by `strnstr` exactly when its pattern occurs in the command bytes,
for a command buffer of at most `THK_MAX_CMD_LEN` bytes. -/
theorem slot_found_iff (dev : thk_device) (cmd : List Nat) (i : Nat)
    (hlen : cmd.length ≤ THK_MAX_CMD_LEN) :
    (strnstr cmd (dev.blocklist.getD i []) THK_MAX_CMD_LEN).isSome = true ↔
      pattern dev i <:+: cmd := by
  rw [strnstr_isSome_iff, occurs_within_iff_infix _ _ _ hlen]
  rfl

/-- The two ways `thk_check_blocklist` ends, in terms of pattern occurrence. -/
theorem thk_check_blocklist_cases (dev : thk_device) (cmd reason : List Nat) (rl : Nat)
    (hlen : cmd.length ≤ THK_MAX_CMD_LEN) :
    (∃ j, j < dev.blocklist_count ∧ pattern dev j <:+: cmd ∧
        (∀ k, k < j → ¬ pattern dev k <:+: cmd) ∧
        thk_check_blocklist dev cmd reason rl
          = (true, store_cstr reason (blocked_reason (dev.blocklist.getD j [])) rl)) ∨
    ((∀ k, k < dev.blocklist_count → ¬ pattern dev k <:+: cmd) ∧
      thk_check_blocklist dev cmd reason rl = (false, reason)) := by
  unfold thk_check_blocklist
  rcases check_blocklist_loop_cases dev.blocklist cmd reason rl dev.blocklist_count 0
    with ⟨j, _, h2, h3, h4, h5⟩ | ⟨h1, h2⟩
  · left
    refine ⟨j, by omega, (slot_found_iff dev cmd j hlen).mp h3, ?_, h5⟩
    intro k hk hin
    have := h4 k (Nat.zero_le k) hk
    rw [(slot_found_iff dev cmd k hlen).mpr hin] at this
    exact Bool.noConfusion this
  · right
    refine ⟨?_, h2⟩
    intro k hk hin
    have := h1 k (Nat.zero_le k) (by omega)
    rw [(slot_found_iff dev cmd k hlen).mpr hin] at this
    exact Bool.noConfusion this

/-! ## Lemmas on `thk_check_rate_limit` and `thk_exec_validate` -/

/-- The function `thk_check_rate_limit` reads only the limit and the rate table and writes
only the rate table. -/
theorem thk_check_rate_limit_eq (env : thk_env) (dev : thk_device) (uid : Nat) :
    thk_check_rate_limit env dev uid =
      ((rate_step env.now env.alloc_ok dev.rate_limit uid dev.rate_hash).1,
        { dev with
          rate_hash := (rate_step env.now env.alloc_ok dev.rate_limit uid dev.rate_hash).2 }) := by
  unfold thk_check_rate_limit rate_step
  by_cases h0 : dev.rate_limit = 0
  · rw [if_pos h0, if_pos h0]
  · rw [if_neg h0, if_neg h0]
    cases hs : rate_scan uid env.now dev.rate_limit (dev.rate_hash (rate_bucket uid)) with
    | some r => simp only
    | none =>
      cases ha : env.alloc_ok <;> simp

theorem rate_limited_eq (env : thk_env) (dev : thk_device) (uid : Nat) :
    rate_limited env dev uid =
      (rate_step env.now env.alloc_ok dev.rate_limit uid dev.rate_hash).1 := by
  unfold rate_limited make_kuid
  rw [thk_check_rate_limit_eq]

/-- Outcome of `thk_exec_validate` on an empty command. -/
theorem validate_empty (env : thk_env) (dev : thk_device) (req : thk_exec_request)
    (h : req.command.getD 0 0 = 0) :
    (thk_exec_validate env dev req).dev =
      { dev with
        total_requests := atomic64_inc dev.total_requests,
        last_result :=
          { result := THK_RESULT_INVALID, flags := 0,
            reason := strscpy (List.replicate THK_MAX_REASON_LEN 0)
              (bytes "empty command" ++ [0]) THK_MAX_REASON_LEN } } := by
  unfold thk_exec_validate thk_exec_validate_out
  simp only [h, if_true]

/-- Outcome of `thk_exec_validate` on a rate-limited request. -/
theorem validate_limited (env : thk_env) (dev : thk_device) (req : thk_exec_request)
    (h : req.command.getD 0 0 ≠ 0) (hl : rate_limited env dev req.uid = true) :
    (thk_exec_validate env dev req).dev =
      { dev with
        total_requests := atomic64_inc dev.total_requests,
        total_rate_limited := atomic64_inc dev.total_rate_limited,
        rate_hash := (rate_step env.now env.alloc_ok dev.rate_limit req.uid dev.rate_hash).2,
        last_result :=
          { result := THK_RESULT_RATE_LIMITED, flags := 0,
            reason := strscpy (List.replicate THK_MAX_REASON_LEN 0)
              (bytes "rate limit exceeded" ++ [0]) THK_MAX_REASON_LEN } } := by
  rw [rate_limited_eq] at hl
  unfold thk_exec_validate thk_exec_validate_out
  simp only [h, if_false, thk_check_rate_limit_eq, make_kuid, hl, if_true]

/-- Outcome of `thk_exec_validate` on a request that passes the rate limiter: `chk` is the
result of the blocklist step. -/
theorem validate_checked (env : thk_env) (dev : thk_device) (req : thk_exec_request)
    (h : req.command.getD 0 0 ≠ 0) (hl : rate_limited env dev req.uid = false) :
    (thk_exec_validate env dev req).dev =
      (let chk :=
        if force_admin env req = false then
          thk_check_blocklist dev req.command (List.replicate THK_MAX_REASON_LEN 0)
            THK_MAX_REASON_LEN
        else (false, List.replicate THK_MAX_REASON_LEN 0)
      if chk.1 = true then
        { dev with
          total_requests := atomic64_inc dev.total_requests,
          total_blocked := atomic64_inc dev.total_blocked,
          rate_hash := (rate_step env.now env.alloc_ok dev.rate_limit req.uid dev.rate_hash).2,
          last_result := { result := THK_RESULT_BLOCKED, flags := 0, reason := chk.2 } }
      else
        { dev with
          total_requests := atomic64_inc dev.total_requests,
          total_allowed := atomic64_inc dev.total_allowed,
          rate_hash := (rate_step env.now env.alloc_ok dev.rate_limit req.uid dev.rate_hash).2,
          last_result := { result := THK_RESULT_OK, flags := req.flags, reason := chk.2 } }) := by
  rw [rate_limited_eq] at hl
  have hfa : (req.flags &&& THK_EXEC_F_FORCE = 0 ∨ env.cap_sys_admin = false) ↔
      force_admin env req = false := by
    unfold force_admin
    cases env.cap_sys_admin <;> simp
  unfold thk_exec_validate thk_exec_validate_out
  simp only [h, if_false, thk_check_rate_limit_eq, make_kuid, hl, Bool.false_eq_true, hfa]
  cases hf : force_admin env req
  · simp only [if_true]
    unfold thk_check_blocklist
    split <;> rfl
  · simp only [Bool.true_eq_false, if_false, Bool.false_eq_true]

/-- Without a bound on the buffer: when no pattern of the first `blocklist_count` slots
occurs in the command bytes, `thk_check_blocklist` reports no match. -/
theorem thk_check_blocklist_none (dev : thk_device) (cmd reason : List Nat) (rl : Nat)
    (hnone : ∀ i, i < dev.blocklist_count → ¬ pattern dev i <:+: cmd) :
    thk_check_blocklist dev cmd reason rl = (false, reason) := by
  unfold thk_check_blocklist
  rcases check_blocklist_loop_cases dev.blocklist cmd reason rl dev.blocklist_count 0
    with ⟨j, _, h2, h3, _, _⟩ | ⟨_, h2⟩
  · exfalso
    apply hnone j (by omega)
    exact occurs_within_infix _ _ _ ((strnstr_isSome_iff _ _ _).mp h3)
  · exact h2

/-! ## The bucket scan in terms of the entry it finds -/

theorem entry_step_uid (now : Int) (limit : Nat) (e : thk_rate_entry) :
    (entry_step now limit e).2.uid = e.uid := by
  unfold entry_step
  split
  · rfl
  · split <;> rfl

theorem rate_scan_none (uid : Nat) (now : Int) (limit : Nat) :
    ∀ l : List thk_rate_entry,
      l.find? (fun e => decide (e.uid = uid)) = none → rate_scan uid now limit l = none := by
  intro l
  induction l with
  | nil => intro _; rfl
  | cons a as ih =>
    intro h
    by_cases ha : a.uid = uid
    · simp [List.find?, ha] at h
    · have h2 : as.find? (fun e => decide (e.uid = uid)) = none := by
        simpa [List.find?, ha] using h
      simp only [rate_scan, ha, if_false, ih h2, Option.map_none']

theorem rate_scan_some (uid : Nat) (now : Int) (limit : Nat) :
    ∀ (l : List thk_rate_entry) (e : thk_rate_entry),
      l.find? (fun x => decide (x.uid = uid)) = some e →
      ∃ l', rate_scan uid now limit l = some ((entry_step now limit e).1, l') ∧
        l'.find? (fun x => decide (x.uid = uid)) = some (entry_step now limit e).2 ∧
        (∀ v, v ≠ uid →
          l'.find? (fun x => decide (x.uid = v)) = l.find? (fun x => decide (x.uid = v))) ∧
        ((entry_step now limit e).2 = e → l' = l) := by
  intro l
  induction l with
  | nil => intro e h; simp at h
  | cons a as ih =>
    intro e h
    by_cases ha : a.uid = uid
    · have hae : a = e := by simpa [List.find?, ha] using h
      subst hae
      refine ⟨(entry_step now limit a).2 :: as, ?_, ?_, ?_, ?_⟩
      · unfold entry_step
        simp only [rate_scan, ha, if_true, RATE_WINDOW_NS]
        split
        · rfl
        · split <;> rfl
      · have : (entry_step now limit a).2.uid = uid := by rw [entry_step_uid]; exact ha
        simp [List.find?, this]
      · intro v hv
        have h1 : ¬ (entry_step now limit a).2.uid = v := by
          rw [entry_step_uid, ha]; exact fun h => hv h.symm
        have h2 : ¬ a.uid = v := by rw [ha]; exact fun h => hv h.symm
        simp [List.find?, h1, h2]
      · intro heq
        rw [heq]
    · have h2 : as.find? (fun x => decide (x.uid = uid)) = some e := by
        simpa [List.find?, ha] using h
      obtain ⟨l', h3, h4, h5, h6⟩ := ih e h2
      refine ⟨a :: l', ?_, ?_, ?_, ?_⟩
      · simp only [rate_scan, ha, if_false, h3, Option.map_some']
      · simpa [List.find?, ha] using h4
      · intro v hv
        by_cases hav : a.uid = v
        · simp [List.find?, hav]
        · simpa [List.find?, hav] using h5 v hv
      · intro heq
        rw [h6 heq]

/-- Seen from the uid that calls, `thk_check_rate_limit` acts on the uid's entry as
`lookup_step` says. -/
theorem rate_step_self (now : Int) (a : Bool) (limit uid : Nat) (tbl : rate_table) :
    (rate_step now a limit uid tbl).1 = (lookup_step now a limit uid (rate_lookup tbl uid)).1 ∧
    rate_lookup (rate_step now a limit uid tbl).2 uid
      = (lookup_step now a limit uid (rate_lookup tbl uid)).2 := by
  unfold rate_step lookup_step
  by_cases h0 : limit = 0
  · simp only [h0, if_true, and_self]
  · simp only [h0, if_false]
    cases hl : rate_lookup tbl uid with
    | none =>
      have hs := rate_scan_none uid now limit (tbl (rate_bucket uid)) hl
      rw [hs]
      cases a
      · simp only [Bool.false_eq_true, if_false, hl, and_self]
      · simp only [if_true, true_and]
        unfold rate_lookup
        simp [List.find?]
    | some e =>
      obtain ⟨l', h1, h2, _, _⟩ := rate_scan_some uid now limit (tbl (rate_bucket uid)) e hl
      rw [h1]
      simp only [true_and]
      unfold rate_lookup
      simp [h2]

/-- A call of one uid leaves the entry found for every other uid as it was, also when
both uids share a bucket. -/
theorem rate_step_other (now : Int) (a : Bool) (limit uid v : Nat) (tbl : rate_table)
    (hv : v ≠ uid) :
    rate_lookup (rate_step now a limit uid tbl).2 v = rate_lookup tbl v := by
  unfold rate_step
  by_cases h0 : limit = 0
  · simp only [h0, if_true]
  · simp only [h0, if_false]
    by_cases hb : rate_bucket v = rate_bucket uid
    · cases hl : rate_lookup tbl uid with
      | none =>
        have hs := rate_scan_none uid now limit (tbl (rate_bucket uid)) hl
        rw [hs]
        cases a
        · simp only [Bool.false_eq_true, if_false]
        · simp only [if_true]
          unfold rate_lookup
          simp only [Function.update_apply, hb, if_true]
          have : ¬ uid = v := fun h => hv h.symm
          simp [List.find?, this]
      | some e =>
        obtain ⟨l', h1, _, h3, _⟩ := rate_scan_some uid now limit (tbl (rate_bucket uid)) e hl
        rw [h1]
        unfold rate_lookup
        simp only [Function.update_apply, hb, if_true]
        exact h3 v hv
    · have hupd : ∀ b, rate_lookup (Function.update tbl (rate_bucket uid) b) v
          = rate_lookup tbl v := by
        intro b
        unfold rate_lookup
        rw [Function.update_noteq hb]
      cases hs : rate_scan uid now limit (tbl (rate_bucket uid)) with
      | none =>
        cases a
        · simp only [Bool.false_eq_true, if_false]
        · simp only [if_true]
          exact hupd _
      | some r => exact hupd _

/-- A limited decision leaves the whole table as it was. -/
theorem rate_step_limited_table (now : Int) (a : Bool) (limit uid : Nat) (tbl : rate_table)
    (h : (rate_step now a limit uid tbl).1 = true) :
    (rate_step now a limit uid tbl).2 = tbl := by
  unfold rate_step at *
  by_cases h0 : limit = 0
  · simp only [h0, if_true]
  · simp only [h0, if_false] at *
    cases hl : rate_lookup tbl uid with
    | none =>
      have hs := rate_scan_none uid now limit (tbl (rate_bucket uid)) hl
      rw [hs] at h
      cases a <;> simp at h
    | some e =>
      obtain ⟨l', h1, _, _, h4⟩ := rate_scan_some uid now limit (tbl (rate_bucket uid)) e hl
      rw [h1] at h ⊢
      simp only at h ⊢
      have he : (entry_step now limit e).2 = e := by
        unfold entry_step at h ⊢
        split
        · rename_i hc; simp [hc] at h
        · split
          · rfl
          · rename_i hc1 hc2; simp [hc1, hc2] at h
      rw [h4 he]
      exact Function.update_eq_self _ _

/-- A request that passes the rate limiter ends as Blocked or as Ok. -/
theorem validate_checked_cases (env : thk_env) (dev : thk_device) (req : thk_exec_request)
    (h : req.command.getD 0 0 ≠ 0) (hl : rate_limited env dev req.uid = false) :
    ∃ r,
      (thk_exec_validate env dev req).dev =
        { dev with
          total_requests := atomic64_inc dev.total_requests,
          total_blocked := atomic64_inc dev.total_blocked,
          rate_hash := (rate_step env.now env.alloc_ok dev.rate_limit req.uid dev.rate_hash).2,
          last_result := { result := THK_RESULT_BLOCKED, flags := 0, reason := r } } ∨
      (thk_exec_validate env dev req).dev =
        { dev with
          total_requests := atomic64_inc dev.total_requests,
          total_allowed := atomic64_inc dev.total_allowed,
          rate_hash := (rate_step env.now env.alloc_ok dev.rate_limit req.uid dev.rate_hash).2,
          last_result := { result := THK_RESULT_OK, flags := req.flags, reason := r } } := by
  rw [validate_checked env dev req h hl]
  generalize (if force_admin env req = false then
      thk_check_blocklist dev req.command (List.replicate THK_MAX_REASON_LEN 0)
        THK_MAX_REASON_LEN
    else (false, List.replicate THK_MAX_REASON_LEN 0)) = chk
  obtain ⟨b, r⟩ := chk
  refine ⟨r, ?_⟩
  cases b
  · right; simp
  · left; simp

/-! ## The validation engine: what every call does -/

/-- The rate table after a call: untouched for an empty command, otherwise what the rate
limiter left. -/
theorem validate_rate_hash (env : thk_env) (dev : thk_device) (req : thk_exec_request) :
    (thk_exec_validate env dev req).dev.rate_hash =
      if req.command.getD 0 0 = 0 then dev.rate_hash
      else (rate_step env.now env.alloc_ok dev.rate_limit req.uid dev.rate_hash).2 := by
  by_cases h : req.command.getD 0 0 = 0
  · rw [validate_empty env dev req h, if_pos h]
  · rw [if_neg h]
    cases hl : rate_limited env dev req.uid
    · obtain ⟨r, hr | hr⟩ := validate_checked_cases env dev req h hl <;> rw [hr]
    · rw [validate_limited env dev req h hl]

/-- A call never changes the policy fields. -/
theorem validate_policy (env : thk_env) (dev : thk_device) (req : thk_exec_request) :
    (thk_exec_validate env dev req).dev.rate_limit = dev.rate_limit ∧
    (thk_exec_validate env dev req).dev.blocklist = dev.blocklist ∧
    (thk_exec_validate env dev req).dev.blocklist_count = dev.blocklist_count ∧
    (thk_exec_validate env dev req).dev.audit_enabled = dev.audit_enabled := by
  by_cases h : req.command.getD 0 0 = 0
  · rw [validate_empty env dev req h]
    exact ⟨rfl, rfl, rfl, rfl⟩
  · cases hl : rate_limited env dev req.uid
    · obtain ⟨r, hr | hr⟩ := validate_checked_cases env dev req h hl <;> rw [hr] <;>
        exact ⟨rfl, rfl, rfl, rfl⟩
    · rw [validate_limited env dev req h hl]
      exact ⟨rfl, rfl, rfl, rfl⟩

/-- The recorded result is `THK_RESULT_INVALID` exactly for an empty command. -/
theorem validate_invalid_iff (env : thk_env) (dev : thk_device) (req : thk_exec_request) :
    (thk_exec_validate env dev req).dev.last_result.result = THK_RESULT_INVALID ↔
      req.command.getD 0 0 = 0 := by
  by_cases h : req.command.getD 0 0 = 0
  · rw [validate_empty env dev req h]
    exact ⟨fun _ => h, fun _ => rfl⟩
  · cases hl : rate_limited env dev req.uid
    · obtain ⟨r, hr | hr⟩ := validate_checked_cases env dev req h hl <;> rw [hr]
      · show (1 : Nat) = 3 ↔ _
        exact ⟨fun hc => absurd hc (by decide), fun hc => absurd hc h⟩
      · show (0 : Nat) = 3 ↔ _
        exact ⟨fun hc => absurd hc (by decide), fun hc => absurd hc h⟩
    · rw [validate_limited env dev req h hl]
      show (2 : Nat) = 3 ↔ _
      exact ⟨fun hc => absurd hc (by decide), fun hc => absurd hc h⟩

/-- The recorded result is `THK_RESULT_RATE_LIMITED` exactly for a non-empty command that
the rate limiter limits. -/
theorem validate_limited_iff (env : thk_env) (dev : thk_device) (req : thk_exec_request) :
    (thk_exec_validate env dev req).dev.last_result.result = THK_RESULT_RATE_LIMITED ↔
      (req.command.getD 0 0 ≠ 0 ∧
        (rate_step env.now env.alloc_ok dev.rate_limit req.uid dev.rate_hash).1 = true) := by
  by_cases h : req.command.getD 0 0 = 0
  · rw [validate_empty env dev req h]
    show (3 : Nat) = 2 ↔ _
    exact ⟨fun hc => absurd hc (by decide), fun hc => absurd h hc.1⟩
  · cases hl : rate_limited env dev req.uid
    · have hl2 := hl
      rw [rate_limited_eq] at hl2
      obtain ⟨r, hr | hr⟩ := validate_checked_cases env dev req h hl <;> rw [hr]
      · show (1 : Nat) = 2 ↔ _
        refine ⟨fun hc => absurd hc (by decide), fun hc => ?_⟩
        rw [hl2] at hc
        exact absurd hc.2 (by decide)
      · show (0 : Nat) = 2 ↔ _
        refine ⟨fun hc => absurd hc (by decide), fun hc => ?_⟩
        rw [hl2] at hc
        exact absurd hc.2 (by decide)
    · rw [validate_limited env dev req h hl]
      rw [rate_limited_eq] at hl
      exact ⟨fun _ => ⟨h, hl⟩, fun _ => rfl⟩

/-! ## Requests as user space builds them -/

theorem store_cstr_zeroed (n : Nat) (s : List Nat) (count : Nat) (hs : s.length < count)
    (hc : count ≤ n) :
    store_cstr (List.replicate n 0) s count = s ++ List.replicate (n - s.length) 0 := by
  unfold store_cstr
  have hc0 : count ≠ 0 := by omega
  have ht : s.take (count - 1) = s := List.take_of_length_le (by omega)
  simp only [hc0, if_false, ht, List.drop_replicate]
  congr 1
  have : n - s.length = (n - (s.length + 1)) + 1 := by omega
  rw [this, List.replicate_succ]

/-- The command buffer of `mk_request`: the text, then NUL bytes up to
`THK_MAX_CMD_LEN`. -/
theorem mk_request_command (text : String) (flags uid : Nat)
    (h : (bytes text).length < THK_MAX_CMD_LEN) :
    (mk_request text flags uid).command =
      bytes text ++ List.replicate (THK_MAX_CMD_LEN - (bytes text).length) 0 := by
  unfold mk_request
  exact store_cstr_zeroed THK_MAX_CMD_LEN (bytes text) THK_MAX_CMD_LEN h (le_refl _)

theorem mk_request_length (text : String) (flags uid : Nat)
    (h : (bytes text).length < THK_MAX_CMD_LEN) :
    (mk_request text flags uid).command.length = THK_MAX_CMD_LEN := by
  rw [mk_request_command text flags uid h, List.length_append, List.length_replicate]
  omega

theorem mk_request_first (text : String) (flags uid : Nat)
    (h : (bytes text).length < THK_MAX_CMD_LEN) :
    (mk_request text flags uid).command.getD 0 0 = (bytes text).getD 0 0 := by
  rw [mk_request_command text flags uid h]
  cases bytes text with
  | nil => rfl
  | cons a as => rfl

/-- A non-empty pattern without NUL bytes occurs in a NUL-padded text exactly when it
occurs in the text. -/
theorem infix_zero_padded (p text pad : List Nat) (hp : p ≠ [])
    (hpz : ∀ b ∈ p, b ≠ 0) (hpad : ∀ b ∈ pad, b = 0) :
    p <:+: text ++ pad ↔ p <:+: text := by
  constructor
  · rintro ⟨s, t, h⟩
    rcases List.append_eq_append_iff.mp h with ⟨a, h1, _⟩ | ⟨c, h1, h2⟩
    · exact ⟨s, a, h1.symm⟩
    · rcases List.append_eq_append_iff.mp h1 with ⟨a, h3, h4⟩ | ⟨d, h3, h4⟩
      · -- text = s ++ a, p = a ++ c
        have hc : c = [] := by
          cases c with
          | nil => rfl
          | cons x xs =>
            exfalso
            have hx1 : x ∈ pad := by rw [h2]; simp
            have hx2 : x ∈ p := by rw [h4]; simp
            exact hpz x hx2 (hpad x hx1)
        rw [hc, List.append_nil] at h4
        exact ⟨s, [], by rw [List.append_nil, h4, h3]⟩
      · -- s = text ++ d, c = d ++ p
        exfalso
        cases p with
        | nil => exact hp rfl
        | cons x xs =>
          have hx1 : x ∈ pad := by rw [h2, h4]; simp
          exact hpz x (List.mem_cons_self x xs) (hpad x hx1)
  · intro h
    exact h.trans (List.infix_append' [] text pad)

/-- Occurrence of a configured pattern in a request built by `mk_request`. -/
theorem pattern_infix_mk_request (dev : thk_device) (i : Nat) (text : String)
    (flags uid : Nat) (h : (bytes text).length < THK_MAX_CMD_LEN)
    (hp : pattern dev i ≠ []) :
    pattern dev i <:+: (mk_request text flags uid).command ↔
      pattern dev i <:+: bytes text := by
  rw [mk_request_command text flags uid h]
  apply infix_zero_padded _ _ _ hp (cstr_ne_zero _)
  intro b hb
  exact (List.mem_replicate.mp hb).2

/-! ## The validation engine: outcomes -/

/-- C1: a non-empty command that passes the rate limiter and contains one of the first
`blocklist_count` patterns is recorded as `THK_RESULT_BLOCKED` unless the request
carries FORCE and the caller holds `CAP_SYS_ADMIN`; the recorded reason is the complete
text `blocked: matches pattern '<p>'` for a configured pattern `p` that occurs in the
command. The command is the content of the request's command field, the bytes the
matcher is given; patterns are shorter than a blocklist slot. -/
theorem blocked_unless_force_and_admin (env : thk_env) (dev : thk_device)
    (req : thk_exec_request)
    (hne : req.command.getD 0 0 ≠ 0)
    (hlen : req.command.length ≤ THK_MAX_CMD_LEN)
    (hrl : rate_limited env dev req.uid = false)
    (hslots : ∀ i, i < dev.blocklist_count →
      strlen (dev.blocklist.getD i []) < THK_MAX_BLOCKLIST_PAT)
    (hocc : ∃ i, i < dev.blocklist_count ∧ pattern dev i <:+: req.command)
    (hfa : req.flags &&& THK_EXEC_F_FORCE = 0 ∨ env.cap_sys_admin = false) :
    (thk_exec_validate env dev req).dev.last_result.result = THK_RESULT_BLOCKED ∧
    ∃ j, j < dev.blocklist_count ∧ pattern dev j <:+: req.command ∧
      cstr (thk_exec_validate env dev req).dev.last_result.reason =
        bytes "blocked: matches pattern '" ++ pattern dev j ++ bytes "'" := by
  have hforce : force_admin env req = false := by
    unfold force_admin
    rcases hfa with h | h
    · simp [h]
    · simp [h]
  rw [validate_checked env dev req hne hrl]
  simp only [hforce, if_true]
  rcases thk_check_blocklist_cases dev req.command (List.replicate THK_MAX_REASON_LEN 0)
    THK_MAX_REASON_LEN hlen with ⟨j, hj, hin, _, heq⟩ | ⟨hnone, _⟩
  · rw [heq]
    refine ⟨rfl, j, hj, hin, ?_⟩
    simp only [if_true]
    rw [cstr_blocked_reason _ (hslots j hj)]
    rfl
  · obtain ⟨i, hi, hin⟩ := hocc
    exact absurd hin (hnone i hi)

/-- A command that passes the rate limiter and holds no configured pattern is allowed. -/
theorem validate_ok_of_no_pattern (env : thk_env) (dev : thk_device)
    (req : thk_exec_request)
    (hne : req.command.getD 0 0 ≠ 0)
    (hrl : rate_limited env dev req.uid = false)
    (hnone : ∀ i, i < dev.blocklist_count → ¬ pattern dev i <:+: req.command) :
    (thk_exec_validate env dev req).dev.last_result.result = THK_RESULT_OK := by
  rw [validate_checked env dev req hne hrl]
  rw [thk_check_blocklist_none dev req.command _ _ hnone]
  simp

/-- On the content of the command field: a non-empty request that passes the rate limiter
and whose 4096-byte command field contains none of the first `blocklist_count` patterns
is recorded as `THK_RESULT_OK`, whatever the flags and the privilege of the caller. -/
theorem ok_when_no_pattern_occurs (env : thk_env) (dev : thk_device)
    (req : thk_exec_request)
    (hne : req.command.getD 0 0 ≠ 0)
    (hrl : rate_limited env dev req.uid = false)
    (hnone : ∀ i, i < dev.blocklist_count → ¬ pattern dev i <:+: req.command) :
    (thk_exec_validate env dev req).dev.last_result.result = THK_RESULT_OK :=
  validate_ok_of_no_pattern env dev req hne hrl hnone

/-- C3: an empty command (`command[0] = NUL`) is recorded as `THK_RESULT_INVALID` with
reason `empty command`, for every device, flag word, uid and privilege; the device
changes in `total_requests` and `last_result` only, so the rate table and the three
other counters are as before. -/
theorem empty_command_invalid (env : thk_env) (dev : thk_device) (req : thk_exec_request)
    (hempty : req.command.getD 0 0 = 0) :
    (thk_exec_validate env dev req).dev.last_result.result = THK_RESULT_INVALID ∧
    cstr (thk_exec_validate env dev req).dev.last_result.reason = bytes "empty command" ∧
    (thk_exec_validate env dev req).dev.rate_hash = dev.rate_hash ∧
    (thk_exec_validate env dev req).dev.total_blocked = dev.total_blocked ∧
    (thk_exec_validate env dev req).dev.total_allowed = dev.total_allowed ∧
    (thk_exec_validate env dev req).dev.total_rate_limited = dev.total_rate_limited ∧
    (thk_exec_validate env dev req).dev.total_requests = atomic64_inc dev.total_requests ∧
    (thk_exec_validate env dev req).dev =
      { dev with
        total_requests := (thk_exec_validate env dev req).dev.total_requests,
        last_result := (thk_exec_validate env dev req).dev.last_result } := by
  rw [validate_empty env dev req hempty]
  refine ⟨rfl, ?_, rfl, rfl, rfl, rfl, rfl, rfl⟩
  show cstr (strscpy (List.replicate THK_MAX_REASON_LEN 0) (bytes "empty command" ++ [0])
    THK_MAX_REASON_LEN) = bytes "empty command"
  decide

/-- C7: with FORCE set and `CAP_SYS_ADMIN` held, a non-empty command that passes the
rate limiter is recorded as `THK_RESULT_OK` whatever the blocklist holds;
`total_allowed` is incremented and `total_blocked` is unchanged. -/
theorem force_admin_skips_blocklist (env : thk_env) (dev : thk_device)
    (req : thk_exec_request)
    (hne : req.command.getD 0 0 ≠ 0)
    (hrl : rate_limited env dev req.uid = false)
    (hforce : req.flags &&& THK_EXEC_F_FORCE ≠ 0)
    (hadmin : env.cap_sys_admin = true) :
    (thk_exec_validate env dev req).dev.last_result.result = THK_RESULT_OK ∧
    (thk_exec_validate env dev req).dev.total_allowed = atomic64_inc dev.total_allowed ∧
    (dev.total_allowed + 1 < 2 ^ 64 →
      (thk_exec_validate env dev req).dev.total_allowed = dev.total_allowed + 1) ∧
    (thk_exec_validate env dev req).dev.total_blocked = dev.total_blocked := by
  have hfa : force_admin env req = true := by
    unfold force_admin
    simp [hforce, hadmin]
  have hv := validate_checked env dev req hne hrl
  simp only [hfa, Bool.true_eq_false, if_false, Bool.false_eq_true] at hv
  rw [hv]
  refine ⟨rfl, rfl, ?_, rfl⟩
  intro hlt
  show atomic64_inc dev.total_allowed = dev.total_allowed + 1
  unfold atomic64_inc
  exact Nat.mod_eq_of_lt hlt

/-- C9: a non-empty command that the rate limiter limits is recorded as
`THK_RESULT_RATE_LIMITED`, whatever the flags, the privilege and the blocklist;
`total_rate_limited` is incremented and `total_blocked` and `total_allowed` are
unchanged. -/
theorem rate_limit_precedes_blocklist (env : thk_env) (dev : thk_device)
    (req : thk_exec_request)
    (hne : req.command.getD 0 0 ≠ 0)
    (hrl : rate_limited env dev req.uid = true) :
    (thk_exec_validate env dev req).dev.last_result.result = THK_RESULT_RATE_LIMITED ∧
    (thk_exec_validate env dev req).dev.total_rate_limited
      = atomic64_inc dev.total_rate_limited ∧
    (dev.total_rate_limited + 1 < 2 ^ 64 →
      (thk_exec_validate env dev req).dev.total_rate_limited
        = dev.total_rate_limited + 1) ∧
    (thk_exec_validate env dev req).dev.total_blocked = dev.total_blocked ∧
    (thk_exec_validate env dev req).dev.total_allowed = dev.total_allowed := by
  rw [validate_limited env dev req hne hrl]
  refine ⟨rfl, rfl, ?_, rfl, rfl⟩
  intro hlt
  show atomic64_inc dev.total_rate_limited = dev.total_rate_limited + 1
  unfold atomic64_inc
  exact Nat.mod_eq_of_lt hlt

/-- C10: whenever a request is recorded as Blocked, the reason names `blocklist[i]` for
the smallest index `i < blocklist_count` whose pattern occurs in the command, where
occurring is containment of the pattern's bytes as a contiguous run of the command's
bytes (`<:+:` on byte lists: case-sensitive, unanchored, nothing escaped or expanded). -/
theorem blocked_reason_names_first_match (env : thk_env) (dev : thk_device)
    (req : thk_exec_request)
    (hlen : req.command.length ≤ THK_MAX_CMD_LEN)
    (hslots : ∀ i, i < dev.blocklist_count →
      strlen (dev.blocklist.getD i []) < THK_MAX_BLOCKLIST_PAT)
    (hb : (thk_exec_validate env dev req).dev.last_result.result = THK_RESULT_BLOCKED) :
    ∃ i, i < dev.blocklist_count ∧ pattern dev i <:+: req.command ∧
      (∀ k, k < i → ¬ pattern dev k <:+: req.command) ∧
      cstr (thk_exec_validate env dev req).dev.last_result.reason =
        bytes "blocked: matches pattern '" ++ pattern dev i ++ bytes "'" := by
  by_cases h : req.command.getD 0 0 = 0
  · rw [validate_empty env dev req h] at hb
    have hb2 : (3 : Nat) = 1 := hb
    exact absurd hb2 (by decide)
  · cases hl : rate_limited env dev req.uid
    · rw [validate_checked env dev req h hl] at hb ⊢
      cases hf : force_admin env req
      · simp only [hf, if_true] at hb ⊢
        rcases thk_check_blocklist_cases dev req.command (List.replicate THK_MAX_REASON_LEN 0)
          THK_MAX_REASON_LEN hlen with ⟨j, hj, hin, hmin, heq⟩ | ⟨_, heq⟩
        · rw [heq]
          refine ⟨j, hj, hin, hmin, ?_⟩
          simp only [if_true]
          rw [cstr_blocked_reason _ (hslots j hj)]
          rfl
        · rw [heq] at hb
          simp at hb
      · simp [hf] at hb
    · rw [validate_limited env dev req h hl] at hb
      have hb2 : (2 : Nat) = 1 := hb
      exact absurd hb2 (by decide)

/-- The empty-command check and the rate limiter do not read the flags or the
privilege of the caller. -/
theorem validate_flags_admin_irrelevant (env : thk_env) (dev : thk_device)
    (req : thk_exec_request) (flags2 : Nat) (admin2 : Bool) :
    ((thk_exec_validate env dev req).dev.last_result.result = THK_RESULT_INVALID ↔
      (thk_exec_validate { env with cap_sys_admin := admin2 } dev
        { req with flags := flags2 }).dev.last_result.result = THK_RESULT_INVALID) ∧
    ((thk_exec_validate env dev req).dev.last_result.result = THK_RESULT_RATE_LIMITED ↔
      (thk_exec_validate { env with cap_sys_admin := admin2 } dev
        { req with flags := flags2 }).dev.last_result.result = THK_RESULT_RATE_LIMITED) ∧
    (thk_exec_validate env dev req).dev.rate_hash =
      (thk_exec_validate { env with cap_sys_admin := admin2 } dev
        { req with flags := flags2 }).dev.rate_hash := by
  refine ⟨?_, ?_, ?_⟩
  · rw [validate_invalid_iff, validate_invalid_iff]
  · rw [validate_limited_iff, validate_limited_iff]
  · rw [validate_rate_hash, validate_rate_hash]

/-- C8: two runs of `thk_exec_validate` on the same device, command, uid and time that
differ only in the FORCE bit of the flags (`toggle_force`) and/or in whether the caller
holds `CAP_SYS_ADMIN` (`admin2`) agree on whether the outcome is Invalid, agree on
whether it is RateLimited, and leave the same rate table. -/
theorem force_never_bypasses_empty_check_or_rate_limit (env : thk_env) (dev : thk_device)
    (req : thk_exec_request) (toggle_force admin2 : Bool) :
    ((thk_exec_validate env dev req).dev.last_result.result = THK_RESULT_INVALID ↔
      (thk_exec_validate { env with cap_sys_admin := admin2 } dev
        { req with flags := if toggle_force then req.flags ^^^ THK_EXEC_F_FORCE
                            else req.flags }).dev.last_result.result
        = THK_RESULT_INVALID) ∧
    ((thk_exec_validate env dev req).dev.last_result.result = THK_RESULT_RATE_LIMITED ↔
      (thk_exec_validate { env with cap_sys_admin := admin2 } dev
        { req with flags := if toggle_force then req.flags ^^^ THK_EXEC_F_FORCE
                            else req.flags }).dev.last_result.result
        = THK_RESULT_RATE_LIMITED) ∧
    (thk_exec_validate env dev req).dev.rate_hash =
      (thk_exec_validate { env with cap_sys_admin := admin2 } dev
        { req with flags := if toggle_force then req.flags ^^^ THK_EXEC_F_FORCE
                            else req.flags }).dev.rate_hash :=
  validate_flags_admin_irrelevant env dev req _ admin2

/-! ## The rate limiter -/

theorem check_rate_limit_flag (env : thk_env) (dev : thk_device) (uid : Nat) :
    (thk_check_rate_limit env dev uid).1 =
      (lookup_step env.now env.alloc_ok dev.rate_limit uid
        (rate_lookup dev.rate_hash uid)).1 := by
  rw [thk_check_rate_limit_eq]
  exact (rate_step_self _ _ _ _ _).1

theorem check_rate_limit_lookup (env : thk_env) (dev : thk_device) (uid : Nat) :
    rate_lookup (thk_check_rate_limit env dev uid).2.rate_hash uid =
      (lookup_step env.now env.alloc_ok dev.rate_limit uid
        (rate_lookup dev.rate_hash uid)).2 := by
  rw [thk_check_rate_limit_eq]
  exact (rate_step_self _ _ _ _ _).2

/-- Inside the range of `s64` the wrapped difference of `ktime_sub` is the difference. -/
theorem ktime_sub_eq (lhs rhs : Int) (h1 : -9223372036854775808 ≤ lhs - rhs)
    (h2 : lhs - rhs ≤ 9223372036854775807) : ktime_sub lhs rhs = lhs - rhs := by
  unfold ktime_sub
  omega

/-- Outside the range of `s64` the wrapped difference is another number: the last
nanosecond of the range against a window started at -10. -/
theorem ktime_sub_wraps :
    ktime_sub 9223372036854775807 (-10) = -9223372036854775799 := by
  decide

/-- C5: in `thk_check_rate_limit` with a limit of at least 1 and an entry `e` found for
the uid, at a time `now` for which `now - window_start` lies in the range of `s64`, where
the `s64` difference that `ktime_sub` computes is the difference itself. When
`now - window_start` is strictly more than 60 s (60 * 10^9 ns) the call is not limited and
leaves the entry with `count = 1` and `window_start = now`, whatever the count was; a
validation of that uid is then never recorded as RateLimited, and it is recorded as Ok
when its command field holds no pattern. When the elapsed time is 60 s or less the
window start stays, the count grows by one only below the limit, and with
`count >= limit` the call is limited and the table is unchanged. -/
theorem window_reset_strictly_after_60s (env : thk_env) (dev : thk_device) (uid : Nat)
    (e : thk_rate_entry)
    (hlimit : 1 ≤ dev.rate_limit)
    (hentry : rate_lookup dev.rate_hash uid = some e)
    (hrange : -9223372036854775808 ≤ env.now - e.window_start ∧
      env.now - e.window_start ≤ 9223372036854775807) :
    (env.now - e.window_start > 60000000000 →
      (thk_check_rate_limit env dev uid).1 = false ∧
      rate_lookup (thk_check_rate_limit env dev uid).2.rate_hash uid
        = some { e with window_start := env.now, count := 1 } ∧
      (∀ req : thk_exec_request, req.uid = uid → req.command.getD 0 0 ≠ 0 →
        (∀ i, i < dev.blocklist_count → ¬ pattern dev i <:+: req.command) →
        (thk_exec_validate env dev req).dev.last_result.result = THK_RESULT_OK) ∧
      (∀ req : thk_exec_request, req.uid = uid →
        (thk_exec_validate env dev req).dev.last_result.result
          ≠ THK_RESULT_RATE_LIMITED)) ∧
    (env.now - e.window_start ≤ 60000000000 →
      rate_lookup (thk_check_rate_limit env dev uid).2.rate_hash uid
        = some (if dev.rate_limit ≤ e.count then e else { e with count := e.count + 1 }) ∧
      ((thk_check_rate_limit env dev uid).1 = true ↔ dev.rate_limit ≤ e.count) ∧
      (dev.rate_limit ≤ e.count →
        (thk_check_rate_limit env dev uid).2.rate_hash = dev.rate_hash)) ∧
    ktime_sub env.now e.window_start = env.now - e.window_start := by
  have h0 : dev.rate_limit ≠ 0 := by omega
  have hflag := check_rate_limit_flag env dev uid
  have hlook := check_rate_limit_lookup env dev uid
  rw [hentry] at hflag hlook
  simp only [lookup_step, h0, if_false] at hflag hlook
  refine ⟨?_, ?_, ktime_sub_eq _ _ hrange.1 hrange.2⟩
  · intro hgt
    have hes : entry_step env.now dev.rate_limit e
        = (false, { e with window_start := env.now, count := 1 }) := by
      have hgt2 : env.now - e.window_start > RATE_WINDOW_NS := by
        simp only [RATE_WINDOW_NS, THK_RATE_WINDOW_SECS, NSEC_PER_SEC]
        omega
      unfold entry_step
      rw [if_pos hgt2]
    rw [hes] at hflag hlook
    refine ⟨hflag, hlook, ?_, ?_⟩
    · intro req hu hne hnone
      apply validate_ok_of_no_pattern env dev req hne _ hnone
      unfold rate_limited make_kuid
      rw [hu]
      exact hflag
    · intro req hu hlim
      have hl := ((validate_limited_iff env dev req).mp hlim).2
      rw [← rate_limited_eq] at hl
      unfold rate_limited make_kuid at hl
      rw [hu, hflag] at hl
      exact Bool.noConfusion hl
  · intro hle
    have hng : ¬ env.now - e.window_start > RATE_WINDOW_NS := by
      simp only [RATE_WINDOW_NS, THK_RATE_WINDOW_SECS, NSEC_PER_SEC]
      omega
    by_cases hc : dev.rate_limit ≤ e.count
    · have hes : entry_step env.now dev.rate_limit e = (true, e) := by
        unfold entry_step
        rw [if_neg hng, if_pos hc]
      rw [hes] at hflag hlook
      refine ⟨by rw [hlook, if_pos hc], ⟨fun _ => hc, fun _ => hflag⟩, fun _ => ?_⟩
      rw [thk_check_rate_limit_eq]
      apply rate_step_limited_table
      rw [thk_check_rate_limit_eq] at hflag
      exact hflag
    · have hes : entry_step env.now dev.rate_limit e
          = (false, { e with count := e.count + 1 }) := by
        unfold entry_step
        rw [if_neg hng, if_neg hc]
      rw [hes] at hflag hlook
      refine ⟨by rw [hlook, if_neg hc], ⟨fun h => ?_, fun h => absurd h hc⟩,
        fun h => absurd h hc⟩
      rw [hflag] at h
      exact Bool.noConfusion h

/-- The entry found for the calling uid after a validation. -/
theorem validate_lookup_self (env : thk_env) (dev : thk_device) (req : thk_exec_request) :
    rate_lookup (thk_exec_validate env dev req).dev.rate_hash req.uid =
      if req.command.getD 0 0 = 0 then rate_lookup dev.rate_hash req.uid
      else (lookup_step env.now env.alloc_ok dev.rate_limit req.uid
        (rate_lookup dev.rate_hash req.uid)).2 := by
  rw [validate_rate_hash]
  by_cases h : req.command.getD 0 0 = 0
  · rw [if_pos h, if_pos h]
  · rw [if_neg h, if_neg h]
    exact (rate_step_self _ _ _ _ _).2

/-- The entry found for any other uid after a validation is the one found before. -/
theorem validate_lookup_other (env : thk_env) (dev : thk_device) (req : thk_exec_request)
    (v : Nat) (hv : v ≠ req.uid) :
    rate_lookup (thk_exec_validate env dev req).dev.rate_hash v = rate_lookup dev.rate_hash v := by
  rw [validate_rate_hash]
  by_cases h : req.command.getD 0 0 = 0
  · rw [if_pos h]
  · rw [if_neg h]
    exact rate_step_other _ _ _ _ _ _ hv

/-- Whether a validation is recorded as RateLimited, from the entry found for its uid. -/
theorem validate_limited_iff_lookup (env : thk_env) (dev : thk_device)
    (req : thk_exec_request) :
    (thk_exec_validate env dev req).dev.last_result.result = THK_RESULT_RATE_LIMITED ↔
      (req.command.getD 0 0 ≠ 0 ∧
        (lookup_step env.now env.alloc_ok dev.rate_limit req.uid
          (rate_lookup dev.rate_hash req.uid)).1 = true) := by
  rw [validate_limited_iff, (rate_step_self _ _ _ _ _).1]

/-- The decisions seen by `u` depend on the device only through the limit and the entry
found for `u`, and not on the calls of other uids. -/
theorem limited_decisions_filter (u : Nat) :
    ∀ (calls : List (thk_env × thk_exec_request)) (dev1 dev2 : thk_device),
      dev1.rate_limit = dev2.rate_limit →
      rate_lookup dev1.rate_hash u = rate_lookup dev2.rate_hash u →
      limited_decisions u dev1 calls =
        limited_decisions u dev2 (calls.filter (fun c => decide (c.2.uid = u))) := by
  intro calls
  induction calls with
  | nil => intro dev1 dev2 _ _; rfl
  | cons c cs ih =>
    intro dev1 dev2 hlim hlook
    by_cases hu : c.2.uid = u
    · have hf : (c :: cs).filter (fun c => decide (c.2.uid = u))
          = c :: cs.filter (fun c => decide (c.2.uid = u)) := by
        simp [List.filter, hu]
      rw [hf]
      simp only [limited_decisions, hu, if_true]
      have hdec : decide ((thk_exec_validate c.1 dev1 c.2).dev.last_result.result
            = THK_RESULT_RATE_LIMITED)
          = decide ((thk_exec_validate c.1 dev2 c.2).dev.last_result.result
            = THK_RESULT_RATE_LIMITED) := by
        apply decide_eq_decide.mpr
        rw [validate_limited_iff_lookup, validate_limited_iff_lookup, hlim, hu, hlook]
      have hnext : rate_lookup (thk_exec_validate c.1 dev1 c.2).dev.rate_hash u
          = rate_lookup (thk_exec_validate c.1 dev2 c.2).dev.rate_hash u := by
        have h1 := validate_lookup_self c.1 dev1 c.2
        have h2 := validate_lookup_self c.1 dev2 c.2
        rw [hu] at h1 h2
        rw [h1, h2, hlim, hlook]
      have hlim2 : (thk_exec_validate c.1 dev1 c.2).dev.rate_limit
          = (thk_exec_validate c.1 dev2 c.2).dev.rate_limit := by
        rw [(validate_policy c.1 dev1 c.2).1, (validate_policy c.1 dev2 c.2).1, hlim]
      rw [hdec, ih _ _ hlim2 hnext]
    · have hf : (c :: cs).filter (fun c => decide (c.2.uid = u))
          = cs.filter (fun c => decide (c.2.uid = u)) := by
        simp [List.filter, hu]
      rw [hf]
      simp only [limited_decisions, hu, if_false]
      apply ih
      · rw [(validate_policy c.1 dev1 c.2).1, hlim]
      · rw [validate_lookup_other c.1 dev1 c.2 u (fun h => hu h.symm), hlook]

/-- C6: requests of distinct uids do not interfere in the rate limiter. For every device
(in particular one with an empty rate table), every sequence of `thk_exec_validate`
calls with any uids, times and allocation outcomes, and every uid `u`: the
limited / not-limited decisions that the calls of `u` receive in the interleaved run
are the decisions of the run made of the calls of `u` alone; and in the state reached
after any such sequence a call is recorded as RateLimited only when the entry of its
own uid holds a count that has reached the limit within its window. -/
theorem no_cross_identity_interference (dev : thk_device)
    (calls : List (thk_env × thk_exec_request)) (u : Nat) :
    limited_decisions u dev calls =
      limited_decisions u dev (calls.filter (fun c => decide (c.2.uid = u))) ∧
    ∀ (env : thk_env) (req : thk_exec_request),
      (thk_exec_validate env (validate_seq dev calls).1 req).dev.last_result.result
          = THK_RESULT_RATE_LIMITED →
        ∃ e, rate_lookup (validate_seq dev calls).1.rate_hash req.uid = some e ∧
          e.uid = req.uid ∧
          (validate_seq dev calls).1.rate_limit ≤ e.count ∧
          env.now - e.window_start ≤ 60000000000 := by
  refine ⟨limited_decisions_filter u calls dev dev rfl rfl, ?_⟩
  intro env req
  generalize (validate_seq dev calls).1 = d
  intro h
  rw [validate_limited_iff_lookup] at h
  obtain ⟨_, h2⟩ := h
  unfold lookup_step at h2
  by_cases h0 : d.rate_limit = 0
  · rw [if_pos h0] at h2
    exact Bool.noConfusion h2
  · rw [if_neg h0] at h2
    cases hl : rate_lookup d.rate_hash req.uid with
    | none =>
      rw [hl] at h2
      exfalso
      cases ha : env.alloc_ok <;> rw [ha] at h2 <;> simp at h2
    | some e =>
      rw [hl] at h2
      simp only at h2
      refine ⟨e, rfl, ?_, ?_⟩
      · unfold rate_lookup at hl
        have := List.find?_some hl
        simpa using this
      · unfold entry_step at h2
        by_cases hw : env.now - e.window_start > RATE_WINDOW_NS
        · rw [if_pos hw] at h2
          exact Bool.noConfusion h2
        · rw [if_neg hw] at h2
          by_cases hc : e.count ≥ d.rate_limit
          · refine ⟨hc, ?_⟩
            simp only [RATE_WINDOW_NS, THK_RATE_WINDOW_SECS, NSEC_PER_SEC] at hw
            omega
          · rw [if_neg hc] at h2
            exact Bool.noConfusion h2

set_option maxRecDepth 8000

/-- Non-vacuity of C1: the seeded device, an unprivileged caller sending `rm -rf /` with
FORCE set. -/
theorem blocked_unless_force_and_admin_witness :
    (thk_exec_validate (env_user 0) (thk_init 0)
        (mk_request "rm -rf /" THK_EXEC_F_FORCE 1000)).dev.last_result.result
      = THK_RESULT_BLOCKED ∧
    ∃ j, j < (thk_init 0).blocklist_count ∧
      pattern (thk_init 0) j <:+: (mk_request "rm -rf /" THK_EXEC_F_FORCE 1000).command ∧
      cstr (thk_exec_validate (env_user 0) (thk_init 0)
          (mk_request "rm -rf /" THK_EXEC_F_FORCE 1000)).dev.last_result.reason =
        bytes "blocked: matches pattern '" ++ pattern (thk_init 0) j ++ bytes "'" :=
  blocked_unless_force_and_admin (env_user 0) (thk_init 0)
    (mk_request "rm -rf /" THK_EXEC_F_FORCE 1000)
    (by rw [mk_request_first _ _ _ (by decide)]; decide)
    (le_of_eq (mk_request_length _ _ _ (by decide)))
    (by decide)
    (by decide)
    ⟨0, by decide, (pattern_infix_mk_request _ _ _ _ _ (by decide) (by decide)).mpr (by decide)⟩
    (Or.inr rfl)

/-- None of the seeded patterns is empty, and none occurs in `ls -la /tmp`. -/
theorem seeded_patterns_not_in_ls :
    ∀ i, i < (thk_init 0).blocklist_count →
      pattern (thk_init 0) i ≠ [] ∧ ¬ pattern (thk_init 0) i <:+: bytes "ls -la /tmp" := by
  decide

/-- The selftest request `ls -la /tmp` with DRYRUN on the seeded device, a NUL-padded
buffer in which no pattern occurs. -/
theorem ok_when_no_pattern_occurs_witness :
    (thk_exec_validate (env_user 0) (thk_init 0)
        (mk_request "ls -la /tmp" THK_EXEC_F_DRYRUN 1000)).dev.last_result.result
      = THK_RESULT_OK :=
  ok_when_no_pattern_occurs (env_user 0) (thk_init 0)
    (mk_request "ls -la /tmp" THK_EXEC_F_DRYRUN 1000)
    (by rw [mk_request_first _ _ _ (by decide)]; decide)
    (by decide)
    (fun i hi h => (seeded_patterns_not_in_ls i hi).2
      ((pattern_infix_mk_request _ _ _ _ _ (by decide) (seeded_patterns_not_in_ls i hi).1).mp h))

/-- Non-vacuity of C3: an empty command sent with FORCE by a privileged caller. -/
theorem empty_command_invalid_witness :
    (thk_exec_validate (env_admin 0) (thk_init 0)
        (mk_request "" THK_EXEC_F_FORCE 0)).dev.last_result.result = THK_RESULT_INVALID ∧
    (thk_exec_validate (env_admin 0) (thk_init 0)
        (mk_request "" THK_EXEC_F_FORCE 0)).dev.rate_hash = (thk_init 0).rate_hash :=
  ⟨(empty_command_invalid (env_admin 0) (thk_init 0) (mk_request "" THK_EXEC_F_FORCE 0)
      (by rw [mk_request_first _ _ _ (by decide)]; decide)).1,
   (empty_command_invalid (env_admin 0) (thk_init 0) (mk_request "" THK_EXEC_F_FORCE 0)
      (by rw [mk_request_first _ _ _ (by decide)]; decide)).2.2.1⟩

/-- Non-vacuity of C7: `rm -rf /` sent with FORCE by a privileged caller is allowed. -/
theorem force_admin_skips_blocklist_witness :
    (thk_exec_validate (env_admin 0) (thk_init 0)
        (mk_request "rm -rf /" THK_EXEC_F_FORCE 0)).dev.last_result.result = THK_RESULT_OK ∧
    (thk_exec_validate (env_admin 0) (thk_init 0)
        (mk_request "rm -rf /" THK_EXEC_F_FORCE 0)).dev.total_allowed = 1 ∧
    (thk_exec_validate (env_admin 0) (thk_init 0)
        (mk_request "rm -rf /" THK_EXEC_F_FORCE 0)).dev.total_blocked = 0 :=
  have h := force_admin_skips_blocklist (env_admin 0) (thk_init 0)
    (mk_request "rm -rf /" THK_EXEC_F_FORCE 0)
    (by rw [mk_request_first _ _ _ (by decide)]; decide) (by decide) (by decide) rfl
  ⟨h.1, h.2.2.1 (by decide), h.2.2.2⟩

/-- Non-vacuity of C9: uid 1000 has used its single request of the window; its next
request, `rm -rf /` with FORCE from a privileged caller, is rate limited. -/
theorem rate_limit_precedes_blocklist_witness :
    (thk_exec_validate (env_admin 5)
        (dev_with_entry 1 { uid := 1000, count := 1, window_start := 0 })
        (mk_request "rm -rf /" THK_EXEC_F_FORCE 1000)).dev.last_result.result
      = THK_RESULT_RATE_LIMITED :=
  (rate_limit_precedes_blocklist (env_admin 5)
    (dev_with_entry 1 { uid := 1000, count := 1, window_start := 0 })
    (mk_request "rm -rf /" THK_EXEC_F_FORCE 1000)
    (by rw [mk_request_first _ _ _ (by decide)]; decide) (by decide)).1

/-- Non-vacuity of C10: `echo rm -rf /*` holds the seeds 0 and 1; the reason names
seed 0. -/
theorem blocked_reason_names_first_match_witness :
    ∃ i, i < (thk_init 0).blocklist_count ∧
      pattern (thk_init 0) i <:+: (mk_request "echo rm -rf /*" 0 1000).command ∧
      (∀ k, k < i → ¬ pattern (thk_init 0) k <:+: (mk_request "echo rm -rf /*" 0 1000).command) ∧
      cstr (thk_exec_validate (env_user 0) (thk_init 0)
          (mk_request "echo rm -rf /*" 0 1000)).dev.last_result.reason =
        bytes "blocked: matches pattern '" ++ pattern (thk_init 0) i ++ bytes "'" :=
  blocked_reason_names_first_match (env_user 0) (thk_init 0)
    (mk_request "echo rm -rf /*" 0 1000)
    (le_of_eq (mk_request_length _ _ _ (by decide)))
    (by decide)
    (by decide)

/-- Non-vacuity of C5: an entry at the limit, one nanosecond past the window and exactly
at its end. -/
theorem window_reset_strictly_after_60s_witness :
    (thk_check_rate_limit (env_user 60000000001)
      (dev_with_entry 10 { uid := 1000, count := 10, window_start := 0 }) 1000).1 = false ∧
    (thk_check_rate_limit (env_user 60000000000)
      (dev_with_entry 10 { uid := 1000, count := 10, window_start := 0 }) 1000).1 = true :=
  ⟨((window_reset_strictly_after_60s (env_user 60000000001)
      (dev_with_entry 10 { uid := 1000, count := 10, window_start := 0 }) 1000
      { uid := 1000, count := 10, window_start := 0 } (by decide) (by decide)
      ⟨by decide, by decide⟩).1
        (by decide)).1,
   ((window_reset_strictly_after_60s (env_user 60000000000)
      (dev_with_entry 10 { uid := 1000, count := 10, window_start := 0 }) 1000
      { uid := 1000, count := 10, window_start := 0 } (by decide) (by decide)
      ⟨by decide, by decide⟩).2.1
        (by decide)).2.1.mpr (by decide)⟩

/-- The matcher is handed the whole command field: on the seeded device a request whose
buffer holds `ls`, a NUL and then `rm -rf /` is recorded as Blocked, naming the seed
found behind the terminator. -/
theorem pattern_behind_terminator_is_matched :
    (thk_exec_validate (env_user 0) (thk_init 0)
      { command := bytes "ls" ++ 0 :: bytes "rm -rf /" ++ List.replicate 4085 0,
        flags := 0, uid := 1000 }).dev.last_result.result = THK_RESULT_BLOCKED ∧
    cstr (bytes "ls" ++ 0 :: bytes "rm -rf /" ++ List.replicate 4085 0) = bytes "ls" := by
  constructor
  · decide
  · exact cstr_append_zero (bytes "ls") _ (by decide)

/-! ## Statistics counters -/

theorem atomic64_inc_eq (v : Nat) (h : v + 1 < 2 ^ 64) : atomic64_inc v = v + 1 := by
  unfold atomic64_inc
  exact Nat.mod_eq_of_lt h

/-- The counters after one validation, by outcome. -/
theorem validate_counters (env : thk_env) (dev : thk_device) (req : thk_exec_request) :
    (thk_exec_validate env dev req).dev.total_requests = atomic64_inc dev.total_requests ∧
    (((thk_exec_validate env dev req).dev.last_result.result = THK_RESULT_OK ∧
        (thk_exec_validate env dev req).dev.total_allowed = atomic64_inc dev.total_allowed ∧
        (thk_exec_validate env dev req).dev.total_blocked = dev.total_blocked ∧
        (thk_exec_validate env dev req).dev.total_rate_limited = dev.total_rate_limited) ∨
      ((thk_exec_validate env dev req).dev.last_result.result = THK_RESULT_BLOCKED ∧
        (thk_exec_validate env dev req).dev.total_allowed = dev.total_allowed ∧
        (thk_exec_validate env dev req).dev.total_blocked = atomic64_inc dev.total_blocked ∧
        (thk_exec_validate env dev req).dev.total_rate_limited = dev.total_rate_limited) ∨
      ((thk_exec_validate env dev req).dev.last_result.result = THK_RESULT_RATE_LIMITED ∧
        (thk_exec_validate env dev req).dev.total_allowed = dev.total_allowed ∧
        (thk_exec_validate env dev req).dev.total_blocked = dev.total_blocked ∧
        (thk_exec_validate env dev req).dev.total_rate_limited
          = atomic64_inc dev.total_rate_limited) ∨
      ((thk_exec_validate env dev req).dev.last_result.result = THK_RESULT_INVALID ∧
        (thk_exec_validate env dev req).dev.total_allowed = dev.total_allowed ∧
        (thk_exec_validate env dev req).dev.total_blocked = dev.total_blocked ∧
        (thk_exec_validate env dev req).dev.total_rate_limited = dev.total_rate_limited)) := by
  by_cases h : req.command.getD 0 0 = 0
  · rw [validate_empty env dev req h]
    exact ⟨rfl, Or.inr (Or.inr (Or.inr ⟨rfl, rfl, rfl, rfl⟩))⟩
  · cases hl : rate_limited env dev req.uid
    · obtain ⟨r, hr | hr⟩ := validate_checked_cases env dev req h hl <;> rw [hr]
      · exact ⟨rfl, Or.inr (Or.inl ⟨rfl, rfl, rfl, rfl⟩)⟩
      · exact ⟨rfl, Or.inl ⟨rfl, rfl, rfl, rfl⟩⟩
    · rw [validate_limited env dev req h hl]
      exact ⟨rfl, Or.inr (Or.inr (Or.inl ⟨rfl, rfl, rfl, rfl⟩))⟩

/-- C12: every `thk_exec_validate` call increments `total_requests`, whatever its
outcome, and increments exactly the counter of its outcome (`total_allowed` for Ok,
`total_blocked` for Blocked, `total_rate_limited` for RateLimited, none for Invalid),
leaving the other counters as they were. An increment is `atomic64_inc`, which adds
exactly 1 below the 64-bit wrap. -/
theorem validate_increments_requests_and_outcome_counter (env : thk_env)
    (dev : thk_device) (req : thk_exec_request) :
    ((thk_exec_validate env dev req).dev.total_requests = atomic64_inc dev.total_requests ∧
    (((thk_exec_validate env dev req).dev.last_result.result = THK_RESULT_OK ∧
        (thk_exec_validate env dev req).dev.total_allowed = atomic64_inc dev.total_allowed ∧
        (thk_exec_validate env dev req).dev.total_blocked = dev.total_blocked ∧
        (thk_exec_validate env dev req).dev.total_rate_limited = dev.total_rate_limited) ∨
      ((thk_exec_validate env dev req).dev.last_result.result = THK_RESULT_BLOCKED ∧
        (thk_exec_validate env dev req).dev.total_allowed = dev.total_allowed ∧
        (thk_exec_validate env dev req).dev.total_blocked = atomic64_inc dev.total_blocked ∧
        (thk_exec_validate env dev req).dev.total_rate_limited = dev.total_rate_limited) ∨
      ((thk_exec_validate env dev req).dev.last_result.result = THK_RESULT_RATE_LIMITED ∧
        (thk_exec_validate env dev req).dev.total_allowed = dev.total_allowed ∧
        (thk_exec_validate env dev req).dev.total_blocked = dev.total_blocked ∧
        (thk_exec_validate env dev req).dev.total_rate_limited
          = atomic64_inc dev.total_rate_limited) ∨
      ((thk_exec_validate env dev req).dev.last_result.result = THK_RESULT_INVALID ∧
        (thk_exec_validate env dev req).dev.total_allowed = dev.total_allowed ∧
        (thk_exec_validate env dev req).dev.total_blocked = dev.total_blocked ∧
        (thk_exec_validate env dev req).dev.total_rate_limited = dev.total_rate_limited))) ∧
    (∀ v : Nat, v + 1 < 2 ^ 64 → atomic64_inc v = v + 1) :=
  ⟨validate_counters env dev req, atomic64_inc_eq⟩

/-- C14: with `rate_limit = 0`, `thk_check_rate_limit` returns not-limited for every uid,
time and table and hands the device back as it was (no entry created, no count or
window start touched); hence no validation is recorded as RateLimited and every
validation leaves the rate table unchanged. -/
theorem rate_limit_zero_never_limits (env : thk_env) (dev : thk_device) (uid : Nat)
    (h0 : dev.rate_limit = 0) :
    thk_check_rate_limit env dev uid = (false, dev) ∧
    ∀ (env2 : thk_env) (req : thk_exec_request),
      (thk_exec_validate env2 dev req).dev.last_result.result ≠ THK_RESULT_RATE_LIMITED ∧
      (thk_exec_validate env2 dev req).dev.rate_hash = dev.rate_hash := by
  constructor
  · unfold thk_check_rate_limit
    rw [if_pos h0]
  · intro env2 req
    have hstep : ∀ u, rate_step env2.now env2.alloc_ok dev.rate_limit u dev.rate_hash
        = (false, dev.rate_hash) := by
      intro u
      unfold rate_step
      rw [if_pos h0]
    constructor
    · intro hrl
      rw [validate_limited_iff, hstep] at hrl
      exact Bool.noConfusion hrl.2
    · rw [validate_rate_hash, hstep]
      split <;> rfl

/-! ## The ioctl dispatch -/

/-- The case `THK_IOC_SET_CONFIG` of `thk_ioctl`. -/
theorem thk_ioctl_set_config (env : thk_env) (dev : thk_device) (uarg : thk_uarg) :
    thk_ioctl env dev THK_IOC_SET_CONFIG uarg =
      if env.cap_sys_admin = false then
        { ret := -EPERM, dev := dev, to_user := none, audit := none }
      else
        match uarg.from_user_config with
        | none => { ret := -EFAULT, dev := dev, to_user := none, audit := none }
        | some cfg =>
          { ret := 0,
            dev := { dev with audit_enabled := cfg.audit_enabled,
                              rate_limit := cfg.rate_limit },
            to_user := none, audit := none } := by
  have h1 : THK_IOC_SET_CONFIG ≠ THK_IOC_VERSION := by decide
  have h2 : THK_IOC_SET_CONFIG ≠ THK_IOC_EXEC_VALIDATE := by decide
  have h3 : THK_IOC_SET_CONFIG ≠ THK_IOC_EXEC_STATUS := by decide
  have h4 : THK_IOC_SET_CONFIG ≠ THK_IOC_GET_STATS := by decide
  have h5 : THK_IOC_SET_CONFIG ≠ THK_IOC_GET_CONFIG := by decide
  unfold thk_ioctl
  rw [if_neg h1, if_neg h2, if_neg h3, if_neg h4, if_neg h5, if_pos rfl]

/-- The case `THK_IOC_GET_CONFIG` of `thk_ioctl`. -/
theorem thk_ioctl_get_config (env : thk_env) (dev : thk_device) (uarg : thk_uarg) :
    thk_ioctl env dev THK_IOC_GET_CONFIG uarg =
      ioctl_copy_to_user dev uarg
        (.config
          { audit_enabled := dev.audit_enabled,
            rate_limit := dev.rate_limit,
            blocklist_count := dev.blocklist_count,
            reserved := 0 }) := by
  have h1 : THK_IOC_GET_CONFIG ≠ THK_IOC_VERSION := by decide
  have h2 : THK_IOC_GET_CONFIG ≠ THK_IOC_EXEC_VALIDATE := by decide
  have h3 : THK_IOC_GET_CONFIG ≠ THK_IOC_EXEC_STATUS := by decide
  have h4 : THK_IOC_GET_CONFIG ≠ THK_IOC_GET_STATS := by decide
  unfold thk_ioctl
  rw [if_neg h1, if_neg h2, if_neg h3, if_neg h4, if_pos rfl]

/-- The case `THK_IOC_EXEC_VALIDATE` of `thk_ioctl`. -/
theorem thk_ioctl_exec_validate (env : thk_env) (dev : thk_device) (uarg : thk_uarg) :
    thk_ioctl env dev THK_IOC_EXEC_VALIDATE uarg =
      match uarg.from_user_request with
      | none => { ret := -EFAULT, dev := dev, to_user := none, audit := none }
      | some req =>
        { ret := (thk_exec_validate env dev
            { req with command := req.command.set (THK_MAX_CMD_LEN - 1) 0 }).ret,
          dev := (thk_exec_validate env dev
            { req with command := req.command.set (THK_MAX_CMD_LEN - 1) 0 }).dev,
          to_user := none,
          audit := (thk_exec_validate env dev
            { req with command := req.command.set (THK_MAX_CMD_LEN - 1) 0 }).audit } := by
  have h1 : THK_IOC_EXEC_VALIDATE ≠ THK_IOC_VERSION := by decide
  unfold thk_ioctl
  rw [if_neg h1, if_pos rfl]

theorem ioctl_copy_to_user_dev (dev : thk_device) (uarg : thk_uarg) (x : thk_user_write) :
    (ioctl_copy_to_user dev uarg x).dev = dev := by
  unfold ioctl_copy_to_user
  split <;> rfl

/-- Every ioctl other than Validate and SetConfig leaves the device as it was. -/
theorem thk_ioctl_dev_other (env : thk_env) (dev : thk_device) (cmd : Nat)
    (uarg : thk_uarg) (hv : cmd ≠ THK_IOC_EXEC_VALIDATE) (hs : cmd ≠ THK_IOC_SET_CONFIG) :
    (thk_ioctl env dev cmd uarg).dev = dev := by
  unfold thk_ioctl
  rw [if_neg hv, if_neg hs]
  split
  · exact ioctl_copy_to_user_dev _ _ _
  · split
    · exact ioctl_copy_to_user_dev _ _ _
    · split
      · exact ioctl_copy_to_user_dev _ _ _
      · split
        · exact ioctl_copy_to_user_dev _ _ _
        · rfl

/-- C15: `THK_IOC_SET_CONFIG` from a caller without `CAP_SYS_ADMIN` returns `-EPERM`
for every argument (readable or not, any content) and the device is unchanged as a
whole: policy, blocklist, counters, rate table and last result. -/
theorem set_config_requires_admin (env : thk_env) (dev : thk_device) (uarg : thk_uarg)
    (hcap : env.cap_sys_admin = false) :
    (thk_ioctl env dev THK_IOC_SET_CONFIG uarg).ret = -EPERM ∧
    (thk_ioctl env dev THK_IOC_SET_CONFIG uarg).dev = dev ∧
    (thk_ioctl env dev THK_IOC_SET_CONFIG uarg).to_user = none := by
  rw [thk_ioctl_set_config, if_pos hcap]
  exact ⟨rfl, rfl, rfl⟩

/-- C16: after `THK_IOC_SET_CONFIG` with `cfg` by a caller holding `CAP_SYS_ADMIN`
succeeds, `THK_IOC_GET_CONFIG` returns 0 and copies out `audit_enabled` and
`rate_limit` of `cfg`, the `blocklist_count` the device had before the set and
`reserved = 0`; and a validation made afterwards is rate limited exactly as the limit
`cfg.rate_limit` says on the table as it was. -/
theorem set_config_get_config_round_trip (env : thk_env) (dev : thk_device)
    (uarg : thk_uarg) (cfg : thk_config)
    (hcap : env.cap_sys_admin = true)
    (hcopy : uarg.from_user_config = some cfg) :
    (thk_ioctl env dev THK_IOC_SET_CONFIG uarg).ret = 0 ∧
    (∀ (env2 : thk_env) (uarg2 : thk_uarg), uarg2.to_user_ok = true →
      (thk_ioctl env2 (thk_ioctl env dev THK_IOC_SET_CONFIG uarg).dev
          THK_IOC_GET_CONFIG uarg2).ret = 0 ∧
      (thk_ioctl env2 (thk_ioctl env dev THK_IOC_SET_CONFIG uarg).dev
          THK_IOC_GET_CONFIG uarg2).to_user =
        some (.config
          { audit_enabled := cfg.audit_enabled,
            rate_limit := cfg.rate_limit,
            blocklist_count := dev.blocklist_count,
            reserved := 0 })) ∧
    (∀ (env2 : thk_env) (req : thk_exec_request),
      ((thk_exec_validate env2 (thk_ioctl env dev THK_IOC_SET_CONFIG uarg).dev
          req).dev.last_result.result = THK_RESULT_RATE_LIMITED ↔
        (req.command.getD 0 0 ≠ 0 ∧
          (rate_step env2.now env2.alloc_ok cfg.rate_limit req.uid dev.rate_hash).1
            = true))) := by
  have hc : ¬ env.cap_sys_admin = false := by rw [hcap]; decide
  have hset : thk_ioctl env dev THK_IOC_SET_CONFIG uarg =
      { ret := 0,
        dev := { dev with audit_enabled := cfg.audit_enabled, rate_limit := cfg.rate_limit },
        to_user := none, audit := none } := by
    rw [thk_ioctl_set_config, if_neg hc, hcopy]
  rw [hset]
  refine ⟨rfl, ?_, ?_⟩
  · intro env2 uarg2 hok
    rw [thk_ioctl_get_config]
    unfold ioctl_copy_to_user
    rw [if_pos hok]
    exact ⟨rfl, rfl⟩
  · intro env2 req
    rw [validate_limited_iff]

/-- C17: a `THK_IOC_SET_CONFIG` that returns 0 changes `audit_enabled` and `rate_limit`
only (blocklist count and patterns, the four counters, the rate table and the last
result are those of the device before), and the fields `blocklist_count` and
`reserved` of the supplied struct have no effect on the outcome. -/
theorem set_config_changes_only_audit_and_rate_limit (env : thk_env) (dev : thk_device)
    (uarg : thk_uarg)
    (hret : (thk_ioctl env dev THK_IOC_SET_CONFIG uarg).ret = 0) :
    (thk_ioctl env dev THK_IOC_SET_CONFIG uarg).dev =
      { dev with
        audit_enabled := (thk_ioctl env dev THK_IOC_SET_CONFIG uarg).dev.audit_enabled,
        rate_limit := (thk_ioctl env dev THK_IOC_SET_CONFIG uarg).dev.rate_limit } ∧
    (∃ cfg, uarg.from_user_config = some cfg ∧
      (thk_ioctl env dev THK_IOC_SET_CONFIG uarg).dev.audit_enabled = cfg.audit_enabled ∧
      (thk_ioctl env dev THK_IOC_SET_CONFIG uarg).dev.rate_limit = cfg.rate_limit ∧
      ∀ count reserved : Nat,
        (thk_ioctl env dev THK_IOC_SET_CONFIG
            { from_user_request := uarg.from_user_request,
              from_user_config := some
                { audit_enabled := cfg.audit_enabled, rate_limit := cfg.rate_limit,
                  blocklist_count := count, reserved := reserved },
              to_user_ok := uarg.to_user_ok }).dev
          = (thk_ioctl env dev THK_IOC_SET_CONFIG uarg).dev ∧
        (thk_ioctl env dev THK_IOC_SET_CONFIG
            { from_user_request := uarg.from_user_request,
              from_user_config := some
                { audit_enabled := cfg.audit_enabled, rate_limit := cfg.rate_limit,
                  blocklist_count := count, reserved := reserved },
              to_user_ok := uarg.to_user_ok }).ret
          = 0) := by
  rw [thk_ioctl_set_config] at hret
  by_cases hc : env.cap_sys_admin = false
  · rw [if_pos hc] at hret
    have hret2 : -EPERM = 0 := hret
    exact absurd hret2 (by decide)
  · rw [if_neg hc] at hret
    cases hcfg : uarg.from_user_config with
    | none =>
      rw [hcfg] at hret
      have hret2 : -EFAULT = 0 := hret
      exact absurd hret2 (by decide)
    | some cfg =>
      have hset : thk_ioctl env dev THK_IOC_SET_CONFIG uarg =
          { ret := 0,
            dev := { dev with audit_enabled := cfg.audit_enabled,
                              rate_limit := cfg.rate_limit },
            to_user := none, audit := none } := by
        rw [thk_ioctl_set_config, if_neg hc, hcfg]
      rw [hset]
      refine ⟨rfl, cfg, rfl, rfl, rfl, ?_⟩
      intro count reserved
      rw [thk_ioctl_set_config, if_neg hc]
      exact ⟨rfl, rfl⟩

/-- C18: for every command code other than the six defined ones `thk_ioctl` returns
`-ENOTTY`, copies nothing to user space and leaves the device unchanged. -/
theorem unknown_ioctl_rejected (env : thk_env) (dev : thk_device) (cmd : Nat)
    (uarg : thk_uarg)
    (h1 : cmd ≠ THK_IOC_VERSION) (h2 : cmd ≠ THK_IOC_EXEC_VALIDATE)
    (h3 : cmd ≠ THK_IOC_EXEC_STATUS) (h4 : cmd ≠ THK_IOC_GET_STATS)
    (h5 : cmd ≠ THK_IOC_GET_CONFIG) (h6 : cmd ≠ THK_IOC_SET_CONFIG) :
    (thk_ioctl env dev cmd uarg).ret = -ENOTTY ∧
    (thk_ioctl env dev cmd uarg).dev = dev ∧
    (thk_ioctl env dev cmd uarg).to_user = none ∧
    (thk_ioctl env dev cmd uarg).audit = none := by
  unfold thk_ioctl
  rw [if_neg h1, if_neg h2, if_neg h3, if_neg h4, if_neg h5, if_neg h6]
  exact ⟨rfl, rfl, rfl, rfl⟩

/-! ## Counter conservation -/

/-- The four counters after a `THK_IOC_SET_CONFIG` are those before it. -/
theorem set_config_counters (env : thk_env) (dev : thk_device) (uarg : thk_uarg) :
    (thk_ioctl env dev THK_IOC_SET_CONFIG uarg).dev.total_requests = dev.total_requests ∧
    (thk_ioctl env dev THK_IOC_SET_CONFIG uarg).dev.total_allowed = dev.total_allowed ∧
    (thk_ioctl env dev THK_IOC_SET_CONFIG uarg).dev.total_blocked = dev.total_blocked ∧
    (thk_ioctl env dev THK_IOC_SET_CONFIG uarg).dev.total_rate_limited
      = dev.total_rate_limited := by
  rw [thk_ioctl_set_config]
  split
  · exact ⟨rfl, rfl, rfl, rfl⟩
  · split <;> exact ⟨rfl, rfl, rfl, rfl⟩

/-- One ioctl keeps the balance of the counters, counting the call when it is a
validation recorded as Invalid. -/
theorem counters_conserved_step (c : thk_ioctl_call) (dev : thk_device) (n : Nat)
    (hbal : dev.total_requests
      = dev.total_allowed + dev.total_blocked + dev.total_rate_limited + n)
    (hno : dev.total_requests + 1 < 2 ^ 64) :
    (thk_ioctl c.env dev c.cmd c.uarg).dev.total_requests
      = (thk_ioctl c.env dev c.cmd c.uarg).dev.total_allowed
        + (thk_ioctl c.env dev c.cmd c.uarg).dev.total_blocked
        + (thk_ioctl c.env dev c.cmd c.uarg).dev.total_rate_limited
        + (n + if call_invalid dev c = true then 1 else 0) ∧
    (thk_ioctl c.env dev c.cmd c.uarg).dev.total_requests ≤ dev.total_requests + 1 := by
  by_cases hv : c.cmd = THK_IOC_EXEC_VALIDATE
  · cases hreq : c.uarg.from_user_request with
    | none =>
      have hci : call_invalid dev c = false := by
        unfold call_invalid
        rw [hreq]
        simp
      have hd : (thk_ioctl c.env dev c.cmd c.uarg).dev = dev := by
        rw [hv, thk_ioctl_exec_validate, hreq]
      rw [hd, hci]
      simp only [Bool.false_eq_true, if_false, Nat.add_zero]
      exact ⟨hbal, by omega⟩
    | some req =>
      have hd : (thk_ioctl c.env dev c.cmd c.uarg).dev
          = (thk_exec_validate c.env dev
              { req with command := req.command.set (THK_MAX_CMD_LEN - 1) 0 }).dev := by
        rw [hv, thk_ioctl_exec_validate, hreq]
      have hci : call_invalid dev c
          = decide ((thk_exec_validate c.env dev
              { req with command := req.command.set (THK_MAX_CMD_LEN - 1) 0
                }).dev.last_result.result = THK_RESULT_INVALID) := by
        unfold call_invalid
        rw [hd, hreq]
        simp [hv]
      rw [hci, hd]
      obtain ⟨hreqs, hcases⟩ := validate_counters c.env dev
        { req with command := req.command.set (THK_MAX_CMD_LEN - 1) 0 }
      rw [atomic64_inc_eq _ hno] at hreqs
      rcases hcases with ⟨hr, ha, hb, hl⟩ | ⟨hr, ha, hb, hl⟩ | ⟨hr, ha, hb, hl⟩ |
        ⟨hr, ha, hb, hl⟩
      · rw [atomic64_inc_eq _ (by omega)] at ha
        rw [hreqs, ha, hb, hl, hr]
        simp only [decide_eq_true_eq]
        rw [if_neg (by decide)]
        omega
      · rw [atomic64_inc_eq _ (by omega)] at hb
        rw [hreqs, ha, hb, hl, hr]
        simp only [decide_eq_true_eq]
        rw [if_neg (by decide)]
        omega
      · rw [atomic64_inc_eq _ (by omega)] at hl
        rw [hreqs, ha, hb, hl, hr]
        simp only [decide_eq_true_eq]
        rw [if_neg (by decide)]
        omega
      · rw [hreqs, ha, hb, hl, hr]
        simp only [decide_eq_true_eq, if_true]
        omega
  · have hci : call_invalid dev c = false := by
      unfold call_invalid
      simp [hv]
    rw [hci]
    simp only [Bool.false_eq_true, if_false, Nat.add_zero]
    by_cases hs : c.cmd = THK_IOC_SET_CONFIG
    · rw [hs]
      obtain ⟨h1, h2, h3, h4⟩ := set_config_counters c.env dev c.uarg
      rw [h1, h2, h3, h4]
      exact ⟨hbal, by omega⟩
    · rw [thk_ioctl_dev_other c.env dev c.cmd c.uarg hv hs]
      exact ⟨hbal, by omega⟩

/-- A run of ioctls keeps the balance of the counters while `total_requests` cannot
wrap. -/
theorem counters_conserved_seq :
    ∀ (ops : List thk_ioctl_call) (dev : thk_device) (n : Nat),
      dev.total_requests
        = dev.total_allowed + dev.total_blocked + dev.total_rate_limited + n →
      dev.total_requests + ops.length < 2 ^ 64 →
      (ioctl_seq dev ops).total_requests
        = (ioctl_seq dev ops).total_allowed + (ioctl_seq dev ops).total_blocked
          + (ioctl_seq dev ops).total_rate_limited + (n + invalid_count dev ops) := by
  intro ops
  induction ops with
  | nil =>
    intro dev n hbal _
    simpa [ioctl_seq, invalid_count] using hbal
  | cons c cs ih =>
    intro dev n hbal hno
    simp only [List.length_cons] at hno
    obtain ⟨h1, h2⟩ := counters_conserved_step c dev n hbal (by omega)
    have := ih (thk_ioctl c.env dev c.cmd c.uarg).dev _ h1 (by omega)
    simp only [ioctl_seq, invalid_count]
    rw [this]
    omega

/-- C11: from the freshly initialised device (all four counters 0), after any finite
sequence of ioctls (Validate, SetConfig, the queries, unknown codes) short of the 64-bit
wrap, `total_requests = total_allowed + total_blocked + total_rate_limited +` the number
of Validate calls whose outcome was Invalid. -/
theorem counter_conservation (load_time : Int) (ops : List thk_ioctl_call)
    (hno_wrap : ops.length < 2 ^ 64) :
    (ioctl_seq (thk_init load_time) ops).total_requests
      = (ioctl_seq (thk_init load_time) ops).total_allowed
        + (ioctl_seq (thk_init load_time) ops).total_blocked
        + (ioctl_seq (thk_init load_time) ops).total_rate_limited
        + invalid_count (thk_init load_time) ops := by
  have h := counters_conserved_seq ops (thk_init load_time) 0 rfl
    (by
      have h0 : (thk_init load_time).total_requests = 0 := rfl
      rw [h0]
      omega)
  rw [h]
  omega

/-! ## The recorded result: flags and reason -/

/-- What `thk_check_blocklist` returns: a match with the formatted reason of some slot,
or no match and the reason buffer as it was. -/
theorem thk_check_blocklist_reason (dev : thk_device) (cmd reason : List Nat) (rl : Nat) :
    (∃ j, j < dev.blocklist_count ∧
      thk_check_blocklist dev cmd reason rl
        = (true, store_cstr reason (blocked_reason (dev.blocklist.getD j [])) rl)) ∨
    thk_check_blocklist dev cmd reason rl = (false, reason) := by
  unfold thk_check_blocklist
  rcases check_blocklist_loop_cases dev.blocklist cmd reason rl dev.blocklist_count 0
    with ⟨j, _, h2, _, _, h5⟩ | ⟨_, h2⟩
  · exact Or.inl ⟨j, by omega, h5⟩
  · exact Or.inr h2

/-- The whole recorded result, by outcome. -/
theorem validate_last_result_cases (env : thk_env) (dev : thk_device)
    (req : thk_exec_request) :
    (thk_exec_validate env dev req).dev.last_result =
        { result := THK_RESULT_INVALID, flags := 0,
          reason := strscpy (List.replicate THK_MAX_REASON_LEN 0)
            (bytes "empty command" ++ [0]) THK_MAX_REASON_LEN } ∨
    (thk_exec_validate env dev req).dev.last_result =
        { result := THK_RESULT_RATE_LIMITED, flags := 0,
          reason := strscpy (List.replicate THK_MAX_REASON_LEN 0)
            (bytes "rate limit exceeded" ++ [0]) THK_MAX_REASON_LEN } ∨
    (∃ j, j < dev.blocklist_count ∧
      (thk_exec_validate env dev req).dev.last_result =
        { result := THK_RESULT_BLOCKED, flags := 0,
          reason := store_cstr (List.replicate THK_MAX_REASON_LEN 0)
            (blocked_reason (dev.blocklist.getD j [])) THK_MAX_REASON_LEN }) ∨
    (thk_exec_validate env dev req).dev.last_result =
        { result := THK_RESULT_OK, flags := req.flags,
          reason := List.replicate THK_MAX_REASON_LEN 0 } := by
  by_cases h : req.command.getD 0 0 = 0
  · rw [validate_empty env dev req h]
    exact Or.inl rfl
  · cases hl : rate_limited env dev req.uid
    · rw [validate_checked env dev req h hl]
      right; right
      cases hf : force_admin env req
      · simp only [if_true]
        rcases thk_check_blocklist_reason dev req.command
          (List.replicate THK_MAX_REASON_LEN 0) THK_MAX_REASON_LEN with ⟨j, hj, heq⟩ | heq
        · left
          refine ⟨j, hj, ?_⟩
          rw [heq]
          simp only [if_true]
        · right
          rw [heq]
          simp only [Bool.false_eq_true, if_false]
      · right
        simp only [Bool.true_eq_false, if_false, Bool.false_eq_true]
    · rw [validate_limited env dev req h hl]
      exact Or.inr (Or.inl rfl)

/-- The flags of the recorded result: those of the request for Ok, 0 otherwise. -/
theorem validate_result_flags (env : thk_env) (dev : thk_device) (req : thk_exec_request) :
    (thk_exec_validate env dev req).dev.last_result.flags =
      if (thk_exec_validate env dev req).dev.last_result.result = THK_RESULT_OK
      then req.flags else 0 := by
  rcases validate_last_result_cases env dev req with h | h | ⟨j, _, h⟩ | h <;> rw [h] <;> rfl

/-- C19, evaluated: the selftest request `rm -rf /` with `THK_EXEC_F_DRYRUN` on the
freshly initialised device is recorded as Blocked with `flags = 0`, while the request
carries `flags = 2`. -/
theorem blocked_result_drops_request_flags :
    (mk_request "rm -rf /" THK_EXEC_F_DRYRUN 1000).flags = 2 ∧
    (thk_exec_validate (env_user 0) (thk_init 0)
      (mk_request "rm -rf /" THK_EXEC_F_DRYRUN 1000)).dev.last_result.result
        = THK_RESULT_BLOCKED ∧
    (thk_exec_validate (env_user 0) (thk_init 0)
      (mk_request "rm -rf /" THK_EXEC_F_DRYRUN 1000)).dev.last_result.flags = 0 := by
  decide

/-- A request that reaches the blocklist step with the check enabled is Blocked with the
reason of slot `j` when `j` is the first slot whose pattern occurs in the command. -/
theorem validate_blocked_at (env : thk_env) (dev : thk_device) (req : thk_exec_request)
    (j : Nat)
    (hne : req.command.getD 0 0 ≠ 0)
    (hlen : req.command.length ≤ THK_MAX_CMD_LEN)
    (hrl : rate_limited env dev req.uid = false)
    (hfa : force_admin env req = false)
    (hj : j < dev.blocklist_count)
    (hin : pattern dev j <:+: req.command)
    (hmin : ∀ k, k < j → ¬ pattern dev k <:+: req.command)
    (hslot : strlen (dev.blocklist.getD j []) < THK_MAX_BLOCKLIST_PAT) :
    (thk_exec_validate env dev req).dev.last_result.result = THK_RESULT_BLOCKED ∧
    cstr (thk_exec_validate env dev req).dev.last_result.reason
      = blocked_reason (dev.blocklist.getD j []) := by
  rw [validate_checked env dev req hne hrl]
  simp only [hfa, if_true]
  rcases thk_check_blocklist_cases dev req.command (List.replicate THK_MAX_REASON_LEN 0)
    THK_MAX_REASON_LEN hlen with ⟨i, _, hi_in, hi_min, heq⟩ | ⟨hnone, _⟩
  · have hij : i = j := by
      rcases Nat.lt_trichotomy i j with h | h | h
      · exact absurd hi_in (hmin i h)
      · exact h
      · exact absurd hin (hi_min j h)
    subst hij
    rw [heq]
    refine ⟨rfl, ?_⟩
    simp only [if_true]
    exact cstr_blocked_reason _ hslot
  · exact absurd hin (hnone j hj)

theorem force_admin_eq_false (env : thk_env) (req : thk_exec_request)
    (h : req.flags &&& THK_EXEC_F_FORCE = 0 ∨ env.cap_sys_admin = false) :
    force_admin env req = false := by
  unfold force_admin
  rcases h with h | h
  · simp [h]
  · simp [h]

/-- On a device with the seeded blocklist, a NUL-padded request whose text holds seed `j`
and no earlier seed is Blocked with the reason of seed `j`. -/
theorem seeded_request_blocked (env : thk_env) (dev : thk_device) (text : String)
    (flags uid j : Nat)
    (hbl : dev.blocklist = (thk_init 0).blocklist)
    (hcnt : dev.blocklist_count = (thk_init 0).blocklist_count)
    (hrl : rate_limited env dev uid = false)
    (hfa : flags &&& THK_EXEC_F_FORCE = 0 ∨ env.cap_sys_admin = false)
    (htext : (bytes text).length < THK_MAX_CMD_LEN)
    (hne : (bytes text).getD 0 0 ≠ 0)
    (hj : j < (thk_init 0).blocklist_count)
    (hslot : strlen ((thk_init 0).blocklist.getD j []) < THK_MAX_BLOCKLIST_PAT)
    (hin : pattern (thk_init 0) j ≠ [] ∧ pattern (thk_init 0) j <:+: bytes text)
    (hmin : ∀ k, k < j →
      pattern (thk_init 0) k ≠ [] ∧ ¬ pattern (thk_init 0) k <:+: bytes text) :
    (thk_exec_validate env dev (mk_request text flags uid)).dev.last_result.result
      = THK_RESULT_BLOCKED ∧
    cstr (thk_exec_validate env dev (mk_request text flags uid)).dev.last_result.reason
      = blocked_reason ((thk_init 0).blocklist.getD j []) := by
  have hpat : ∀ i, pattern dev i = pattern (thk_init 0) i := by
    intro i; unfold pattern; rw [hbl]
  rw [← hbl]
  apply validate_blocked_at env dev (mk_request text flags uid) j
  · rw [mk_request_first _ _ _ htext]; exact hne
  · exact le_of_eq (mk_request_length _ _ _ htext)
  · exact hrl
  · exact force_admin_eq_false _ _ hfa
  · rw [hcnt]; exact hj
  · rw [hpat]
    exact (pattern_infix_mk_request _ _ _ _ _ htext hin.1).mpr hin.2
  · intro k hk h
    rw [hpat] at h
    exact (hmin k hk).2 ((pattern_infix_mk_request _ _ _ _ _ htext (hmin k hk).1).mp h)
  · rw [hbl]; exact hslot

/-- On a device with the seeded blocklist, a NUL-padded request whose text holds no seed
is recorded as Ok. -/
theorem seeded_request_ok (env : thk_env) (dev : thk_device) (text : String)
    (flags uid : Nat)
    (hbl : dev.blocklist = (thk_init 0).blocklist)
    (hcnt : dev.blocklist_count = (thk_init 0).blocklist_count)
    (hrl : rate_limited env dev uid = false)
    (htext : (bytes text).length < THK_MAX_CMD_LEN)
    (hne : (bytes text).getD 0 0 ≠ 0)
    (hnone : ∀ i, i < (thk_init 0).blocklist_count →
      pattern (thk_init 0) i ≠ [] ∧ ¬ pattern (thk_init 0) i <:+: bytes text) :
    (thk_exec_validate env dev (mk_request text flags uid)).dev.last_result.result
      = THK_RESULT_OK := by
  have hpat : ∀ i, pattern dev i = pattern (thk_init 0) i := by
    intro i; unfold pattern; rw [hbl]
  apply validate_ok_of_no_pattern env dev (mk_request text flags uid)
  · rw [mk_request_first _ _ _ htext]; exact hne
  · exact hrl
  · intro i hi h
    rw [hcnt] at hi
    rw [hpat] at h
    exact (hnone i hi).2 ((pattern_infix_mk_request _ _ _ _ _ htext (hnone i hi).1).mp h)

/-- C13: on a device holding the seeded blocklist, for requests (built as the selftests
build them, with any flags and uid) that are not rate limited and not FORCE-by-admin:
`rm -rf /tmp/x` and `echo rm -rf /` are Blocked with one and the same reason, naming
the pattern `rm -rf /`; the fork bomb is Blocked; `ls -la` and `ls -la /tmp` are Ok. -/
theorem seeded_blocklist_examples (env : thk_env) (dev : thk_device) (flags uid : Nat)
    (hbl : dev.blocklist = (thk_init 0).blocklist)
    (hcnt : dev.blocklist_count = (thk_init 0).blocklist_count)
    (hrl : rate_limited env dev uid = false)
    (hfa : flags &&& THK_EXEC_F_FORCE = 0 ∨ env.cap_sys_admin = false) :
    ((thk_exec_validate env dev (mk_request "rm -rf /tmp/x" flags uid)).dev.last_result.result
        = THK_RESULT_BLOCKED ∧
      cstr (thk_exec_validate env dev
          (mk_request "rm -rf /tmp/x" flags uid)).dev.last_result.reason
        = bytes "blocked: matches pattern 'rm -rf /'") ∧
    ((thk_exec_validate env dev (mk_request "echo rm -rf /" flags uid)).dev.last_result.result
        = THK_RESULT_BLOCKED ∧
      cstr (thk_exec_validate env dev
          (mk_request "echo rm -rf /" flags uid)).dev.last_result.reason
        = bytes "blocked: matches pattern 'rm -rf /'") ∧
    ((thk_exec_validate env dev
        (mk_request ":()\x7b :|:& \x7d;:" flags uid)).dev.last_result.result
        = THK_RESULT_BLOCKED ∧
      cstr (thk_exec_validate env dev
          (mk_request ":()\x7b :|:& \x7d;:" flags uid)).dev.last_result.reason
        = bytes "blocked: matches pattern ':()\x7b :|:& \x7d;:'") ∧
    (thk_exec_validate env dev (mk_request "ls -la" flags uid)).dev.last_result.result
      = THK_RESULT_OK ∧
    (thk_exec_validate env dev (mk_request "ls -la /tmp" flags uid)).dev.last_result.result
      = THK_RESULT_OK := by
  have hr0 : blocked_reason ((thk_init 0).blocklist.getD 0 [])
      = bytes "blocked: matches pattern 'rm -rf /'" := by decide
  have hr2 : blocked_reason ((thk_init 0).blocklist.getD 2 [])
      = bytes "blocked: matches pattern ':()\x7b :|:& \x7d;:'" := by decide
  refine ⟨?_, ?_, ?_, ?_, ?_⟩
  · rw [← hr0]
    exact seeded_request_blocked env dev "rm -rf /tmp/x" flags uid 0 hbl hcnt hrl hfa
      (by decide) (by decide) (by decide) (by decide) (by decide) (by decide)
  · rw [← hr0]
    exact seeded_request_blocked env dev "echo rm -rf /" flags uid 0 hbl hcnt hrl hfa
      (by decide) (by decide) (by decide) (by decide) (by decide) (by decide)
  · rw [← hr2]
    exact seeded_request_blocked env dev ":()\x7b :|:& \x7d;:" flags uid 2 hbl hcnt hrl hfa
      (by decide) (by decide) (by decide) (by decide) (by decide) (by decide)
  · exact seeded_request_ok env dev "ls -la" flags uid hbl hcnt hrl
      (by decide) (by decide) (by decide)
  · exact seeded_request_ok env dev "ls -la /tmp" flags uid hbl hcnt hrl
      (by decide) (by decide) seeded_patterns_not_in_ls

/-! ## The statements of the control surface at concrete inputs -/

/-- Non-vacuity of C11: the balance after the four ioctls of `sample_ops`. -/
theorem counter_conservation_witness :
    (ioctl_seq (thk_init 0) sample_ops).total_requests
      = (ioctl_seq (thk_init 0) sample_ops).total_allowed
        + (ioctl_seq (thk_init 0) sample_ops).total_blocked
        + (ioctl_seq (thk_init 0) sample_ops).total_rate_limited
        + invalid_count (thk_init 0) sample_ops :=
  counter_conservation 0 sample_ops (by decide)

/-- None of the seeded patterns is empty, and none occurs in `echo hello`. -/
theorem seeded_patterns_not_in_echo_hello :
    ∀ i, i < (thk_init 0).blocklist_count →
      pattern (thk_init 0) i ≠ [] ∧ ¬ pattern (thk_init 0) i <:+: bytes "echo hello" := by
  decide

/-- The example of C12 (selftest `stats_increment`): validating `echo hello` on the
freshly initialised device leaves `total_requests = 1` and `total_allowed = 1`. -/
theorem validate_increments_requests_and_outcome_counter_witness :
    (thk_exec_validate (env_user 0) (thk_init 0)
      (mk_request "echo hello" THK_EXEC_F_DRYRUN 1000)).dev.total_requests = 1 ∧
    (thk_exec_validate (env_user 0) (thk_init 0)
      (mk_request "echo hello" THK_EXEC_F_DRYRUN 1000)).dev.total_allowed = 1 := by
  have hok := seeded_request_ok (env_user 0) (thk_init 0) "echo hello" THK_EXEC_F_DRYRUN
    1000 rfl rfl (by decide) (by decide) (by decide) seeded_patterns_not_in_echo_hello
  obtain ⟨⟨hreq, hcases⟩, _⟩ := validate_increments_requests_and_outcome_counter
    (env_user 0) (thk_init 0) (mk_request "echo hello" THK_EXEC_F_DRYRUN 1000)
  refine ⟨by rw [hreq]; decide, ?_⟩
  rcases hcases with ⟨_, ha, _, _⟩ | ⟨hr, _, _, _⟩ | ⟨hr, _, _, _⟩ | ⟨hr, _, _, _⟩
  · rw [ha]; decide
  · rw [hok] at hr; exact absurd hr (by decide)
  · rw [hok] at hr; exact absurd hr (by decide)
  · rw [hok] at hr; exact absurd hr (by decide)

/-- Non-vacuity of C13: the freshly initialised device and an unprivileged caller
sending DRYRUN requests, as the selftests do. -/
theorem seeded_blocklist_examples_witness :
    (thk_exec_validate (env_user 0) (thk_init 0)
        (mk_request "echo rm -rf /" THK_EXEC_F_DRYRUN 1000)).dev.last_result.result
      = THK_RESULT_BLOCKED ∧
    (thk_exec_validate (env_user 0) (thk_init 0)
        (mk_request "ls -la" THK_EXEC_F_DRYRUN 1000)).dev.last_result.result
      = THK_RESULT_OK :=
  have h := seeded_blocklist_examples (env_user 0) (thk_init 0) THK_EXEC_F_DRYRUN 1000
    rfl rfl (by decide) (Or.inr rfl)
  ⟨h.2.1.1, h.2.2.2.1⟩

/-- Non-vacuity of C14: the freshly initialised device with the limit set to 0. -/
theorem rate_limit_zero_never_limits_witness :
    thk_check_rate_limit (env_user 0) { thk_init 0 with rate_limit := 0 } 1000
      = (false, { thk_init 0 with rate_limit := 0 }) :=
  (rate_limit_zero_never_limits (env_user 0) { thk_init 0 with rate_limit := 0 } 1000 rfl).1

/-- Non-vacuity of C15: an unprivileged caller asks for `rate_limit = 0`. -/
theorem set_config_requires_admin_witness :
    (thk_ioctl (env_user 0) (thk_init 0) THK_IOC_SET_CONFIG
      (uarg_config { audit_enabled := 0, rate_limit := 0, blocklist_count := 0,
                     reserved := 0 })).ret = -EPERM ∧
    (thk_ioctl (env_user 0) (thk_init 0) THK_IOC_SET_CONFIG
      (uarg_config { audit_enabled := 0, rate_limit := 0, blocklist_count := 0,
                     reserved := 0 })).dev = thk_init 0 :=
  have h := set_config_requires_admin (env_user 0) (thk_init 0)
    (uarg_config { audit_enabled := 0, rate_limit := 0, blocklist_count := 0,
                   reserved := 0 }) rfl
  ⟨h.1, h.2.1⟩

/-- Non-vacuity of C16: a privileged caller sets `audit_enabled = 0`, `rate_limit = 3`
(with junk in the two other fields) and reads the configuration back. -/
theorem set_config_get_config_round_trip_witness :
    (thk_ioctl (env_user 1)
        (thk_ioctl (env_admin 0) (thk_init 0) THK_IOC_SET_CONFIG
          (uarg_config { audit_enabled := 0, rate_limit := 3, blocklist_count := 99,
                         reserved := 7 })).dev
        THK_IOC_GET_CONFIG
        (uarg_config { audit_enabled := 5, rate_limit := 5, blocklist_count := 5,
                       reserved := 5 })).to_user =
      some (.config
        { audit_enabled := 0, rate_limit := 3,
          blocklist_count := (thk_init 0).blocklist_count, reserved := 0 }) :=
  ((set_config_get_config_round_trip (env_admin 0) (thk_init 0)
    (uarg_config { audit_enabled := 0, rate_limit := 3, blocklist_count := 99,
                   reserved := 7 })
    { audit_enabled := 0, rate_limit := 3, blocklist_count := 99, reserved := 7 }
    rfl rfl).2.1 (env_user 1)
    (uarg_config { audit_enabled := 5, rate_limit := 5, blocklist_count := 5,
                   reserved := 5 }) rfl).2

/-- Non-vacuity of C17: the same SetConfig leaves everything but the two fields. -/
theorem set_config_changes_only_audit_and_rate_limit_witness :
    (thk_ioctl (env_admin 0) (thk_init 0) THK_IOC_SET_CONFIG
      (uarg_config { audit_enabled := 0, rate_limit := 3, blocklist_count := 99,
                     reserved := 7 })).dev =
      { thk_init 0 with
        audit_enabled := (thk_ioctl (env_admin 0) (thk_init 0) THK_IOC_SET_CONFIG
          (uarg_config { audit_enabled := 0, rate_limit := 3, blocklist_count := 99,
                         reserved := 7 })).dev.audit_enabled,
        rate_limit := (thk_ioctl (env_admin 0) (thk_init 0) THK_IOC_SET_CONFIG
          (uarg_config { audit_enabled := 0, rate_limit := 3, blocklist_count := 99,
                         reserved := 7 })).dev.rate_limit } :=
  (set_config_changes_only_audit_and_rate_limit (env_admin 0) (thk_init 0)
    (uarg_config { audit_enabled := 0, rate_limit := 3, blocklist_count := 99,
                   reserved := 7 }) (by decide)).1

/-- Non-vacuity of C18: the code `_IO(0xBB, 0xFF)` of the selftest `invalid_ioctl`. -/
theorem unknown_ioctl_rejected_witness :
    (thk_ioctl (env_user 0) (thk_init 0) (_IOC _IOC_NONE THK_IOC_MAGIC 0xFF 0)
      { from_user_request := none, from_user_config := none, to_user_ok := false }).ret
      = -ENOTTY ∧
    (thk_ioctl (env_user 0) (thk_init 0) (_IOC _IOC_NONE THK_IOC_MAGIC 0xFF 0)
      { from_user_request := none, from_user_config := none, to_user_ok := false }).dev
      = thk_init 0 :=
  have h := unknown_ioctl_rejected (env_user 0) (thk_init 0)
    (_IOC _IOC_NONE THK_IOC_MAGIC 0xFF 0)
    { from_user_request := none, from_user_config := none, to_user_ok := false }
    (by decide) (by decide) (by decide) (by decide) (by decide) (by decide)
  ⟨h.1, h.2.1⟩

/-! ## Return value, audit emission and the last-result slot -/

/-- Return value and audit emission of every validation. -/
theorem validate_ret_audit (env : thk_env) (dev : thk_device) (req : thk_exec_request) :
    (thk_exec_validate env dev req).ret = 0 ∧
    (thk_exec_validate env dev req).audit =
      if dev.audit_enabled ≠ 0 ∧ req.flags &&& THK_EXEC_F_AUDIT ≠ 0 then
        thk_audit_log env req.command (make_kuid req.uid)
          (thk_exec_validate env dev req).dev.last_result.result
      else none := by
  unfold thk_exec_validate
  simp only []
  split
  · exact ⟨rfl, rfl⟩
  · rw [thk_check_rate_limit_eq]
    simp only []
    split
    · exact ⟨rfl, rfl⟩
    · split
      · split <;> exact ⟨rfl, rfl⟩
      · split <;> exact ⟨rfl, rfl⟩

/-- A validation does not read the previous last result. -/
theorem validate_ignores_last_result (env : thk_env) (dev : thk_device)
    (req : thk_exec_request) (prev : thk_exec_result) :
    (thk_exec_validate env { dev with last_result := prev } req).dev
      = (thk_exec_validate env dev req).dev := by
  by_cases h : req.command.getD 0 0 = 0
  · rw [validate_empty env _ req h, validate_empty env dev req h]
  · have hrl : rate_limited env { dev with last_result := prev } req.uid
        = rate_limited env dev req.uid := by
      rw [rate_limited_eq, rate_limited_eq]
    cases hl : rate_limited env dev req.uid
    · rw [validate_checked env _ req h (hrl.trans hl), validate_checked env dev req h hl]
      rfl
    · rw [validate_limited env _ req h (hrl.trans hl), validate_limited env dev req h hl]

/-- The case `THK_IOC_EXEC_STATUS` of `thk_ioctl`. -/
theorem thk_ioctl_exec_status (env : thk_env) (dev : thk_device) (uarg : thk_uarg) :
    thk_ioctl env dev THK_IOC_EXEC_STATUS uarg =
      ioctl_copy_to_user dev uarg (.result dev.last_result) := by
  have h1 : THK_IOC_EXEC_STATUS ≠ THK_IOC_VERSION := by decide
  have h2 : THK_IOC_EXEC_STATUS ≠ THK_IOC_EXEC_VALIDATE := by decide
  unfold thk_ioctl
  rw [if_neg h1, if_neg h2, if_pos rfl]

/-- The case `THK_IOC_VERSION` of `thk_ioctl`. -/
theorem thk_ioctl_version (env : thk_env) (dev : thk_device) (uarg : thk_uarg) :
    thk_ioctl env dev THK_IOC_VERSION uarg =
      ioctl_copy_to_user dev uarg (.version THK_VERSION) := by
  unfold thk_ioctl
  rw [if_pos rfl]

/-- C21: the last-result slot is overwritten wholesale by every validation. The result
recorded by `thk_exec_validate` (and the whole device afterwards) is the same for
every previous content `prev` of the slot, so nothing of an earlier result survives;
and a `THK_IOC_EXEC_STATUS` issued next with a writable argument returns 0, copies out
exactly that result and leaves the device as it is. -/
theorem last_result_overwritten_wholesale (env : thk_env) (dev : thk_device)
    (req : thk_exec_request) (prev : thk_exec_result) :
    (thk_exec_validate env { dev with last_result := prev } req).dev.last_result
      = (thk_exec_validate env dev req).dev.last_result ∧
    (thk_exec_validate env { dev with last_result := prev } req).dev
      = (thk_exec_validate env dev req).dev ∧
    ∀ (env2 : thk_env) (uarg : thk_uarg),
      (thk_ioctl env2 (thk_exec_validate env dev req).dev THK_IOC_EXEC_STATUS uarg).dev
        = (thk_exec_validate env dev req).dev ∧
      (uarg.to_user_ok = true →
        (thk_ioctl env2 (thk_exec_validate env dev req).dev THK_IOC_EXEC_STATUS uarg).ret
          = 0 ∧
        (thk_ioctl env2 (thk_exec_validate env dev req).dev THK_IOC_EXEC_STATUS
            uarg).to_user
          = some (.result (thk_exec_validate env dev req).dev.last_result)) := by
  refine ⟨by rw [validate_ignores_last_result], validate_ignores_last_result env dev req prev,
    ?_⟩
  intro env2 uarg
  rw [thk_ioctl_exec_status]
  refine ⟨ioctl_copy_to_user_dev _ _ _, ?_⟩
  intro hok
  unfold ioctl_copy_to_user
  rw [if_pos hok]
  exact ⟨rfl, rfl⟩

/-- C30: `THK_IOC_VERSION` with a writable argument returns 0 and copies out
`THK_VERSION = 0x00010000`, which decodes as `major.minor.patch = 1.0.0`; with an
argument that cannot be written it returns `-EFAULT`; the device is unchanged in both
cases, for every device. -/
theorem version_ioctl_reports_1_0_0 (env : thk_env) (dev : thk_device) (uarg : thk_uarg) :
    (uarg.to_user_ok = true →
      (thk_ioctl env dev THK_IOC_VERSION uarg).ret = 0 ∧
      (thk_ioctl env dev THK_IOC_VERSION uarg).to_user = some (.version 0x00010000)) ∧
    (uarg.to_user_ok = false → (thk_ioctl env dev THK_IOC_VERSION uarg).ret = -EFAULT) ∧
    (thk_ioctl env dev THK_IOC_VERSION uarg).dev = dev ∧
    THK_VERSION = 0x00010000 ∧
    (THK_VERSION >>> 16) &&& 0xff = 1 ∧
    (THK_VERSION >>> 8) &&& 0xff = 0 ∧
    THK_VERSION &&& 0xff = 0 := by
  rw [thk_ioctl_version]
  refine ⟨?_, ?_, ioctl_copy_to_user_dev _ _ _, rfl, by decide, by decide, by decide⟩
  · intro hok
    unfold ioctl_copy_to_user
    rw [if_pos hok]
    exact ⟨rfl, rfl⟩
  · intro hno
    unfold ioctl_copy_to_user
    rw [hno]
    rfl

/-! ## What the decision depends on -/

/-- The loop of `thk_check_blocklist` reads only the slots of its range. -/
theorem check_blocklist_loop_congr (bl1 bl2 : List (List Nat)) (cmd reason : List Nat)
    (rl : Nat) : ∀ (n i : Nat),
    (∀ k, i ≤ k → k < i + n → bl1.getD k [] = bl2.getD k []) →
    check_blocklist_loop bl1 cmd reason rl n i = check_blocklist_loop bl2 cmd reason rl n i := by
  intro n
  induction n with
  | zero => intro i _; rfl
  | succ n ih =>
    intro i h
    have hi := h i (le_refl i) (by omega)
    simp only [check_blocklist_loop, hi]
    rw [ih (i + 1) (fun k h1 h2 => h k (by omega) (by omega))]

/-- The function `thk_check_blocklist` reads `blocklist_count` and the slots below it. -/
theorem thk_check_blocklist_congr (dev1 dev2 : thk_device) (cmd reason : List Nat)
    (rl : Nat)
    (hcnt : dev1.blocklist_count = dev2.blocklist_count)
    (hslots : ∀ i, i < dev1.blocklist_count →
      dev1.blocklist.getD i [] = dev2.blocklist.getD i []) :
    thk_check_blocklist dev1 cmd reason rl = thk_check_blocklist dev2 cmd reason rl := by
  unfold thk_check_blocklist
  rw [← hcnt]
  exact check_blocklist_loop_congr _ _ _ _ _ _ 0 (fun k _ h2 => hslots k (by omega))

/-- The recorded outcome, the reason and the counters of a validation are fixed by the
command, the decision of the rate limiter, whether the blocklist is bypassed, the
blocklist and the counters before. -/
theorem validate_decision_congr (env1 env2 : thk_env) (dev1 dev2 : thk_device)
    (req1 req2 : thk_exec_request)
    (hcmd : req1.command = req2.command)
    (hrl : rate_limited env1 dev1 req1.uid = rate_limited env2 dev2 req2.uid)
    (hfa : force_admin env1 req1 = force_admin env2 req2)
    (hbl : dev1.blocklist = dev2.blocklist)
    (hcnt : dev1.blocklist_count = dev2.blocklist_count)
    (hc1 : dev1.total_requests = dev2.total_requests)
    (hc2 : dev1.total_allowed = dev2.total_allowed)
    (hc3 : dev1.total_blocked = dev2.total_blocked)
    (hc4 : dev1.total_rate_limited = dev2.total_rate_limited) :
    (thk_exec_validate env1 dev1 req1).dev.last_result.result
      = (thk_exec_validate env2 dev2 req2).dev.last_result.result ∧
    (thk_exec_validate env1 dev1 req1).dev.last_result.reason
      = (thk_exec_validate env2 dev2 req2).dev.last_result.reason ∧
    (thk_exec_validate env1 dev1 req1).dev.total_requests
      = (thk_exec_validate env2 dev2 req2).dev.total_requests ∧
    (thk_exec_validate env1 dev1 req1).dev.total_allowed
      = (thk_exec_validate env2 dev2 req2).dev.total_allowed ∧
    (thk_exec_validate env1 dev1 req1).dev.total_blocked
      = (thk_exec_validate env2 dev2 req2).dev.total_blocked ∧
    (thk_exec_validate env1 dev1 req1).dev.total_rate_limited
      = (thk_exec_validate env2 dev2 req2).dev.total_rate_limited := by
  by_cases h : req1.command.getD 0 0 = 0
  · have h2 : req2.command.getD 0 0 = 0 := by rw [← hcmd]; exact h
    rw [validate_empty env1 dev1 req1 h, validate_empty env2 dev2 req2 h2]
    exact ⟨rfl, rfl, by rw [hc1], hc2, hc3, hc4⟩
  · have h2 : req2.command.getD 0 0 ≠ 0 := by rw [← hcmd]; exact h
    cases hl : rate_limited env1 dev1 req1.uid
    · have hl2 : rate_limited env2 dev2 req2.uid = false := by rw [← hrl]; exact hl
      rw [validate_checked env1 dev1 req1 h hl, validate_checked env2 dev2 req2 h2 hl2]
      have hchk : thk_check_blocklist dev1 req1.command
            (List.replicate THK_MAX_REASON_LEN 0) THK_MAX_REASON_LEN
          = thk_check_blocklist dev2 req2.command
            (List.replicate THK_MAX_REASON_LEN 0) THK_MAX_REASON_LEN := by
        rw [hcmd]
        exact thk_check_blocklist_congr dev1 dev2 _ _ _ hcnt (fun i _ => by rw [hbl])
      rw [hfa, hchk]
      generalize (if force_admin env2 req2 = false then
          thk_check_blocklist dev2 req2.command (List.replicate THK_MAX_REASON_LEN 0)
            THK_MAX_REASON_LEN
        else (false, List.replicate THK_MAX_REASON_LEN 0)) = chk
      obtain ⟨b, r⟩ := chk
      cases b
      · have hb : ¬ (false, r).1 = true := Bool.false_ne_true
        rw [if_neg hb, if_neg hb]
        exact ⟨rfl, rfl, by rw [hc1], by rw [hc2], hc3, hc4⟩
      · rw [if_pos rfl, if_pos rfl]
        exact ⟨rfl, rfl, by rw [hc1], hc2, by rw [hc3], hc4⟩
    · have hl2 : rate_limited env2 dev2 req2.uid = true := by rw [← hrl]; exact hl
      rw [validate_limited env1 dev1 req1 h hl, validate_limited env2 dev2 req2 h2 hl2]
      exact ⟨rfl, rfl, by rw [hc1], hc2, hc3, by rw [hc4]⟩

/-- C26: the blocklist matcher is bounded by `blocklist_count`. Two devices with the same
count whose slots agree below the count, each of these slots holding a string that ends
inside its 64 bytes, give the same result of `thk_check_blocklist` (match or not, and the
reason buffer) for every command, whatever the slots from the count on hold; a match
stores the whole text naming a pattern of a slot below the count; with
`blocklist_count = 0` nothing matches and the reason buffer is left alone. -/
theorem blocklist_bounded_by_count (dev1 dev2 : thk_device) (cmd reason : List Nat)
    (reason_len : Nat)
    (hcount : dev1.blocklist_count = dev2.blocklist_count)
    (hslots : ∀ i, i < dev1.blocklist_count →
      dev1.blocklist.getD i [] = dev2.blocklist.getD i [])
    (hfit : ∀ i, i < dev1.blocklist_count →
      strlen (dev1.blocklist.getD i []) < THK_MAX_BLOCKLIST_PAT) :
    thk_check_blocklist dev1 cmd reason reason_len
      = thk_check_blocklist dev2 cmd reason reason_len ∧
    (dev1.blocklist_count = 0 →
      thk_check_blocklist dev1 cmd reason reason_len = (false, reason)) ∧
    (∀ r : List Nat,
      thk_check_blocklist dev1 cmd (List.replicate THK_MAX_REASON_LEN 0) THK_MAX_REASON_LEN
        = (true, r) →
      ∃ j, j < dev1.blocklist_count ∧ pattern dev1 j = pattern dev2 j ∧
        cstr r = bytes "blocked: matches pattern '" ++ pattern dev1 j ++ bytes "'") := by
  refine ⟨thk_check_blocklist_congr dev1 dev2 cmd reason reason_len hcount hslots, ?_, ?_⟩
  · intro h0
    unfold thk_check_blocklist
    rw [h0]
    rfl
  · intro r hr
    unfold thk_check_blocklist at hr
    rcases check_blocklist_loop_cases dev1.blocklist cmd
        (List.replicate THK_MAX_REASON_LEN 0) THK_MAX_REASON_LEN dev1.blocklist_count 0
      with ⟨j, _, h2, _, _, h5⟩ | ⟨_, h2⟩
    · have hj : j < dev1.blocklist_count := by omega
      rw [h5] at hr
      have hr2 := (Prod.mk.inj hr).2
      refine ⟨j, hj, by unfold pattern; rw [hslots j hj], ?_⟩
      rw [← hr2]
      exact cstr_blocked_reason _ (hfit j hj)
    · rw [h2] at hr
      exact Bool.noConfusion (Prod.mk.inj hr).1

/-! ## Allocation failure and auditing -/

/-- With no entry for the uid and a failing allocation the table is left as it is. -/
theorem rate_step_alloc_fails (now : Int) (limit uid : Nat) (tbl : rate_table)
    (hnone : rate_lookup tbl uid = none) :
    rate_step now false limit uid tbl = (false, tbl) := by
  unfold rate_step
  by_cases h0 : limit = 0
  · rw [if_pos h0]
  · rw [if_neg h0, rate_scan_none uid now limit _ hnone]
    rfl

/-- With no entry for the uid a successful allocation does not limit either. -/
theorem rate_step_alloc_ok_flag (now : Int) (limit uid : Nat) (tbl : rate_table)
    (hnone : rate_lookup tbl uid = none) :
    (rate_step now true limit uid tbl).1 = false := by
  unfold rate_step
  by_cases h0 : limit = 0
  · rw [if_pos h0]
  · rw [if_neg h0, rate_scan_none uid now limit _ hnone]
    rfl

/-- C23: allocation failure in the rate limiter fails open. When `thk_check_rate_limit`
finds no entry for the uid and the allocation fails, it returns not-limited and the
device unchanged; `thk_exec_validate` then returns 0, leaves the rate table as it was,
never records RateLimited, records Ok or Blocked for a non-empty command, and records
the same result, reason and counters as the run in which the allocation succeeds. -/
theorem allocation_failure_fails_open (env : thk_env) (dev : thk_device) (uid : Nat)
    (hnone : rate_lookup dev.rate_hash uid = none)
    (hfail : env.alloc_ok = false) :
    thk_check_rate_limit env dev uid = (false, dev) ∧
    ∀ req : thk_exec_request, req.uid = uid →
      (thk_exec_validate env dev req).ret = 0 ∧
      (thk_exec_validate env dev req).dev.rate_hash = dev.rate_hash ∧
      (thk_exec_validate env dev req).dev.last_result.result ≠ THK_RESULT_RATE_LIMITED ∧
      (req.command.getD 0 0 ≠ 0 →
        (thk_exec_validate env dev req).dev.last_result.result = THK_RESULT_OK ∨
        (thk_exec_validate env dev req).dev.last_result.result = THK_RESULT_BLOCKED) ∧
      (thk_exec_validate env dev req).dev.last_result.result
        = (thk_exec_validate { env with alloc_ok := true } dev req).dev.last_result.result ∧
      (thk_exec_validate env dev req).dev.last_result.reason
        = (thk_exec_validate { env with alloc_ok := true } dev req).dev.last_result.reason ∧
      (thk_exec_validate env dev req).dev.total_requests
        = (thk_exec_validate { env with alloc_ok := true } dev req).dev.total_requests ∧
      (thk_exec_validate env dev req).dev.total_allowed
        = (thk_exec_validate { env with alloc_ok := true } dev req).dev.total_allowed ∧
      (thk_exec_validate env dev req).dev.total_blocked
        = (thk_exec_validate { env with alloc_ok := true } dev req).dev.total_blocked ∧
      (thk_exec_validate env dev req).dev.total_rate_limited
        = (thk_exec_validate { env with alloc_ok := true } dev req).dev.total_rate_limited := by
  have hstep := rate_step_alloc_fails env.now dev.rate_limit uid dev.rate_hash hnone
  constructor
  · rw [thk_check_rate_limit_eq, hfail, hstep]
  · intro req hu
    subst hu
    have hrl : rate_limited env dev req.uid = false := by
      rw [rate_limited_eq, hfail, hstep]
    have hrl2 : rate_limited { env with alloc_ok := true } dev req.uid = false := by
      rw [rate_limited_eq]
      exact rate_step_alloc_ok_flag env.now dev.rate_limit req.uid dev.rate_hash hnone
    have hnot : (thk_exec_validate env dev req).dev.last_result.result
        ≠ THK_RESULT_RATE_LIMITED := by
      intro h
      rw [validate_limited_iff, hfail, hstep] at h
      exact Bool.noConfusion h.2
    refine ⟨(validate_ret_audit env dev req).1, ?_, hnot, ?_, ?_⟩
    · rw [validate_rate_hash, hfail, hstep]
      split <;> rfl
    · intro hne
      obtain ⟨r, hr | hr⟩ := validate_checked_cases env dev req hne hrl <;> rw [hr]
      · exact Or.inr rfl
      · exact Or.inl rfl
    · exact validate_decision_congr env { env with alloc_ok := true } dev dev req req rfl
        (hrl.trans hrl2.symm) rfl rfl rfl rfl rfl rfl rfl

theorem force_admin_flags_congr (env1 env2 : thk_env) (req1 req2 : thk_exec_request)
    (hcap : env1.cap_sys_admin = env2.cap_sys_admin)
    (hbit : req1.flags &&& THK_EXEC_F_FORCE = req2.flags &&& THK_EXEC_F_FORCE) :
    force_admin env1 req1 = force_admin env2 req2 := by
  unfold force_admin
  rw [hcap, hbit]

theorem xor_audit_keeps_force (flags : Nat) :
    (flags ^^^ THK_EXEC_F_AUDIT) &&& THK_EXEC_F_FORCE = flags &&& THK_EXEC_F_FORCE := by
  rw [Nat.and_xor_distrib_right]
  have h : THK_EXEC_F_AUDIT &&& THK_EXEC_F_FORCE = 0 := by decide
  rw [h, Nat.xor_zero]

/-- C25: auditing never influences the decision. For every device and request, the
recorded outcome code and reason, the four counters and the rate table after
`thk_exec_validate` are the same when `audit_enabled` is replaced by any value, the
AUDIT bit of the request is toggled or not, the kernel is built with or without
`CONFIG_THK_AUDIT`, and `audit_log_start` returns a buffer or `NULL`. -/
theorem audit_never_influences_decision (env : thk_env) (dev : thk_device)
    (req : thk_exec_request) (audit_enabled2 : Nat)
    (toggle_audit config2 start_ok2 : Bool) :
    (thk_exec_validate env dev req).dev.last_result.result
      = (thk_exec_validate { env with config_thk_audit := config2, audit_start_ok := start_ok2 }
          { dev with audit_enabled := audit_enabled2 }
          { req with flags := if toggle_audit then req.flags ^^^ THK_EXEC_F_AUDIT
                              else req.flags }).dev.last_result.result ∧
    (thk_exec_validate env dev req).dev.last_result.reason
      = (thk_exec_validate { env with config_thk_audit := config2, audit_start_ok := start_ok2 }
          { dev with audit_enabled := audit_enabled2 }
          { req with flags := if toggle_audit then req.flags ^^^ THK_EXEC_F_AUDIT
                              else req.flags }).dev.last_result.reason ∧
    (thk_exec_validate env dev req).dev.total_requests
      = (thk_exec_validate { env with config_thk_audit := config2, audit_start_ok := start_ok2 }
          { dev with audit_enabled := audit_enabled2 }
          { req with flags := if toggle_audit then req.flags ^^^ THK_EXEC_F_AUDIT
                              else req.flags }).dev.total_requests ∧
    (thk_exec_validate env dev req).dev.total_allowed
      = (thk_exec_validate { env with config_thk_audit := config2, audit_start_ok := start_ok2 }
          { dev with audit_enabled := audit_enabled2 }
          { req with flags := if toggle_audit then req.flags ^^^ THK_EXEC_F_AUDIT
                              else req.flags }).dev.total_allowed ∧
    (thk_exec_validate env dev req).dev.total_blocked
      = (thk_exec_validate { env with config_thk_audit := config2, audit_start_ok := start_ok2 }
          { dev with audit_enabled := audit_enabled2 }
          { req with flags := if toggle_audit then req.flags ^^^ THK_EXEC_F_AUDIT
                              else req.flags }).dev.total_blocked ∧
    (thk_exec_validate env dev req).dev.total_rate_limited
      = (thk_exec_validate { env with config_thk_audit := config2, audit_start_ok := start_ok2 }
          { dev with audit_enabled := audit_enabled2 }
          { req with flags := if toggle_audit then req.flags ^^^ THK_EXEC_F_AUDIT
                              else req.flags }).dev.total_rate_limited ∧
    (thk_exec_validate env dev req).dev.rate_hash
      = (thk_exec_validate { env with config_thk_audit := config2, audit_start_ok := start_ok2 }
          { dev with audit_enabled := audit_enabled2 }
          { req with flags := if toggle_audit then req.flags ^^^ THK_EXEC_F_AUDIT
                              else req.flags }).dev.rate_hash := by
  have hfa : force_admin env req
      = force_admin { env with config_thk_audit := config2, audit_start_ok := start_ok2 }
          { req with flags := if toggle_audit then req.flags ^^^ THK_EXEC_F_AUDIT
                              else req.flags } := by
    apply force_admin_flags_congr _ _ _ _ rfl
    cases toggle_audit
    · rfl
    · exact (xor_audit_keeps_force req.flags).symm
  have hrl : rate_limited env dev req.uid
      = rate_limited { env with config_thk_audit := config2, audit_start_ok := start_ok2 }
          { dev with audit_enabled := audit_enabled2 } req.uid := by
    rw [rate_limited_eq, rate_limited_eq]
  obtain ⟨h1, h2, h3, h4, h5, h6⟩ := validate_decision_congr env
    { env with config_thk_audit := config2, audit_start_ok := start_ok2 } dev
    { dev with audit_enabled := audit_enabled2 } req
    { req with flags := if toggle_audit then req.flags ^^^ THK_EXEC_F_AUDIT else req.flags }
    rfl hrl hfa rfl rfl rfl rfl rfl rfl
  refine ⟨h1, h2, h3, h4, h5, h6, ?_⟩
  rw [validate_rate_hash, validate_rate_hash]

/-- What `thk_audit_log` emits. -/
theorem thk_audit_log_some_iff (env : thk_env) (cmd : List Nat) (uid result : Nat) :
    (thk_audit_log env cmd uid result).isSome = true ↔
      (env.config_thk_audit = true ∧ env.audit_start_ok = true) := by
  unfold thk_audit_log
  cases env.config_thk_audit <;> cases env.audit_start_ok <;> simp

theorem thk_audit_log_record (env : thk_env) (cmd : List Nat) (uid result : Nat)
    (r : thk_audit_record) (h : thk_audit_log env cmd uid result = some r) :
    r.uid = from_kuid_munged uid ∧ r.cmd = (cstr cmd).take 256 ∧
    r.label = (if result = THK_RESULT_OK then "allowed"
               else if result = THK_RESULT_BLOCKED then "blocked"
               else if result = THK_RESULT_RATE_LIMITED then "rate_limited"
               else "invalid") := by
  unfold thk_audit_log at h
  cases hc : env.config_thk_audit <;> rw [hc] at h
  · simp at h
  · cases hs : env.audit_start_ok <;> rw [hs] at h
    · simp at h
    · simp only [if_true, Option.some.injEq] at h
      rw [← h]
      exact ⟨rfl, rfl, rfl⟩

/-- C24 as stated fails: on the freshly initialised device (`audit_enabled = 1`) a
request carrying `THK_EXEC_F_AUDIT` leaves no audit record when the kernel is built
without `CONFIG_THK_AUDIT`, and none when `audit_log_start` returns `NULL`; and the
record of a request with uid `0xFFFFFFFF` carries `overflowuid` (65534), not that uid. -/
theorem audit_record_not_always_emitted :
    (thk_init 0).audit_enabled ≠ 0 ∧
    (mk_request "rm -rf /" THK_EXEC_F_AUDIT 1000).flags &&& THK_EXEC_F_AUDIT ≠ 0 ∧
    (thk_exec_validate (env_no_audit_config 0) (thk_init 0)
      (mk_request "rm -rf /" THK_EXEC_F_AUDIT 1000)).audit = none ∧
    (thk_exec_validate (env_audit_start_fails 0) (thk_init 0)
      (mk_request "rm -rf /" THK_EXEC_F_AUDIT 1000)).audit = none ∧
    ((thk_exec_validate (env_user 0) (thk_init 0)
      (mk_request "rm -rf /" THK_EXEC_F_AUDIT 4294967295)).audit.map
        (fun r => r.uid)) = some 65534 := by
  decide

/-- C24, amended: `thk_exec_validate` emits an audit record if and only if
`audit_enabled` is non-zero, the request carries `THK_EXEC_F_AUDIT`, the kernel is built
with `CONFIG_THK_AUDIT` and `audit_log_start` returns a buffer, whatever the outcome.
The record carries the uid as `from_kuid_munged` reports it (the request uid itself
unless that is `0xFFFFFFFF`), the first 256 bytes at most of the command string, and
the label `allowed`, `blocked`, `rate_limited` or `invalid` of the recorded outcome. -/
theorem audit_record_emitted_iff (env : thk_env) (dev : thk_device)
    (req : thk_exec_request) :
    ((thk_exec_validate env dev req).audit.isSome = true ↔
      (dev.audit_enabled ≠ 0 ∧ req.flags &&& THK_EXEC_F_AUDIT ≠ 0 ∧
        env.config_thk_audit = true ∧ env.audit_start_ok = true)) ∧
    ∀ r : thk_audit_record, (thk_exec_validate env dev req).audit = some r →
      r.uid = from_kuid_munged req.uid ∧
      (req.uid ≠ 2 ^ 32 - 1 → r.uid = req.uid) ∧
      r.cmd = (cstr req.command).take 256 ∧
      r.cmd.length ≤ 256 ∧
      ((thk_exec_validate env dev req).dev.last_result.result = THK_RESULT_OK →
        r.label = "allowed") ∧
      ((thk_exec_validate env dev req).dev.last_result.result = THK_RESULT_BLOCKED →
        r.label = "blocked") ∧
      ((thk_exec_validate env dev req).dev.last_result.result = THK_RESULT_RATE_LIMITED →
        r.label = "rate_limited") ∧
      ((thk_exec_validate env dev req).dev.last_result.result = THK_RESULT_INVALID →
        r.label = "invalid") := by
  have ha := (validate_ret_audit env dev req).2
  constructor
  · rw [ha]
    by_cases hc : dev.audit_enabled ≠ 0 ∧ req.flags &&& THK_EXEC_F_AUDIT ≠ 0
    · rw [if_pos hc, thk_audit_log_some_iff]
      exact ⟨fun h => ⟨hc.1, hc.2, h.1, h.2⟩, fun h => ⟨h.2.2.1, h.2.2.2⟩⟩
    · rw [if_neg hc]
      constructor
      · intro h; exact Bool.noConfusion h
      · intro h; exact absurd ⟨h.1, h.2.1⟩ hc
  · intro r hr
    rw [ha] at hr
    by_cases hc : dev.audit_enabled ≠ 0 ∧ req.flags &&& THK_EXEC_F_AUDIT ≠ 0
    · rw [if_pos hc] at hr
      obtain ⟨h1, h2, h3⟩ := thk_audit_log_record env _ _ _ r hr
      have h1b : r.uid = from_kuid_munged req.uid := h1
      refine ⟨h1b, ?_, h2, ?_, ?_, ?_, ?_, ?_⟩
      · intro hu
        rw [h1b]
        unfold from_kuid_munged
        rw [if_neg hu]
      · rw [h2, List.length_take]
        exact Nat.min_le_left _ _
      · intro ho; rw [h3, ho]; rfl
      · intro ho; rw [h3, ho]; rfl
      · intro ho; rw [h3, ho]; rfl
      · intro ho; rw [h3, ho]; rfl
    · rw [if_neg hc] at hr
      exact Option.noConfusion hr

/-! ## The seeded blocklist -/

theorem getD_set_same (l : List (List Nat)) (i : Nat) (a d : List Nat) (h : i < l.length) :
    (l.set i a).getD i d = a := by
  simp [List.getD_eq_getElem?_getD, List.getElem?_set, h]

theorem getD_set_other (l : List (List Nat)) (i j : Nat) (a d : List Nat) (h : j ≠ i) :
    (l.set i a).getD j d = l.getD j d := by
  have h2 : ¬ i = j := fun e => h e.symm
  simp [List.getD_eq_getElem?_getD, List.getElem?_set, h2]

/-- The loop of `thk_exec_init_blocklist` from index `i`: it ends at index 20, keeps the
number of slots, stores seed `j` into slot `j` for `i <= j < 20` and leaves the other
slots alone. -/
theorem init_blocklist_loop_spec :
    ∀ (fuel i : Nat) (bl : List (List Nat)),
      i ≤ 20 → 20 < fuel + i → 20 ≤ bl.length →
      (init_blocklist_loop fuel i bl).2 = 20 ∧
      (init_blocklist_loop fuel i bl).1.length = bl.length ∧
      (∀ j, i ≤ j → j < 20 →
        (init_blocklist_loop fuel i bl).1.getD j [] =
          strscpy (bl.getD j []) (bytes (default_blocklist.getD j "") ++ [0])
            THK_MAX_BLOCKLIST_PAT) ∧
      (∀ j, (j < i ∨ 20 ≤ j) →
        (init_blocklist_loop fuel i bl).1.getD j [] = bl.getD j []) := by
  have hN : default_blocklist.length = 20 := rfl
  intro fuel
  induction fuel with
  | zero =>
    intro i bl h1 h2 _
    omega
  | succ fuel ih =>
    intro i bl h1 h2 h3
    by_cases hi : i < 20
    · have hcond : i < default_blocklist.length ∧ i < THK_MAX_BLOCKLIST_ENTRIES := by
        rw [hN]; exact ⟨hi, by show i < 128; omega⟩
      have hstep : init_blocklist_loop (fuel + 1) i bl
          = init_blocklist_loop fuel (i + 1)
              (bl.set i (strscpy (bl.getD i []) (bytes (default_blocklist.getD i "") ++ [0])
                THK_MAX_BLOCKLIST_PAT)) := by
        simp only [init_blocklist_loop]
        rw [if_pos hcond]
      rw [hstep]
      obtain ⟨r1, r2, r3, r4⟩ := ih (i + 1)
        (bl.set i (strscpy (bl.getD i []) (bytes (default_blocklist.getD i "") ++ [0])
          THK_MAX_BLOCKLIST_PAT)) (by omega) (by omega) (by rw [List.length_set]; exact h3)
      refine ⟨r1, by rw [r2, List.length_set], ?_, ?_⟩
      · intro j hj1 hj2
        by_cases hji : j = i
        · rw [r4 j (Or.inl (by omega)), hji]
          exact getD_set_same bl i _ _ (by omega)
        · rw [r3 j (by omega) hj2, getD_set_other bl i j _ _ hji]
      · intro j hj
        rw [r4 j (by omega), getD_set_other bl i j _ _ (by omega)]
    · have hi2 : i = 20 := by omega
      have hcond : ¬ (i < default_blocklist.length ∧ i < THK_MAX_BLOCKLIST_ENTRIES) := by
        rw [hN]; exact fun h => hi h.1
      have hstep : init_blocklist_loop (fuel + 1) i bl = (bl, i) := by
        simp only [init_blocklist_loop]
        rw [if_neg hcond]
      rw [hstep]
      refine ⟨hi2, rfl, ?_, fun _ _ => rfl⟩
      intro j hj1 hj2
      omega

/-- Every seed is free of NUL bytes and shorter than a blocklist slot. -/
theorem default_blocklist_fits :
    ∀ i, i < 20 →
      (∀ b ∈ bytes (default_blocklist.getD i ""), b ≠ 0) ∧
      (bytes (default_blocklist.getD i "")).length < THK_MAX_BLOCKLIST_PAT := by
  decide

/-- After `thk_exec_init_blocklist` on a device with at least 20 slots the count is 20 and
slot `i < 20` holds seed `i` as its C string. -/
theorem init_blocklist_slots (dev : thk_device) (hcap : 20 ≤ dev.blocklist.length) :
    (thk_exec_init_blocklist dev).blocklist_count = 20 ∧
    (thk_exec_init_blocklist dev).blocklist.length = dev.blocklist.length ∧
    ∀ i, i < 20 →
      cstr ((thk_exec_init_blocklist dev).blocklist.getD i [])
        = bytes (default_blocklist.getD i "") := by
  have hfuel : default_blocklist.length + 1 = 21 := rfl
  obtain ⟨r1, r2, r3, _⟩ := init_blocklist_loop_spec 21 0 dev.blocklist (by omega)
    (by omega) hcap
  simp only [thk_exec_init_blocklist, hfuel]
  refine ⟨r1, r2, ?_⟩
  intro i hi
  rw [r3 i (Nat.zero_le i) hi]
  obtain ⟨hz, hl⟩ := default_blocklist_fits i hi
  unfold strscpy
  rw [cstr_append_zero _ [] hz]
  exact cstr_store_cstr _ _ _ hz hl

/-- C27: after `thk_exec_init_blocklist` on a device whose blocklist array has its 128
slots, `blocklist_count` is 20 (as many as `default_blocklist` has entries, more than 0
and at most `THK_MAX_BLOCKLIST_ENTRIES`), and for every `i < 20` the string in slot `i`
is `default_blocklist[i]`, whole, every seed being shorter than
`THK_MAX_BLOCKLIST_PAT`; and `THK_IOC_GET_CONFIG` on the device built by `thk_init`
reports `audit_enabled = 1`, `rate_limit = 10`, `blocklist_count = 20`. -/
theorem init_blocklist_seeds_defaults (dev : thk_device)
    (hcap : dev.blocklist.length = THK_MAX_BLOCKLIST_ENTRIES) :
    (thk_exec_init_blocklist dev).blocklist_count = 20 ∧
    default_blocklist.length = 20 ∧
    0 < (thk_exec_init_blocklist dev).blocklist_count ∧
    (thk_exec_init_blocklist dev).blocklist_count ≤ THK_MAX_BLOCKLIST_ENTRIES ∧
    (∀ i, i < 20 →
      cstr ((thk_exec_init_blocklist dev).blocklist.getD i [])
        = bytes (default_blocklist.getD i "") ∧
      (bytes (default_blocklist.getD i "")).length < THK_MAX_BLOCKLIST_PAT) ∧
    ∀ (load_time : Int) (env : thk_env) (uarg : thk_uarg), uarg.to_user_ok = true →
      (thk_ioctl env (thk_init load_time) THK_IOC_GET_CONFIG uarg).ret = 0 ∧
      (thk_ioctl env (thk_init load_time) THK_IOC_GET_CONFIG uarg).to_user =
        some (.config
          { audit_enabled := 1, rate_limit := 10, blocklist_count := 20, reserved := 0 }) := by
  have h20 : 20 ≤ dev.blocklist.length := by
    rw [hcap]; decide
  obtain ⟨h1, _, h3⟩ := init_blocklist_slots dev h20
  refine ⟨h1, rfl, by rw [h1]; decide, by rw [h1]; decide,
    fun i hi => ⟨h3 i hi, (default_blocklist_fits i hi).2⟩, ?_⟩
  intro load_time env uarg hok
  rw [thk_ioctl_get_config]
  unfold ioctl_copy_to_user
  rw [if_pos hok]
  refine ⟨rfl, ?_⟩
  have hc : (thk_init load_time).blocklist_count = 20 := by
    unfold thk_init
    exact (init_blocklist_slots _ (by
      show 20 ≤ (List.replicate THK_MAX_BLOCKLIST_ENTRIES
        (List.replicate THK_MAX_BLOCKLIST_PAT 0)).length
      rw [List.length_replicate]; decide)).1
  rw [hc]
  rfl

/-! ## Patterns are literal -/

/-- A request recorded as Blocked matched some slot: the reason is the text of the first
slot whose pattern occurs in the command. -/
theorem validate_blocked_inv (env : thk_env) (dev : thk_device) (req : thk_exec_request)
    (hlen : req.command.length ≤ THK_MAX_CMD_LEN)
    (hslots : ∀ i, i < dev.blocklist_count →
      strlen (dev.blocklist.getD i []) < THK_MAX_BLOCKLIST_PAT)
    (hb : (thk_exec_validate env dev req).dev.last_result.result = THK_RESULT_BLOCKED) :
    ∃ i, i < dev.blocklist_count ∧ pattern dev i <:+: req.command ∧
      (∀ k, k < i → ¬ pattern dev k <:+: req.command) ∧
      cstr (thk_exec_validate env dev req).dev.last_result.reason =
        bytes "blocked: matches pattern '" ++ pattern dev i ++ bytes "'" := by
  by_cases h : req.command.getD 0 0 = 0
  · rw [validate_empty env dev req h] at hb
    have hb2 : (3 : Nat) = 1 := hb
    exact absurd hb2 (by decide)
  · cases hl : rate_limited env dev req.uid
    · rw [validate_checked env dev req h hl] at hb ⊢
      cases hf : force_admin env req
      · simp only [hf, if_true] at hb ⊢
        rcases thk_check_blocklist_cases dev req.command (List.replicate THK_MAX_REASON_LEN 0)
          THK_MAX_REASON_LEN hlen with ⟨j, hj, hin, hmin, heq⟩ | ⟨_, heq⟩
        · rw [heq]
          refine ⟨j, hj, hin, hmin, ?_⟩
          simp only [if_true]
          rw [cstr_blocked_reason _ (hslots j hj)]
          rfl
        · rw [heq] at hb
          simp at hb
      · simp [hf] at hb
    · rw [validate_limited env dev req h hl] at hb
      have hb2 : (2 : Nat) = 1 := hb
      exact absurd hb2 (by decide)

/-- The slots of the seeded blocklist hold strings shorter than a slot. -/
theorem seeded_slots_fit :
    ∀ i, i < (thk_init 0).blocklist_count →
      strlen ((thk_init 0).blocklist.getD i []) < THK_MAX_BLOCKLIST_PAT := by
  decide

/-- None of the seeded patterns is empty, and none occurs in
`python -c 'import socket'`. -/
theorem seeded_patterns_not_in_python_socket :
    ∀ i, i < (thk_init 0).blocklist_count →
      pattern (thk_init 0) i ≠ [] ∧
      ¬ pattern (thk_init 0) i <:+: bytes "python -c 'import socket'" := by
  decide

/-- None of the seeded patterns is empty, and none occurs in `curl http://x | sh`. -/
theorem seeded_patterns_not_in_curl_pipe_sh :
    ∀ i, i < (thk_init 0).blocklist_count →
      pattern (thk_init 0) i ≠ [] ∧
      ¬ pattern (thk_init 0) i <:+: bytes "curl http://x | sh" := by
  decide

/-- C28: blocklist patterns are literal substrings, not regular expressions. On a device
holding the seeded blocklist, the requests `python -c 'import socket'` and
`curl http://x | sh` (built as the selftests build them, any flags, not rate limited)
are recorded as Ok; and whenever a request is recorded as Blocked with a reason naming
a pattern `p` (in particular one of the seeds `python -c.*import.*socket`,
`perl -e.*socket`, `curl|sh`, `wget|sh`), the bytes of `p` occur contiguously in the
command, and in the text of the command when the request is NUL-padded. -/
theorem blocklist_patterns_are_literal (env : thk_env) (dev : thk_device)
    (flags uid : Nat)
    (hbl : dev.blocklist = (thk_init 0).blocklist)
    (hcnt : dev.blocklist_count = (thk_init 0).blocklist_count)
    (hrl : rate_limited env dev uid = false) :
    (thk_exec_validate env dev
        (mk_request "python -c 'import socket'" flags uid)).dev.last_result.result
      = THK_RESULT_OK ∧
    (thk_exec_validate env dev
        (mk_request "curl http://x | sh" flags uid)).dev.last_result.result
      = THK_RESULT_OK ∧
    (∀ (env2 : thk_env) (req : thk_exec_request) (p : List Nat),
      req.command.length ≤ THK_MAX_CMD_LEN →
      (thk_exec_validate env2 dev req).dev.last_result.result = THK_RESULT_BLOCKED →
      cstr (thk_exec_validate env2 dev req).dev.last_result.reason
        = bytes "blocked: matches pattern '" ++ p ++ bytes "'" →
      p <:+: req.command) ∧
    (∀ (env2 : thk_env) (text : String) (flags2 uid2 : Nat) (p : List Nat),
      (bytes text).length < THK_MAX_CMD_LEN →
      (thk_exec_validate env2 dev (mk_request text flags2 uid2)).dev.last_result.result
        = THK_RESULT_BLOCKED →
      cstr (thk_exec_validate env2 dev (mk_request text flags2 uid2)).dev.last_result.reason
        = bytes "blocked: matches pattern '" ++ p ++ bytes "'" →
      p <:+: bytes text) := by
  have hslots : ∀ i, i < dev.blocklist_count →
      strlen (dev.blocklist.getD i []) < THK_MAX_BLOCKLIST_PAT := by
    intro i hi
    rw [hbl]
    exact seeded_slots_fit i (by rw [← hcnt]; exact hi)
  have hnamed : ∀ (env2 : thk_env) (req : thk_exec_request) (p : List Nat),
      req.command.length ≤ THK_MAX_CMD_LEN →
      (thk_exec_validate env2 dev req).dev.last_result.result = THK_RESULT_BLOCKED →
      cstr (thk_exec_validate env2 dev req).dev.last_result.reason
        = bytes "blocked: matches pattern '" ++ p ++ bytes "'" →
      ∃ i, p = pattern dev i ∧ p <:+: req.command := by
    intro env2 req p hlen hb hreason
    obtain ⟨i, _, hin, _, hr⟩ := validate_blocked_inv env2 dev req hlen hslots hb
    rw [hreason] at hr
    have hp : p = pattern dev i :=
      List.append_cancel_left (List.append_cancel_right hr)
    exact ⟨i, hp, by rw [hp]; exact hin⟩
  refine ⟨?_, ?_, ?_, ?_⟩
  · exact seeded_request_ok env dev "python -c 'import socket'" flags uid hbl hcnt hrl
      (by decide) (by decide) seeded_patterns_not_in_python_socket
  · exact seeded_request_ok env dev "curl http://x | sh" flags uid hbl hcnt hrl
      (by decide) (by decide) seeded_patterns_not_in_curl_pipe_sh
  · intro env2 req p hlen hb hreason
    obtain ⟨_, _, h⟩ := hnamed env2 req p hlen hb hreason
    exact h
  · intro env2 text flags2 uid2 p htext hb hreason
    obtain ⟨i, hp, hin⟩ := hnamed env2 (mk_request text flags2 uid2) p
      (le_of_eq (mk_request_length _ _ _ htext)) hb hreason
    by_cases hnil : p = []
    · rw [hnil]
      exact List.nil_infix
    · rw [hp] at hin hnil ⊢
      exact (pattern_infix_mk_request dev i text flags2 uid2 htext hnil).mp hin

/-! ## Bounds of the command and reason buffers -/

/-- Every read of the loop of `strnstr` lies between the current offset and the end of
the `len` bytes left. -/
theorem strnstr_loop_reads_bounded (s2 : List Nat) (l2 : Nat) :
    ∀ (len : Nat) (s1 : List Nat) (off : Nat),
      ∀ r ∈ strnstr_loop_reads s2 l2 len s1 off, off ≤ r.1 ∧ r.1 + r.2 ≤ off + len := by
  intro len
  induction len with
  | zero =>
    intro s1 off r hr
    simp only [strnstr_loop_reads] at hr
    split at hr
    · rename_i h0
      simp only [List.mem_singleton] at hr
      rw [hr]
      exact ⟨le_refl _, by simp only; omega⟩
    · simp at hr
  | succ n ih =>
    intro s1 off r hr
    simp only [strnstr_loop_reads] at hr
    split at hr
    · rename_i hle
      rw [List.mem_cons] at hr
      rcases hr with hr | hr
      · rw [hr]
        exact ⟨le_refl _, by simp only; omega⟩
      · split at hr
        · simp at hr
        · obtain ⟨h1, h2⟩ := ih s1.tail (off + 1) r hr
          exact ⟨by omega, by omega⟩
    · simp at hr

/-- The offset that `strnstr_loop` returns is the offset of its last read. -/
theorem strnstr_loop_result_read (s2 : List Nat) (l2 : Nat) :
    ∀ (len : Nat) (s1 : List Nat) (off k : Nat),
      strnstr_loop s2 l2 len s1 off = some k →
      (k, l2) ∈ strnstr_loop_reads s2 l2 len s1 off := by
  intro len
  induction len with
  | zero =>
    intro s1 off k h
    simp only [strnstr_loop] at h
    simp only [strnstr_loop_reads]
    split at h
    · rename_i h0
      rw [if_pos h0]
      simp only [Option.some.injEq] at h
      rw [h]
      exact List.mem_singleton_self _
    · simp at h
  | succ n ih =>
    intro s1 off k h
    simp only [strnstr_loop] at h
    simp only [strnstr_loop_reads]
    split at h
    · rename_i hle
      rw [if_pos hle]
      split at h
      · rename_i hm
        simp only [Option.some.injEq] at h
        rw [h]
        exact List.mem_cons_self _ _
      · rename_i hm
        rw [if_neg hm]
        exact List.mem_cons_of_mem _ (ih s1.tail (off + 1) k h)
    · simp at h

/-- The string in `t ++ 0 :: rest` is not longer than `t`. -/
theorem strlen_append_zero_le (t rest : List Nat) : strlen (t ++ 0 :: rest) ≤ t.length := by
  unfold strlen cstr
  induction t with
  | nil => simp [List.takeWhile]
  | cons a as ih =>
    rw [List.cons_append, List.takeWhile_cons]
    split
    · simp only [List.length_cons]
      omega
    · simp

theorem store_cstr_length (dst s : List Nat) (count : Nat) (h0 : 0 < count)
    (hc : count ≤ dst.length) : (store_cstr dst s count).length = dst.length := by
  unfold store_cstr
  have hc0 : count ≠ 0 := by omega
  simp only [hc0, if_false, List.length_append, List.length_cons, List.length_drop,
    List.length_take]
  omega

theorem strlen_store_cstr_lt (dst s : List Nat) (count : Nat) (h0 : 0 < count) :
    strlen (store_cstr dst s count) < count := by
  unfold store_cstr
  have hc0 : count ≠ 0 := by omega
  simp only [hc0, if_false]
  have h1 := strlen_append_zero_le (s.take (count - 1))
    (dst.drop ((s.take (count - 1)).length + 1))
  have h2 : (s.take (count - 1)).length ≤ count - 1 := by
    rw [List.length_take]; exact Nat.min_le_left _ _
  omega

/-- The reason buffer of every recorded result keeps its 256 bytes and holds a string of
at most 255 bytes. -/
theorem validate_reason_buffer (env : thk_env) (dev : thk_device) (req : thk_exec_request) :
    (thk_exec_validate env dev req).dev.last_result.reason.length = THK_MAX_REASON_LEN ∧
    strlen (thk_exec_validate env dev req).dev.last_result.reason < THK_MAX_REASON_LEN := by
  have hz : (List.replicate THK_MAX_REASON_LEN 0).length = THK_MAX_REASON_LEN :=
    List.length_replicate _ _
  have hpos : 0 < THK_MAX_REASON_LEN := by decide
  have hstore : ∀ s : List Nat,
      (store_cstr (List.replicate THK_MAX_REASON_LEN 0) s THK_MAX_REASON_LEN).length
        = THK_MAX_REASON_LEN ∧
      strlen (store_cstr (List.replicate THK_MAX_REASON_LEN 0) s THK_MAX_REASON_LEN)
        < THK_MAX_REASON_LEN := fun s =>
    ⟨(store_cstr_length _ s THK_MAX_REASON_LEN hpos (le_of_eq hz.symm)).trans hz,
      strlen_store_cstr_lt _ s THK_MAX_REASON_LEN hpos⟩
  have hzero : strlen (List.replicate THK_MAX_REASON_LEN 0) < THK_MAX_REASON_LEN := by
    have h0 : strlen (List.replicate THK_MAX_REASON_LEN 0) = 0 := by
      show (cstr (List.replicate 256 0)).length = 0
      rw [List.replicate_succ]
      rfl
    rw [h0]
    exact hpos
  rcases validate_last_result_cases env dev req with h | h | ⟨j, _, h⟩ | h <;> rw [h]
  · exact hstore _
  · exact hstore _
  · exact hstore _
  · exact ⟨hz, hzero⟩

/-- The recorded result code is one of the four outcomes. -/
theorem validate_result_one_of_four (env : thk_env) (dev : thk_device)
    (req : thk_exec_request) :
    (thk_exec_validate env dev req).dev.last_result.result = THK_RESULT_OK ∨
    (thk_exec_validate env dev req).dev.last_result.result = THK_RESULT_BLOCKED ∨
    (thk_exec_validate env dev req).dev.last_result.result = THK_RESULT_RATE_LIMITED ∨
    (thk_exec_validate env dev req).dev.last_result.result = THK_RESULT_INVALID := by
  rcases validate_last_result_cases env dev req with h | h | ⟨j, _, h⟩ | h <;> rw [h]
  · exact Or.inr (Or.inr (Or.inr rfl))
  · exact Or.inr (Or.inr (Or.inl rfl))
  · exact Or.inr (Or.inl rfl)
  · exact Or.inl rfl

/-- The buffers of `THK_IOC_EXEC_VALIDATE`. For every 4096-byte buffer copied in the
command handed to `thk_exec_validate` is the buffer with byte 4095 set to NUL: still 4096
bytes, holding a string of at most 4095 bytes. The call returns 0 with one of the four
outcomes recorded; the reason buffer keeps its 256 bytes and holds a string of at most
255 bytes; and every byte range that a call `strnstr(cmd, pat, THK_MAX_CMD_LEN)`
compares lies inside the command buffer. -/
theorem exec_validate_ioctl_buffers (env : thk_env) (dev : thk_device)
    (uarg : thk_uarg) (req : thk_exec_request)
    (hcopy : uarg.from_user_request = some req)
    (hlen : req.command.length = THK_MAX_CMD_LEN) :
    (thk_ioctl env dev THK_IOC_EXEC_VALIDATE uarg).dev
      = (thk_exec_validate env dev
          { req with command := req.command.set (THK_MAX_CMD_LEN - 1) 0 }).dev ∧
    (req.command.set (THK_MAX_CMD_LEN - 1) 0).length = THK_MAX_CMD_LEN ∧
    (req.command.set (THK_MAX_CMD_LEN - 1) 0).getD (THK_MAX_CMD_LEN - 1) 1 = 0 ∧
    strlen (req.command.set (THK_MAX_CMD_LEN - 1) 0) ≤ THK_MAX_CMD_LEN - 1 ∧
    (thk_ioctl env dev THK_IOC_EXEC_VALIDATE uarg).ret = 0 ∧
    ((thk_ioctl env dev THK_IOC_EXEC_VALIDATE uarg).dev.last_result.result = THK_RESULT_OK ∨
      (thk_ioctl env dev THK_IOC_EXEC_VALIDATE uarg).dev.last_result.result
        = THK_RESULT_BLOCKED ∨
      (thk_ioctl env dev THK_IOC_EXEC_VALIDATE uarg).dev.last_result.result
        = THK_RESULT_RATE_LIMITED ∨
      (thk_ioctl env dev THK_IOC_EXEC_VALIDATE uarg).dev.last_result.result
        = THK_RESULT_INVALID) ∧
    (thk_ioctl env dev THK_IOC_EXEC_VALIDATE uarg).dev.last_result.reason.length
      = THK_MAX_REASON_LEN ∧
    strlen (thk_ioctl env dev THK_IOC_EXEC_VALIDATE uarg).dev.last_result.reason
      < THK_MAX_REASON_LEN ∧
    (∀ (pat : List Nat) (r : Nat × Nat),
      r ∈ strnstr_reads (req.command.set (THK_MAX_CMD_LEN - 1) 0) pat THK_MAX_CMD_LEN →
      r.1 + r.2 ≤ (req.command.set (THK_MAX_CMD_LEN - 1) 0).length) := by
  have hio : thk_ioctl env dev THK_IOC_EXEC_VALIDATE uarg =
      { ret := (thk_exec_validate env dev
          { req with command := req.command.set (THK_MAX_CMD_LEN - 1) 0 }).ret,
        dev := (thk_exec_validate env dev
          { req with command := req.command.set (THK_MAX_CMD_LEN - 1) 0 }).dev,
        to_user := none,
        audit := (thk_exec_validate env dev
          { req with command := req.command.set (THK_MAX_CMD_LEN - 1) 0 }).audit } := by
    rw [thk_ioctl_exec_validate, hcopy]
  have hsetlen : (req.command.set (THK_MAX_CMD_LEN - 1) 0).length = THK_MAX_CMD_LEN := by
    rw [List.length_set]; exact hlen
  have hlt : THK_MAX_CMD_LEN - 1 < req.command.length := by
    rw [hlen]; decide
  have hset : req.command.set (THK_MAX_CMD_LEN - 1) 0
      = req.command.take (THK_MAX_CMD_LEN - 1)
        ++ 0 :: req.command.drop (THK_MAX_CMD_LEN - 1 + 1) := by
    rw [List.set_eq_take_append_cons_drop, if_pos hlt]
  rw [hio]
  refine ⟨rfl, hsetlen, ?_, ?_, (validate_ret_audit env dev _).1,
    validate_result_one_of_four env dev _, (validate_reason_buffer env dev _).1,
    (validate_reason_buffer env dev _).2, ?_⟩
  · rw [List.getD_eq_getElem?_getD, List.getElem?_set_self hlt]
    rfl
  · rw [hset]
    have h1 := strlen_append_zero_le (req.command.take (THK_MAX_CMD_LEN - 1))
      (req.command.drop (THK_MAX_CMD_LEN - 1 + 1))
    have h2 : (req.command.take (THK_MAX_CMD_LEN - 1)).length ≤ THK_MAX_CMD_LEN - 1 := by
      rw [List.length_take]; exact Nat.min_le_left _ _
    omega
  · intro pat r hr
    rw [hsetlen]
    unfold strnstr_reads at hr
    simp only at hr
    split at hr
    · simp at hr
    · have := (strnstr_loop_reads_bounded pat (strlen pat) THK_MAX_CMD_LEN _ 0 r hr).2
      omega

/-! ## Non-vacuity of the claims on the last result, audit, blocklist bounds and ioctls -/

/-- Non-vacuity of C21: a slot holding an earlier Blocked result, then `ls` validated
and the status read back. -/
theorem last_result_overwritten_wholesale_witness :
    (thk_ioctl (env_user 1)
        (thk_exec_validate (env_user 0) (thk_init 0) (mk_request "ls" 0 1000)).dev
        THK_IOC_EXEC_STATUS (uarg_request (mk_request "ls" 0 1000))).to_user
      = some (.result
          (thk_exec_validate (env_user 0) (thk_init 0)
            (mk_request "ls" 0 1000)).dev.last_result) :=
  (((last_result_overwritten_wholesale (env_user 0) (thk_init 0) (mk_request "ls" 0 1000)
      { result := THK_RESULT_BLOCKED, flags := 0,
        reason := bytes "blocked: matches pattern 'rm -rf /'" }).2.2
    (env_user 1) (uarg_request (mk_request "ls" 0 1000))).2 rfl).2

/-- Non-vacuity of C23: the first request of uid 1000 on the fresh device while the
allocation fails. -/
theorem allocation_failure_fails_open_witness :
    thk_check_rate_limit (env_alloc_fails 0) (thk_init 0) 1000 = (false, thk_init 0) :=
  (allocation_failure_fails_open (env_alloc_fails 0) (thk_init 0) 1000 rfl rfl).1

/-- Non-vacuity of C24: `rm -rf /` with the AUDIT flag on the fresh device, audit built in
and working. -/
theorem audit_record_emitted_iff_witness :
    (thk_exec_validate (env_user 0) (thk_init 0)
      (mk_request "rm -rf /" THK_EXEC_F_AUDIT 1000)).audit.isSome = true :=
  (audit_record_emitted_iff (env_user 0) (thk_init 0)
    (mk_request "rm -rf /" THK_EXEC_F_AUDIT 1000)).1.2
    ⟨by decide, by decide, rfl, rfl⟩

/-- Non-vacuity of C26: the fresh device and a copy whose slot 20, the first one behind
the count, holds `ls`. -/
theorem blocklist_bounded_by_count_witness :
    thk_check_blocklist (thk_init 0) (bytes "ls -la") [] THK_MAX_REASON_LEN
      = thk_check_blocklist
          { thk_init 0 with blocklist := (thk_init 0).blocklist.set 20 (bytes "ls") }
          (bytes "ls -la") [] THK_MAX_REASON_LEN :=
  (blocklist_bounded_by_count (thk_init 0)
    { thk_init 0 with blocklist := (thk_init 0).blocklist.set 20 (bytes "ls") }
    (bytes "ls -la") [] THK_MAX_REASON_LEN rfl
    (fun i hi => (getD_set_other (thk_init 0).blocklist 20 i (bytes "ls") []
      (fun e => by
        have h20 : i < 20 := hi
        omega)).symm)
    seeded_slots_fit).1

/-- Non-vacuity of C27: the zeroed device that `thk_init` hands to
`thk_exec_init_blocklist`. -/
theorem init_blocklist_seeds_defaults_witness :
    (thk_exec_init_blocklist
      { thk_init 0 with
        blocklist_count := 0,
        blocklist := List.replicate THK_MAX_BLOCKLIST_ENTRIES
          (List.replicate THK_MAX_BLOCKLIST_PAT 0) }).blocklist_count = 20 :=
  (init_blocklist_seeds_defaults
    { thk_init 0 with
      blocklist_count := 0,
      blocklist := List.replicate THK_MAX_BLOCKLIST_ENTRIES
        (List.replicate THK_MAX_BLOCKLIST_PAT 0) }
    (List.length_replicate _ _)).1

/-- Non-vacuity of C28: the fresh device and an unprivileged caller. -/
theorem blocklist_patterns_are_literal_witness :
    (thk_exec_validate (env_user 0) (thk_init 0)
        (mk_request "python -c 'import socket'" 0 1000)).dev.last_result.result
      = THK_RESULT_OK ∧
    (thk_exec_validate (env_user 0) (thk_init 0)
        (mk_request "curl http://x | sh" 0 1000)).dev.last_result.result
      = THK_RESULT_OK :=
  have h := blocklist_patterns_are_literal (env_user 0) (thk_init 0) 0 1000
    rfl rfl (by decide)
  ⟨h.1, h.2.1⟩

/-- Non-vacuity of C30: the version read from the fresh device into writable memory. -/
theorem version_ioctl_reports_1_0_0_witness :
    (thk_ioctl (env_user 0) (thk_init 0) THK_IOC_VERSION
      (uarg_request (mk_request "" 0 1000))).to_user = some (.version 0x00010000) :=
  ((version_ioctl_reports_1_0_0 (env_user 0) (thk_init 0)
    (uarg_request (mk_request "" 0 1000))).1 rfl).2

/-! ## Policy state -/

/-- An ioctl that is not a `THK_IOC_SET_CONFIG` by an administrator leaves the policy
state as it was. -/
theorem ioctl_policy_unchanged (env : thk_env) (dev : thk_device) (cmd : Nat)
    (uarg : thk_uarg) (h : cmd = THK_IOC_SET_CONFIG → env.cap_sys_admin = false) :
    policy_state (thk_ioctl env dev cmd uarg).dev = policy_state dev := by
  by_cases hv : cmd = THK_IOC_EXEC_VALIDATE
  · rw [hv, thk_ioctl_exec_validate]
    cases uarg.from_user_request with
    | none => rfl
    | some req =>
      obtain ⟨h1, h2, h3, h4⟩ := validate_policy env dev
        { req with command := req.command.set (THK_MAX_CMD_LEN - 1) 0 }
      simp only [policy_state]
      rw [h1, h2, h3, h4]
  · by_cases hs : cmd = THK_IOC_SET_CONFIG
    · rw [hs, thk_ioctl_set_config, if_pos (h hs)]
    · rw [thk_ioctl_dev_other env dev cmd uarg hv hs]

/-- No ioctl changes the blocklist or its count. -/
theorem ioctl_blocklist_unchanged (env : thk_env) (dev : thk_device) (cmd : Nat)
    (uarg : thk_uarg) :
    (thk_ioctl env dev cmd uarg).dev.blocklist_count = dev.blocklist_count ∧
    (thk_ioctl env dev cmd uarg).dev.blocklist = dev.blocklist := by
  by_cases hs : cmd = THK_IOC_SET_CONFIG
  · rw [hs, thk_ioctl_set_config]
    split
    · exact ⟨rfl, rfl⟩
    · cases uarg.from_user_config with
      | none => exact ⟨rfl, rfl⟩
      | some cfg => exact ⟨rfl, rfl⟩
  · have h := ioctl_policy_unchanged env dev cmd uarg (fun e => absurd e hs)
    simp only [policy_state, Prod.mk.injEq] at h
    exact ⟨h.2.2.1, h.2.2.2⟩

theorem ioctl_seq_policy_unchanged :
    ∀ (ops : List thk_ioctl_call) (dev : thk_device),
      (∀ c ∈ ops, privileged_set_config c = false) →
      policy_state (ioctl_seq dev ops) = policy_state dev := by
  intro ops
  induction ops with
  | nil => intro dev _; rfl
  | cons c cs ih =>
    intro dev h
    simp only [ioctl_seq]
    rw [ih _ (fun c2 hc2 => h c2 (List.mem_cons_of_mem _ hc2))]
    apply ioctl_policy_unchanged
    intro hcmd
    have hc := h c (List.mem_cons_self _ _)
    unfold privileged_set_config at hc
    rw [hcmd] at hc
    simpa using hc

/-- C31: the policy state is changed by no ioctl other than a `THK_IOC_SET_CONFIG` issued
with `CAP_SYS_ADMIN`. One such call, and any run of such calls, leaves `audit_enabled`,
`rate_limit`, `blocklist_count` and the blocklist array as they were;
`thk_exec_validate` leaves them unchanged for every request; and no ioctl at all, the
privileged `THK_IOC_SET_CONFIG` included, changes `blocklist_count` or a pattern. -/
theorem policy_mutated_only_by_privileged_set_config (dev : thk_device) :
    (∀ (env : thk_env) (cmd : Nat) (uarg : thk_uarg),
      ¬ (cmd = THK_IOC_SET_CONFIG ∧ env.cap_sys_admin = true) →
      policy_state (thk_ioctl env dev cmd uarg).dev = policy_state dev) ∧
    (∀ ops : List thk_ioctl_call, (∀ c ∈ ops, privileged_set_config c = false) →
      policy_state (ioctl_seq dev ops) = policy_state dev) ∧
    (∀ (env : thk_env) (req : thk_exec_request),
      policy_state (thk_exec_validate env dev req).dev = policy_state dev) ∧
    (∀ (env : thk_env) (cmd : Nat) (uarg : thk_uarg),
      (thk_ioctl env dev cmd uarg).dev.blocklist_count = dev.blocklist_count ∧
      (thk_ioctl env dev cmd uarg).dev.blocklist = dev.blocklist) := by
  refine ⟨?_, fun ops h => ioctl_seq_policy_unchanged ops dev h, ?_,
    fun env cmd uarg => ioctl_blocklist_unchanged env dev cmd uarg⟩
  · intro env cmd uarg h
    apply ioctl_policy_unchanged
    intro hcmd
    cases hcap : env.cap_sys_admin with
    | false => rfl
    | true => exact absurd ⟨hcmd, hcap⟩ h
  · intro env req
    obtain ⟨h1, h2, h3, h4⟩ := validate_policy env dev req
    simp only [policy_state]
    rw [h1, h2, h3, h4]

/-- Non-vacuity of C31: the run `sample_ops` of an unprivileged caller, which holds a
`THK_IOC_SET_CONFIG`, on the fresh device. -/
theorem policy_mutated_only_by_privileged_set_config_witness :
    policy_state (ioctl_seq (thk_init 0) sample_ops) = policy_state (thk_init 0) :=
  (policy_mutated_only_by_privileged_set_config (thk_init 0)).2.1 sample_ops (by decide)

/-! ## Limited decisions, distinct identities and the DRYRUN flag -/

/-- A limited decision of `lookup_step` comes from an entry that is inside its window
and has reached a non-zero limit. -/
theorem lookup_step_limited (now : Int) (a : Bool) (limit uid : Nat)
    (o : Option thk_rate_entry) (h : (lookup_step now a limit uid o).1 = true) :
    limit ≠ 0 ∧ ∃ e, o = some e ∧ limit ≤ e.count ∧ now - e.window_start ≤ RATE_WINDOW_NS := by
  unfold lookup_step at h
  by_cases h0 : limit = 0
  · rw [if_pos h0] at h
    exact Bool.noConfusion h
  · rw [if_neg h0] at h
    cases o with
    | none =>
      cases a <;> exact Bool.noConfusion h
    | some e =>
      refine ⟨h0, e, rfl, ?_⟩
      simp only [entry_step] at h
      by_cases hw : now - e.window_start > RATE_WINDOW_NS
      · rw [if_pos hw] at h
        exact Bool.noConfusion h
      · rw [if_neg hw] at h
        by_cases hc : e.count ≥ limit
        · exact ⟨hc, not_lt.mp hw⟩
        · rw [if_neg hc] at h
          exact Bool.noConfusion h

/-- The decision of `lookup_step` does not depend on the outcome of the allocation. -/
theorem lookup_step_flag_alloc (now : Int) (a b : Bool) (limit uid : Nat)
    (o : Option thk_rate_entry) :
    (lookup_step now a limit uid o).1 = (lookup_step now b limit uid o).1 := by
  unfold lookup_step
  by_cases h0 : limit = 0
  · rw [if_pos h0, if_pos h0]
  · rw [if_neg h0, if_neg h0]
    cases o with
    | none => cases a <;> cases b <;> rfl
    | some e => rfl

/-- Requests with pairwise distinct uids, none of which has an entry, are never recorded
as RateLimited. -/
theorem validate_seq_distinct_not_limited :
    ∀ (calls : List (thk_env × thk_exec_request)) (dev : thk_device),
      (∀ c ∈ calls, rate_lookup dev.rate_hash c.2.uid = none) →
      (calls.map (fun c => c.2.uid)).Nodup →
      ∀ r ∈ (validate_seq dev calls).2, r ≠ THK_RESULT_RATE_LIMITED := by
  intro calls
  induction calls with
  | nil =>
    intro dev _ _ r hr
    simp [validate_seq] at hr
  | cons c cs ih =>
    intro dev hnone hnd r hr
    simp only [validate_seq, List.mem_cons] at hr
    rw [List.map_cons, List.nodup_cons] at hnd
    rcases hr with hr | hr
    · rw [hr]
      intro hlim
      have h := (validate_limited_iff_lookup c.1 dev c.2).mp hlim
      rw [hnone c (List.mem_cons_self _ _)] at h
      obtain ⟨_, e, he, _⟩ := lookup_step_limited _ _ _ _ _ h.2
      exact Option.noConfusion he
    · refine ih (thk_exec_validate c.1 dev c.2).dev ?_ hnd.2 r hr
      intro c2 hc2
      have hne : c2.2.uid ≠ c.2.uid := by
        intro e
        exact hnd.1 (by rw [← e]; exact List.mem_map_of_mem _ hc2)
      rw [validate_lookup_other c.1 dev c.2 _ hne]
      exact hnone c2 (List.mem_cons_of_mem _ hc2)

/-- C37: the rate limiter keys on the uid field of the request. Starting from an empty
rate table, with any limit, a sequence of `thk_exec_validate` calls whose requests carry
pairwise distinct uids has no call recorded as RateLimited. The limited / not-limited
decision is the same for two callers and two devices that agree on the uid asked for,
the rate table, the limit and the time, whatever the capability of the caller, the
outcome of the allocation and the rest of the device; and a request is recorded as
RateLimited exactly when its command is non-empty and that decision is limited for its
uid field. -/
theorem rate_limiter_keys_on_request_uid (dev : thk_device)
    (calls : List (thk_env × thk_exec_request))
    (hempty : dev.rate_hash = fun _ => [])
    (hdistinct : (calls.map (fun c => c.2.uid)).Nodup) :
    (∀ r ∈ (validate_seq dev calls).2, r ≠ THK_RESULT_RATE_LIMITED) ∧
    (∀ (env1 env2 : thk_env) (dev1 dev2 : thk_device) (uid : Nat),
      env1.now = env2.now → dev1.rate_limit = dev2.rate_limit →
      dev1.rate_hash = dev2.rate_hash →
      rate_limited env1 dev1 uid = rate_limited env2 dev2 uid) ∧
    (∀ (env : thk_env) (dev1 : thk_device) (req : thk_exec_request),
      (thk_exec_validate env dev1 req).dev.last_result.result = THK_RESULT_RATE_LIMITED ↔
        (req.command.getD 0 0 ≠ 0 ∧ rate_limited env dev1 req.uid = true)) := by
  refine ⟨?_, ?_, ?_⟩
  · apply validate_seq_distinct_not_limited calls dev _ hdistinct
    intro c _
    rw [hempty]
    rfl
  · intro env1 env2 dev1 dev2 uid hnow hlimit htbl
    rw [rate_limited_eq, rate_limited_eq, (rate_step_self _ _ _ _ _).1,
      (rate_step_self _ _ _ _ _).1, hnow, hlimit, htbl]
    exact lookup_step_flag_alloc _ _ _ _ _ _
  · intro env dev1 req
    rw [validate_limited_iff, rate_limited_eq]

/-- Non-vacuity of C37: three requests of uids 1, 2 and 3 on the fresh device with the
limit set to 1. -/
theorem rate_limiter_keys_on_request_uid_witness :
    ¬ THK_RESULT_RATE_LIMITED ∈ (validate_seq { thk_init 0 with rate_limit := 1 }
        [(env_user 0, mk_request "ls" 0 1), (env_user 1, mk_request "ls" 0 2),
         (env_user 2, mk_request "ls" 0 3)]).2 :=
  fun h => (rate_limiter_keys_on_request_uid { thk_init 0 with rate_limit := 1 }
    [(env_user 0, mk_request "ls" 0 1), (env_user 1, mk_request "ls" 0 2),
     (env_user 2, mk_request "ls" 0 3)] rfl (by decide)).1 _ h rfl

theorem xor_dryrun_keeps_force (flags : Nat) :
    (flags ^^^ THK_EXEC_F_DRYRUN) &&& THK_EXEC_F_FORCE = flags &&& THK_EXEC_F_FORCE := by
  rw [Nat.and_xor_distrib_right]
  have h : THK_EXEC_F_DRYRUN &&& THK_EXEC_F_FORCE = 0 := by decide
  rw [h, Nat.xor_zero]

theorem xor_dryrun_keeps_audit (flags : Nat) :
    (flags ^^^ THK_EXEC_F_DRYRUN) &&& THK_EXEC_F_AUDIT = flags &&& THK_EXEC_F_AUDIT := by
  rw [Nat.and_xor_distrib_right]
  have h : THK_EXEC_F_DRYRUN &&& THK_EXEC_F_AUDIT = 0 := by decide
  rw [h, Nat.xor_zero]

/-- The device left by a request with the DRYRUN bit toggled: the device left by the
request itself, with the flags of the recorded result replaced. -/
theorem validate_dryrun_dev (env : thk_env) (dev : thk_device) (req : thk_exec_request) :
    (thk_exec_validate env dev
        { req with flags := req.flags ^^^ THK_EXEC_F_DRYRUN }).dev =
      { (thk_exec_validate env dev req).dev with
        last_result :=
          { (thk_exec_validate env dev req).dev.last_result with
            flags :=
              if (thk_exec_validate env dev req).dev.last_result.result = THK_RESULT_OK
              then req.flags ^^^ THK_EXEC_F_DRYRUN else 0 } } := by
  have hfa : force_admin env { req with flags := req.flags ^^^ THK_EXEC_F_DRYRUN }
      = force_admin env req :=
    force_admin_flags_congr env env _ req rfl (xor_dryrun_keeps_force req.flags)
  by_cases h : req.command.getD 0 0 = 0
  · rw [validate_empty env dev { req with flags := req.flags ^^^ THK_EXEC_F_DRYRUN } h,
      validate_empty env dev req h]
    rfl
  · cases hl : rate_limited env dev req.uid
    · rw [validate_checked env dev { req with flags := req.flags ^^^ THK_EXEC_F_DRYRUN } h hl,
        validate_checked env dev req h hl, hfa]
      simp only
      generalize (if force_admin env req = false then
          thk_check_blocklist dev req.command (List.replicate THK_MAX_REASON_LEN 0)
            THK_MAX_REASON_LEN
        else (false, List.replicate THK_MAX_REASON_LEN 0)) = chk
      obtain ⟨b, r⟩ := chk
      cases b
      · simp only [Bool.false_eq_true, if_false]
        rfl
      · simp only [if_true]
        rfl
    · rw [validate_limited env dev { req with flags := req.flags ^^^ THK_EXEC_F_DRYRUN } h hl,
        validate_limited env dev req h hl]
      rfl

/-- C38: `THK_EXEC_F_DRYRUN` has no effect on validation. For every device and request,
the run with the DRYRUN bit of the request toggled returns the same value, records the
same outcome code and reason, leaves the same four counters and the same rate table and
emits the same audit record; the device it leaves differs from the other one at most in
the flags of the recorded result, which are the request's flags for Ok and 0
otherwise. -/
theorem dryrun_has_no_effect (env : thk_env) (dev : thk_device) (req : thk_exec_request) :
    (thk_exec_validate env dev { req with flags := req.flags ^^^ THK_EXEC_F_DRYRUN }).ret
      = (thk_exec_validate env dev req).ret ∧
    (thk_exec_validate env dev
        { req with flags := req.flags ^^^ THK_EXEC_F_DRYRUN }).dev.last_result.result
      = (thk_exec_validate env dev req).dev.last_result.result ∧
    (thk_exec_validate env dev
        { req with flags := req.flags ^^^ THK_EXEC_F_DRYRUN }).dev.last_result.reason
      = (thk_exec_validate env dev req).dev.last_result.reason ∧
    (thk_exec_validate env dev
        { req with flags := req.flags ^^^ THK_EXEC_F_DRYRUN }).dev.total_requests
      = (thk_exec_validate env dev req).dev.total_requests ∧
    (thk_exec_validate env dev
        { req with flags := req.flags ^^^ THK_EXEC_F_DRYRUN }).dev.total_allowed
      = (thk_exec_validate env dev req).dev.total_allowed ∧
    (thk_exec_validate env dev
        { req with flags := req.flags ^^^ THK_EXEC_F_DRYRUN }).dev.total_blocked
      = (thk_exec_validate env dev req).dev.total_blocked ∧
    (thk_exec_validate env dev
        { req with flags := req.flags ^^^ THK_EXEC_F_DRYRUN }).dev.total_rate_limited
      = (thk_exec_validate env dev req).dev.total_rate_limited ∧
    (thk_exec_validate env dev
        { req with flags := req.flags ^^^ THK_EXEC_F_DRYRUN }).dev.rate_hash
      = (thk_exec_validate env dev req).dev.rate_hash ∧
    (thk_exec_validate env dev { req with flags := req.flags ^^^ THK_EXEC_F_DRYRUN }).audit
      = (thk_exec_validate env dev req).audit ∧
    (thk_exec_validate env dev
        { req with flags := req.flags ^^^ THK_EXEC_F_DRYRUN }).dev =
      { (thk_exec_validate env dev req).dev with
        last_result :=
          { (thk_exec_validate env dev req).dev.last_result with
            flags :=
              if (thk_exec_validate env dev req).dev.last_result.result = THK_RESULT_OK
              then req.flags ^^^ THK_EXEC_F_DRYRUN else 0 } } := by
  have hdev := validate_dryrun_dev env dev req
  have hres : (thk_exec_validate env dev
        { req with flags := req.flags ^^^ THK_EXEC_F_DRYRUN }).dev.last_result.result
      = (thk_exec_validate env dev req).dev.last_result.result := by
    rw [hdev]
  refine ⟨?_, hres, by rw [hdev], by rw [hdev], by rw [hdev], by rw [hdev], by rw [hdev],
    by rw [hdev], ?_, hdev⟩
  · rw [(validate_ret_audit env dev _).1, (validate_ret_audit env dev req).1]
  · rw [(validate_ret_audit env dev _).2, (validate_ret_audit env dev req).2, hres]
    simp only [xor_dryrun_keeps_audit]

/-! ## Shadowed seeds and bytes behind the terminator -/

/-- C39: in the default blocklist the second seed `rm -rf /*` is shadowed by the first
seed `rm -rf /`. On a device holding the seeded blocklist every command that contains
the second seed contains the first, and no request is recorded with the reason
`blocked: matches pattern 'rm -rf /*'`. On every device, the pattern named in the
reason of a Blocked result has no earlier-listed pattern as a substring. -/
theorem second_seed_shadowed_by_first (env : thk_env) (dev : thk_device)
    (req : thk_exec_request)
    (hbl : dev.blocklist = (thk_init 0).blocklist)
    (hcnt : dev.blocklist_count = (thk_init 0).blocklist_count)
    (hlen : req.command.length ≤ THK_MAX_CMD_LEN) :
    pattern dev 0 = bytes "rm -rf /" ∧
    pattern dev 1 = bytes "rm -rf /*" ∧
    (∀ cmd : List Nat, pattern dev 1 <:+: cmd → pattern dev 0 <:+: cmd) ∧
    cstr (thk_exec_validate env dev req).dev.last_result.reason
      ≠ bytes "blocked: matches pattern 'rm -rf /*'" ∧
    (∀ (dev2 : thk_device) (env2 : thk_env) (req2 : thk_exec_request),
      req2.command.length ≤ THK_MAX_CMD_LEN →
      (∀ i, i < dev2.blocklist_count →
        strlen (dev2.blocklist.getD i []) < THK_MAX_BLOCKLIST_PAT) →
      (thk_exec_validate env2 dev2 req2).dev.last_result.result = THK_RESULT_BLOCKED →
      ∃ i, i < dev2.blocklist_count ∧
        cstr (thk_exec_validate env2 dev2 req2).dev.last_result.reason
          = bytes "blocked: matches pattern '" ++ pattern dev2 i ++ bytes "'" ∧
        ∀ k, k < i → ¬ pattern dev2 k <:+: pattern dev2 i) := by
  have hp0 : pattern dev 0 = bytes "rm -rf /" := by
    unfold pattern
    rw [hbl]
    decide
  have hp1 : pattern dev 1 = bytes "rm -rf /*" := by
    unfold pattern
    rw [hbl]
    decide
  have hshadow : ∀ cmd : List Nat, pattern dev 1 <:+: cmd → pattern dev 0 <:+: cmd := by
    intro cmd h
    rw [hp0]
    rw [hp1] at h
    have hpre : bytes "rm -rf /" <+: bytes "rm -rf /*" := ⟨bytes "*", by decide⟩
    exact hpre.isInfix.trans h
  have hslots : ∀ i, i < dev.blocklist_count →
      strlen (dev.blocklist.getD i []) < THK_MAX_BLOCKLIST_PAT := by
    intro i hi
    rw [hbl]
    exact seeded_slots_fit i (by rw [← hcnt]; exact hi)
  refine ⟨hp0, hp1, hshadow, ?_, ?_⟩
  · by_cases hb : (thk_exec_validate env dev req).dev.last_result.result = THK_RESULT_BLOCKED
    · obtain ⟨i, _, hin, hmin, hr⟩ := validate_blocked_inv env dev req hlen hslots hb
      intro hname
      rw [hr] at hname
      have hsplit : bytes "blocked: matches pattern 'rm -rf /*'"
          = bytes "blocked: matches pattern '" ++ bytes "rm -rf /*" ++ bytes "'" := by
        decide
      rw [hsplit] at hname
      have hpi : pattern dev i = bytes "rm -rf /*" :=
        List.append_cancel_left (List.append_cancel_right hname)
      have h1 : pattern dev 1 <:+: req.command := by
        rw [hp1, ← hpi]; exact hin
      have h0 := hshadow _ h1
      have hi0 : i = 0 := by
        by_contra hne
        exact hmin 0 (Nat.pos_of_ne_zero hne) h0
      rw [hi0, hp0] at hpi
      exact absurd hpi (by decide)
    · rcases validate_last_result_cases env dev req with h | h | ⟨j, _, h⟩ | h
      · rw [h]; decide
      · rw [h]; decide
      · rw [h] at hb
        exact absurd rfl hb
      · rw [h]
        show cstr (List.replicate THK_MAX_REASON_LEN 0) ≠ _
        decide
  · intro dev2 env2 req2 hlen2 hslots2 hb2
    obtain ⟨i, hi, hin, hmin, hr⟩ := validate_blocked_inv env2 dev2 req2 hlen2 hslots2 hb2
    exact ⟨i, hi, hr, fun k hk h => hmin k hk (h.trans hin)⟩

/-- Non-vacuity of C39: the fresh device and the request `rm -rf /*`, whose recorded
reason names the first seed. -/
theorem second_seed_shadowed_by_first_witness :
    cstr (thk_exec_validate (env_user 0) (thk_init 0)
        (mk_request "rm -rf /*" 0 1000)).dev.last_result.reason
      ≠ bytes "blocked: matches pattern 'rm -rf /*'" :=
  (second_seed_shadowed_by_first (env_user 0) (thk_init 0) (mk_request "rm -rf /*" 0 1000)
    rfl rfl (le_of_eq (mk_request_length _ _ _ (by decide)))).2.2.2.1

theorem set_eq_self_of_getElem? (l : List Nat) (n a : Nat) (h : l[n]? = some a) :
    l.set n a = l := by
  apply List.ext_getElem?
  intro m
  rw [List.getElem?_set]
  split
  · rename_i hnm
    rw [← hnm, h]
    split
    · rfl
    · rename_i hlt
      rw [List.getElem?_eq_none (not_lt.mp hlt)] at h
      exact Option.noConfusion h
  · rfl

/-- The ioctl leaves a request built by `mk_request` as it is: its last byte is NUL
already. -/
theorem mk_request_set_last (text : String) (flags uid : Nat)
    (h : (bytes text).length < THK_MAX_CMD_LEN) :
    (mk_request text flags uid).command.set (THK_MAX_CMD_LEN - 1) 0
      = (mk_request text flags uid).command := by
  apply set_eq_self_of_getElem?
  rw [mk_request_command text flags uid h,
    List.getElem?_append_right (by omega), List.getElem?_replicate]
  rw [if_pos (by omega)]

theorem thk_ioctl_validate_mk_request (env : thk_env) (dev : thk_device) (text : String)
    (flags uid : Nat) (h : (bytes text).length < THK_MAX_CMD_LEN) :
    (thk_ioctl env dev THK_IOC_EXEC_VALIDATE (uarg_request (mk_request text flags uid))).dev
      = (thk_exec_validate env dev (mk_request text flags uid)).dev := by
  rw [thk_ioctl_exec_validate]
  show (thk_exec_validate env dev
    { mk_request text flags uid with
      command := (mk_request text flags uid).command.set (THK_MAX_CMD_LEN - 1) 0 }).dev = _
  rw [mk_request_set_last text flags uid h]

/-- C36 fails in the code: two `THK_IOC_EXEC_VALIDATE` requests on the freshly
initialised device with the same flags and uid, whose 4096-byte command buffers agree
up to and including the first NUL (both hold the string `ls -la /tmp`), are recorded
differently. The buffer with `rm -rf /` behind the terminator is Blocked with the reason
naming that seed; the NUL-padded buffer is Ok. -/
theorem bytes_behind_terminator_change_outcome :
    (bytes "ls -la /tmp" ++ 0 :: (bytes "rm -rf /" ++ List.replicate 4076 0)).length
      = THK_MAX_CMD_LEN ∧
    (mk_request "ls -la /tmp" 0 1000).command.length = THK_MAX_CMD_LEN ∧
    cstr (bytes "ls -la /tmp" ++ 0 :: (bytes "rm -rf /" ++ List.replicate 4076 0))
      = bytes "ls -la /tmp" ∧
    cstr (mk_request "ls -la /tmp" 0 1000).command = bytes "ls -la /tmp" ∧
    (bytes "ls -la /tmp" ++ 0 :: (bytes "rm -rf /" ++ List.replicate 4076 0)).take 12
      = (mk_request "ls -la /tmp" 0 1000).command.take 12 ∧
    (thk_ioctl (env_user 0) (thk_init 0) THK_IOC_EXEC_VALIDATE
      (uarg_request
        { command := bytes "ls -la /tmp" ++ 0 :: (bytes "rm -rf /" ++ List.replicate 4076 0),
          flags := 0, uid := 1000 })).dev.last_result.result = THK_RESULT_BLOCKED ∧
    cstr (thk_ioctl (env_user 0) (thk_init 0) THK_IOC_EXEC_VALIDATE
      (uarg_request
        { command := bytes "ls -la /tmp" ++ 0 :: (bytes "rm -rf /" ++ List.replicate 4076 0),
          flags := 0, uid := 1000 })).dev.last_result.reason
      = bytes "blocked: matches pattern 'rm -rf /'" ∧
    (thk_ioctl (env_user 0) (thk_init 0) THK_IOC_EXEC_VALIDATE
      (uarg_request (mk_request "ls -la /tmp" 0 1000))).dev.last_result.result
      = THK_RESULT_OK := by
  refine ⟨?_, mk_request_length _ _ _ (by decide), cstr_append_zero _ _ (by decide), ?_,
    by decide, by decide, by decide, ?_⟩
  · rw [List.length_append, List.length_cons, List.length_append, List.length_replicate]
    rfl
  · rw [mk_request_command _ _ _ (by decide)]
    cases hrep : List.replicate (THK_MAX_CMD_LEN - (bytes "ls -la /tmp").length) 0 with
    | nil => exact absurd (congrArg List.length hrep) (by rw [List.length_replicate]; decide)
    | cons a as =>
      have ha : a = 0 := by
        have hm : a ∈ List.replicate (THK_MAX_CMD_LEN - (bytes "ls -la /tmp").length) 0 := by
          rw [hrep]; exact List.mem_cons_self _ _
        exact (List.mem_replicate.mp hm).2
      rw [ha]
      exact cstr_append_zero _ _ (by decide)
  · rw [thk_ioctl_validate_mk_request _ _ _ _ _ (by decide)]
    exact seeded_request_ok (env_user 0) (thk_init 0) "ls -la /tmp" 0 1000 rfl rfl
      (by decide) (by decide) (by decide) seeded_patterns_not_in_ls

/-! ## The rate table: invariant and refinement of a finite map -/

theorem rate_step_eq_hashed (now : Int) (a : Bool) (limit uid : Nat) (tbl : rate_table) :
    rate_step now a limit uid tbl = rate_step_hashed rate_bucket now a limit uid tbl := rfl

theorem rate_table_inv_iff_hashed (tbl : rate_table) :
    rate_table_inv tbl ↔ rate_table_inv_hashed rate_bucket tbl := Iff.rfl

/-- The bucket scan finds nothing exactly when no entry of the bucket carries the uid. -/
theorem rate_scan_eq_none_iff (uid : Nat) (now : Int) (limit : Nat) :
    ∀ l : List thk_rate_entry,
      rate_scan uid now limit l = none ↔ ∀ e ∈ l, e.uid ≠ uid := by
  intro l
  induction l with
  | nil => simp [rate_scan]
  | cons x xs ih =>
    by_cases hx : x.uid = uid
    · constructor
      · intro h
        simp only [rate_scan, if_pos hx] at h
        split at h
        · exact Option.noConfusion h
        · split at h <;> exact Option.noConfusion h
      · intro h
        exact absurd hx (h x (List.mem_cons_self _ _))
    · simp only [rate_scan, if_neg hx, Option.map_eq_none', ih, List.mem_cons, forall_eq_or_imp]
      exact ⟨fun h => ⟨hx, h⟩, fun h => h.2⟩

/-- What the bucket scan does when it finds the uid: the first entry carrying the uid
is replaced by its `entry_step`, the rest of the bucket stays. -/
theorem rate_scan_some_split (uid : Nat) (now : Int) (limit : Nat) :
    ∀ (l : List thk_rate_entry) (lim : Bool) (l2 : List thk_rate_entry),
      rate_scan uid now limit l = some (lim, l2) →
      ∃ pre e post, l = pre ++ e :: post ∧ (∀ x ∈ pre, x.uid ≠ uid) ∧ e.uid = uid ∧
        lim = (entry_step now limit e).1 ∧ l2 = pre ++ (entry_step now limit e).2 :: post := by
  intro l
  induction l with
  | nil =>
    intro lim l2 h
    simp [rate_scan] at h
  | cons x xs ih =>
    intro lim l2 h
    by_cases hx : x.uid = uid
    · refine ⟨[], x, xs, rfl, fun _ hm => absurd hm (List.not_mem_nil _), hx, ?_⟩
      simp only [rate_scan, if_pos hx] at h
      unfold entry_step
      by_cases hw : now - x.window_start > RATE_WINDOW_NS
      · have hw2 : now - x.window_start > THK_RATE_WINDOW_SECS * NSEC_PER_SEC := hw
        rw [if_pos hw2] at h
        rw [if_pos hw]
        simp only [Option.some.injEq, Prod.mk.injEq] at h
        exact ⟨h.1.symm, h.2.symm⟩
      · have hw2 : ¬ now - x.window_start > THK_RATE_WINDOW_SECS * NSEC_PER_SEC := hw
        rw [if_neg hw2] at h
        rw [if_neg hw]
        by_cases hc : x.count ≥ limit
        · rw [if_pos hc] at h
          rw [if_pos hc]
          simp only [Option.some.injEq, Prod.mk.injEq] at h
          exact ⟨h.1.symm, h.2.symm⟩
        · rw [if_neg hc] at h
          rw [if_neg hc]
          simp only [Option.some.injEq, Prod.mk.injEq] at h
          exact ⟨h.1.symm, h.2.symm⟩
    · simp only [rate_scan, if_neg hx] at h
      cases hr : rate_scan uid now limit xs with
      | none =>
        rw [hr] at h
        exact Option.noConfusion h
      | some r =>
        rw [hr] at h
        simp only [Option.map_some', Option.some.injEq, Prod.mk.injEq] at h
        obtain ⟨pre, e, post, h1, h2, h3, h4, h5⟩ := ih r.1 r.2 hr
        refine ⟨x :: pre, e, post, by rw [h1]; rfl, ?_, h3, by rw [← h.1, h4], ?_⟩
        · intro y hy
          rcases List.mem_cons.mp hy with hy | hy
          · rw [hy]; exact hx
          · exact h2 y hy
        · rw [← h.2, h5]
          rfl

theorem entry_step_count_pos (now : Int) (limit : Nat) (e : thk_rate_entry)
    (h : 1 ≤ e.count) : 1 ≤ (entry_step now limit e).2.count := by
  unfold entry_step
  split
  · exact le_refl 1
  · split
    · exact h
    · exact Nat.le_add_left 1 _

/-- In a bucket without repeated uids, the entries around an entry carry other uids. -/
theorem nodup_split_ne (pre post : List thk_rate_entry) (e : thk_rate_entry)
    (h : ((pre ++ e :: post).map (fun x => x.uid)).Nodup) :
    ∀ x, x ∈ pre ∨ x ∈ post → x.uid ≠ e.uid := by
  rw [List.map_append, List.map_cons, List.nodup_middle, List.nodup_cons] at h
  intro x hx heq
  apply h.1
  rw [← heq, List.mem_append]
  rcases hx with hx | hx
  · exact Or.inl (List.mem_map_of_mem _ hx)
  · exact Or.inr (List.mem_map_of_mem _ hx)

/-- Replacing the bucket of `u` keeps the invariant when the new bucket holds entries of
that bucket only, with `count >= 1` and without repeated uids. -/
theorem inv_update (hash : Nat → Fin THK_RATE_HASH_SIZE) (tbl : rate_table) (u : Nat)
    (l2 : List thk_rate_entry) (hinv : rate_table_inv_hashed hash tbl)
    (h1 : ∀ x ∈ l2, hash x.uid = hash u ∧ 1 ≤ x.count)
    (h2 : (l2.map (fun e => e.uid)).Nodup) :
    rate_table_inv_hashed hash (Function.update tbl (hash u) l2) := by
  intro b
  by_cases hb : b = hash u
  · rw [hb, Function.update_same]
    exact ⟨h1, h2⟩
  · rw [Function.update_noteq hb]
    exact hinv b

/-- Replacing the bucket of `u` by one that keeps the entries of the other uids and
holds `(u, c, w)` as its only entry for `u` turns a table that represents `m` into one
that represents `m` with `u` sent to `(c, w)`. -/
theorem represents_update (hash : Nat → Fin THK_RATE_HASH_SIZE) (tbl : rate_table)
    (m : rate_map) (u c : Nat) (w : Int) (l2 : List thk_rate_entry)
    (hinv : rate_table_inv_hashed hash tbl) (hrep : table_represents tbl m)
    (hother : ∀ x : thk_rate_entry, x.uid ≠ u → (x ∈ l2 ↔ x ∈ tbl (hash u)))
    (hself : ∀ x : thk_rate_entry, x.uid = u →
      (x ∈ l2 ↔ x = { uid := u, count := c, window_start := w })) :
    table_represents (Function.update tbl (hash u) l2) (m.insert u (c, w)) := by
  intro uid count ws
  by_cases hu : uid = u
  · rw [hu, Finmap.lookup_insert]
    constructor
    · rintro ⟨b, hb⟩
      by_cases hbu : b = hash u
      · rw [hbu, Function.update_same] at hb
        have := (hself _ rfl).mp hb
        simp only [thk_rate_entry.mk.injEq, true_and] at this
        rw [this.1, this.2]
      · rw [Function.update_noteq hbu] at hb
        exact absurd ((hinv b).1 _ hb).1.symm hbu
    · intro h
      simp only [Option.some.injEq, Prod.mk.injEq] at h
      refine ⟨hash u, ?_⟩
      rw [Function.update_same, ← h.1, ← h.2]
      exact (hself _ rfl).mpr rfl
  · rw [Finmap.lookup_insert_of_ne _ hu, ← hrep uid count ws]
    constructor
    · rintro ⟨b, hb⟩
      by_cases hbu : b = hash u
      · rw [hbu, Function.update_same] at hb
        exact ⟨hash u, (hother _ hu).mp hb⟩
      · rw [Function.update_noteq hbu] at hb
        exact ⟨b, hb⟩
    · rintro ⟨b, hb⟩
      by_cases hbu : b = hash u
      · refine ⟨hash u, ?_⟩
        rw [Function.update_same]
        rw [hbu] at hb
        exact (hother _ hu).mpr hb
      · refine ⟨b, ?_⟩
        rw [Function.update_noteq hbu]
        exact hb

/-- The abstract limiter on an identity whose pair is that of the entry `e`. -/
theorem abstract_rate_check_some (now : Int) (a : Bool) (limit uid : Nat) (m : rate_map)
    (e : thk_rate_entry) (h0 : limit ≠ 0)
    (hm : m.lookup uid = some (e.count, e.window_start)) :
    abstract_rate_check now a limit uid m =
      ((entry_step now limit e).1,
        if (entry_step now limit e).1 = true then m
        else m.insert uid
          ((entry_step now limit e).2.count, (entry_step now limit e).2.window_start)) := by
  unfold abstract_rate_check entry_step
  rw [if_neg h0, hm]
  simp only
  by_cases hw : now - e.window_start > RATE_WINDOW_NS
  · rw [if_pos hw, if_pos hw]
    rfl
  · rw [if_neg hw, if_neg hw]
    by_cases hc : e.count ≥ limit
    · rw [if_pos hc, if_pos hc]
      rfl
    · rw [if_neg hc, if_neg hc]
      rfl

/-- One step of the table keeps the invariant. -/
theorem rate_step_hashed_inv (hash : Nat → Fin THK_RATE_HASH_SIZE) (now : Int)
    (a : Bool) (limit uid : Nat) (tbl : rate_table)
    (hinv : rate_table_inv_hashed hash tbl) :
    rate_table_inv_hashed hash (rate_step_hashed hash now a limit uid tbl).2 := by
  by_cases h0 : limit = 0
  · unfold rate_step_hashed
    rw [if_pos h0]
    exact hinv
  · cases hscan : rate_scan uid now limit (tbl (hash uid)) with
    | none =>
      have hno := (rate_scan_eq_none_iff uid now limit _).mp hscan
      have hstep : rate_step_hashed hash now a limit uid tbl =
          if a = true then
            (false, Function.update tbl (hash uid)
              ({ uid := uid, count := 1, window_start := now } :: tbl (hash uid)))
          else (false, tbl) := by
        unfold rate_step_hashed
        rw [if_neg h0, hscan]
      rw [hstep]
      cases a with
      | false => exact hinv
      | true =>
        simp only [if_true]
        apply inv_update hash tbl uid _ hinv
        · intro x hx
          rcases List.mem_cons.mp hx with hx | hx
          · rw [hx]
            exact ⟨rfl, le_refl 1⟩
          · exact (hinv (hash uid)).1 x hx
        · rw [List.map_cons, List.nodup_cons]
          refine ⟨?_, (hinv (hash uid)).2⟩
          intro hmem
          obtain ⟨y, hy, hyu⟩ := List.mem_map.mp hmem
          exact hno y hy hyu
    | some r =>
      obtain ⟨pre, e, post, hl, hpre, heu, hlim, hl2⟩ :=
        rate_scan_some_split uid now limit _ r.1 r.2 hscan
      have hmem : e ∈ tbl (hash uid) := by
        rw [hl]
        exact List.mem_append_right _ (List.mem_cons_self _ _)
      have hnd : ((pre ++ e :: post).map (fun x => x.uid)).Nodup := by
        rw [← hl]
        exact (hinv (hash uid)).2
      have hstep : rate_step_hashed hash now a limit uid tbl =
          ((entry_step now limit e).1,
            Function.update tbl (hash uid) (pre ++ (entry_step now limit e).2 :: post)) := by
        unfold rate_step_hashed
        rw [if_neg h0, hscan]
        simp only
        rw [hlim, hl2]
      rw [hstep]
      apply inv_update hash tbl uid _ hinv
      · intro x hx
        rcases List.mem_append.mp hx with hx | hx
        · exact (hinv (hash uid)).1 x (by rw [hl]; exact List.mem_append_left _ hx)
        · rcases List.mem_cons.mp hx with hx | hx
          · rw [hx, entry_step_uid, heu]
            exact ⟨rfl, entry_step_count_pos now limit e ((hinv (hash uid)).1 e hmem).2⟩
          · exact (hinv (hash uid)).1 x
              (by rw [hl]; exact List.mem_append_right _ (List.mem_cons_of_mem _ hx))
      · have : (pre ++ (entry_step now limit e).2 :: post).map (fun x => x.uid)
            = (pre ++ e :: post).map (fun x => x.uid) := by
          simp only [List.map_append, List.map_cons, entry_step_uid]
        rw [this]
        exact hnd

/-- One step of the table against one step of the abstract limiter: same decision, the
invariant kept, the representation kept. -/
theorem rate_step_hashed_refines (hash : Nat → Fin THK_RATE_HASH_SIZE) (now : Int)
    (a : Bool) (limit uid : Nat) (tbl : rate_table) (m : rate_map)
    (hinv : rate_table_inv_hashed hash tbl) (hrep : table_represents tbl m) :
    (rate_step_hashed hash now a limit uid tbl).1 = (abstract_rate_check now a limit uid m).1 ∧
    rate_table_inv_hashed hash (rate_step_hashed hash now a limit uid tbl).2 ∧
    table_represents (rate_step_hashed hash now a limit uid tbl).2
      (abstract_rate_check now a limit uid m).2 := by
  by_cases h0 : limit = 0
  · unfold rate_step_hashed abstract_rate_check
    rw [if_pos h0, if_pos h0]
    exact ⟨rfl, hinv, hrep⟩
  · cases hscan : rate_scan uid now limit (tbl (hash uid)) with
    | none =>
      have hno := (rate_scan_eq_none_iff uid now limit _).mp hscan
      have hm : m.lookup uid = none := by
        cases hl : m.lookup uid with
        | none => rfl
        | some p =>
          obtain ⟨b, hb⟩ := (hrep uid p.1 p.2).mpr hl
          have hbu := ((hinv b).1 _ hb).1
          simp only at hbu
          rw [← hbu] at hb
          exact absurd rfl (hno _ hb)
      have hstep : rate_step_hashed hash now a limit uid tbl =
          if a = true then
            (false, Function.update tbl (hash uid)
              ({ uid := uid, count := 1, window_start := now } :: tbl (hash uid)))
          else (false, tbl) := by
        unfold rate_step_hashed
        rw [if_neg h0, hscan]
      have habs : abstract_rate_check now a limit uid m =
          if a = true then (false, m.insert uid (1, now)) else (false, m) := by
        unfold abstract_rate_check
        rw [if_neg h0, hm]
      rw [hstep, habs]
      cases a with
      | false => exact ⟨rfl, hinv, hrep⟩
      | true =>
        simp only [if_true]
        refine ⟨trivial, ?_, ?_⟩
        · apply inv_update hash tbl uid _ hinv
          · intro x hx
            rcases List.mem_cons.mp hx with hx | hx
            · rw [hx]
              exact ⟨rfl, le_refl 1⟩
            · exact (hinv (hash uid)).1 x hx
          · rw [List.map_cons, List.nodup_cons]
            refine ⟨?_, (hinv (hash uid)).2⟩
            intro hmem
            obtain ⟨y, hy, hyu⟩ := List.mem_map.mp hmem
            exact hno y hy hyu
        · apply represents_update hash tbl m uid 1 now _ hinv hrep
          · intro x hx
            rw [List.mem_cons]
            constructor
            · rintro (h | h)
              · rw [h] at hx
                exact absurd rfl hx
              · exact h
            · exact fun h => Or.inr h
          · intro x hx
            rw [List.mem_cons]
            constructor
            · rintro (h | h)
              · exact h
              · exact absurd hx (hno x h)
            · exact fun h => Or.inl h
    | some r =>
      obtain ⟨pre, e, post, hl, hpre, heu, hlim, hl2⟩ :=
        rate_scan_some_split uid now limit _ r.1 r.2 hscan
      have hmem : e ∈ tbl (hash uid) := by
        rw [hl]
        exact List.mem_append_right _ (List.mem_cons_self _ _)
      have heta : ({ uid := uid, count := e.count, window_start := e.window_start }
          : thk_rate_entry) = e := by
        rw [← heu]
      have hm : m.lookup uid = some (e.count, e.window_start) :=
        (hrep uid e.count e.window_start).mp ⟨hash uid, by rw [heta]; exact hmem⟩
      have hnd : ((pre ++ e :: post).map (fun x => x.uid)).Nodup := by
        rw [← hl]
        exact (hinv (hash uid)).2
      have hstep : rate_step_hashed hash now a limit uid tbl =
          ((entry_step now limit e).1,
            Function.update tbl (hash uid) (pre ++ (entry_step now limit e).2 :: post)) := by
        unfold rate_step_hashed
        rw [if_neg h0, hscan]
        simp only
        rw [hlim, hl2]
      rw [hstep, abstract_rate_check_some now a limit uid m e h0 hm]
      simp only
      refine ⟨trivial, ?_, ?_⟩
      · apply inv_update hash tbl uid _ hinv
        · intro x hx
          rcases List.mem_append.mp hx with hx | hx
          · exact (hinv (hash uid)).1 x (by rw [hl]; exact List.mem_append_left _ hx)
          · rcases List.mem_cons.mp hx with hx | hx
            · rw [hx, entry_step_uid, heu]
              exact ⟨rfl, entry_step_count_pos now limit e ((hinv (hash uid)).1 e hmem).2⟩
            · exact (hinv (hash uid)).1 x
                (by rw [hl]; exact List.mem_append_right _ (List.mem_cons_of_mem _ hx))
        · have : (pre ++ (entry_step now limit e).2 :: post).map (fun x => x.uid)
              = (pre ++ e :: post).map (fun x => x.uid) := by
            simp only [List.map_append, List.map_cons, entry_step_uid]
          rw [this]
          exact hnd
      · cases hlimited : (entry_step now limit e).1 with
        | true =>
          have hsame : (entry_step now limit e).2 = e := by
            unfold entry_step at hlimited ⊢
            split
            · rename_i hw
              rw [if_pos hw] at hlimited
              exact Bool.noConfusion hlimited
            · split
              · rfl
              · rename_i hw hc
                rw [if_neg hw, if_neg hc] at hlimited
                exact Bool.noConfusion hlimited
          rw [hsame, ← hl, Function.update_eq_self]
          simp only [if_true]
          exact hrep
        | false =>
          simp only [Bool.false_eq_true, if_false]
          apply represents_update hash tbl m uid _ _ _ hinv hrep
          · intro x hx
            rw [hl, List.mem_append, List.mem_append, List.mem_cons, List.mem_cons]
            constructor
            · rintro (h | h | h)
              · exact Or.inl h
              · rw [h, entry_step_uid] at hx
                exact absurd heu hx
              · exact Or.inr (Or.inr h)
            · rintro (h | h | h)
              · exact Or.inl h
              · rw [h] at hx
                exact absurd heu hx
              · exact Or.inr (Or.inr h)
          · intro x hx
            have heta2 : ∀ e2 : thk_rate_entry, e2.uid = uid →
                ({ uid := uid, count := e2.count, window_start := e2.window_start }
                  : thk_rate_entry) = e2 := by
              intro e2 h2
              rw [← h2]
            rw [heta2 _ ((entry_step_uid now limit e).trans heu)]
            rw [List.mem_append, List.mem_cons]
            constructor
            · rintro (h | h | h)
              · exact absurd hx (hpre x h)
              · exact h
              · exact absurd (hx.trans heu.symm) (nodup_split_ne pre post e hnd x (Or.inr h))
            · exact fun h => Or.inr (Or.inl h)

theorem rate_table_inv_empty (hash : Nat → Fin THK_RATE_HASH_SIZE) :
    rate_table_inv_hashed hash (fun _ => []) := by
  intro b
  exact ⟨fun e he => absurd he (List.not_mem_nil _), List.nodup_nil⟩

theorem table_represents_empty : table_represents (fun _ => []) ∅ := by
  intro uid count ws
  rw [Finmap.lookup_empty]
  constructor
  · rintro ⟨b, hb⟩
    exact absurd hb (List.not_mem_nil _)
  · intro h
    exact Option.noConfusion h

/-- A run of the table against the same run of the abstract limiter. -/
theorem rate_run_hashed_refines (hash : Nat → Fin THK_RATE_HASH_SIZE) :
    ∀ (calls : List rate_call) (tbl : rate_table) (m : rate_map),
      rate_table_inv_hashed hash tbl → table_represents tbl m →
      (rate_run_hashed hash tbl calls).1 = (abstract_rate_run m calls).1 ∧
      rate_table_inv_hashed hash (rate_run_hashed hash tbl calls).2 ∧
      table_represents (rate_run_hashed hash tbl calls).2 (abstract_rate_run m calls).2 := by
  intro calls
  induction calls with
  | nil =>
    intro tbl m hinv hrep
    exact ⟨rfl, hinv, hrep⟩
  | cons c cs ih =>
    intro tbl m hinv hrep
    obtain ⟨h1, h2, h3⟩ :=
      rate_step_hashed_refines hash c.now c.alloc_ok c.limit c.uid tbl m hinv hrep
    obtain ⟨i1, i2, i3⟩ := ih _ _ h2 h3
    simp only [rate_run_hashed, abstract_rate_run]
    exact ⟨by rw [h1, i1], i2, i3⟩

/-- A run of `thk_check_rate_limit` on a device is the run of `rate_step_hashed` with
the hash `thk_uid_hash` on its rate table. -/
theorem check_rate_limit_run_eq :
    ∀ (calls : List rate_call) (dev : thk_device),
      (check_rate_limit_run dev calls).1
        = (rate_run_hashed rate_bucket dev.rate_hash calls).1 ∧
      (check_rate_limit_run dev calls).2.rate_hash
        = (rate_run_hashed rate_bucket dev.rate_hash calls).2 := by
  intro calls
  induction calls with
  | nil => intro dev; exact ⟨rfl, rfl⟩
  | cons c cs ih =>
    intro dev
    simp only [check_rate_limit_run, rate_run_hashed]
    have hstep := thk_check_rate_limit_eq (rate_call_env c) { dev with rate_limit := c.limit }
      c.uid
    obtain ⟨i1, i2⟩ := ih
      (thk_check_rate_limit (rate_call_env c) { dev with rate_limit := c.limit } c.uid).2
    rw [i1, i2, hstep]
    exact ⟨rfl, rfl⟩

/-- C34: the chained hash table refines a plain map. For every sequence of calls
`(uid, limit, now, allocation succeeds)` on a device whose rate table is empty, the
decisions of `thk_check_rate_limit` are those of the abstract rate limiter on the empty
finite map, and the entries of the table after the run are exactly the pairs of the map
after the run. The same holds when `thk_uid_hash` is replaced by any function into the
256 buckets, so neither the decisions nor the set of entries depend on the values of the
hash. -/
theorem rate_table_refines_finite_map (dev : thk_device) (calls : List rate_call)
    (hempty : dev.rate_hash = fun _ => []) :
    (check_rate_limit_run dev calls).1 = (abstract_rate_run ∅ calls).1 ∧
    table_represents (check_rate_limit_run dev calls).2.rate_hash
      (abstract_rate_run ∅ calls).2 ∧
    (∀ hash : Nat → Fin THK_RATE_HASH_SIZE,
      (rate_run_hashed hash dev.rate_hash calls).1 = (abstract_rate_run ∅ calls).1 ∧
      table_represents (rate_run_hashed hash dev.rate_hash calls).2
        (abstract_rate_run ∅ calls).2) ∧
    (check_rate_limit_run dev calls).1 = (rate_run_hashed rate_bucket dev.rate_hash calls).1 ∧
    (check_rate_limit_run dev calls).2.rate_hash
      = (rate_run_hashed rate_bucket dev.rate_hash calls).2 := by
  have hgen : ∀ hash : Nat → Fin THK_RATE_HASH_SIZE,
      (rate_run_hashed hash dev.rate_hash calls).1 = (abstract_rate_run ∅ calls).1 ∧
      table_represents (rate_run_hashed hash dev.rate_hash calls).2
        (abstract_rate_run ∅ calls).2 := by
    intro hash
    rw [hempty]
    obtain ⟨h1, _, h3⟩ := rate_run_hashed_refines hash calls (fun _ => []) ∅
      (rate_table_inv_empty hash) table_represents_empty
    exact ⟨h1, h3⟩
  obtain ⟨e1, e2⟩ := check_rate_limit_run_eq calls dev
  refine ⟨by rw [e1]; exact (hgen rate_bucket).1, by rw [e2]; exact (hgen rate_bucket).2,
    hgen, e1, e2⟩

/-- In a bucket without repeated uids the scan for the uid of an entry finds that
entry. -/
theorem find_of_nodup (e : thk_rate_entry) :
    ∀ l : List thk_rate_entry, (l.map (fun x => x.uid)).Nodup → e ∈ l →
      l.find? (fun x => decide (x.uid = e.uid)) = some e := by
  intro l
  induction l with
  | nil => intro _ h; exact absurd h (List.not_mem_nil _)
  | cons x xs ih =>
    intro hnd hmem
    rw [List.map_cons, List.nodup_cons] at hnd
    by_cases hx : x.uid = e.uid
    · have hxe : e = x := by
        rcases List.mem_cons.mp hmem with h | h
        · exact h
        · exact absurd (by rw [hx]; exact List.mem_map_of_mem _ h) hnd.1
      rw [hxe]
      simp [List.find?]
    · have hmem2 : e ∈ xs := by
        rcases List.mem_cons.mp hmem with h | h
        · rw [h] at hx
          exact absurd rfl hx
        · exact h
      rw [List.find?_cons_of_neg _ (by simpa using hx)]
      exact ih hnd.2 hmem2

/-- What the invariant gives for an entry of the table: it is the one that the bucket scan
finds for its uid. -/
theorem rate_table_inv_lookup (tbl : rate_table) (hinv : rate_table_inv tbl)
    (b : Fin THK_RATE_HASH_SIZE) (e : thk_rate_entry) (he : e ∈ tbl b) :
    rate_lookup tbl e.uid = some e := by
  unfold rate_lookup
  rw [((hinv b).1 e he).1]
  exact find_of_nodup e (tbl b) (hinv b).2 he

/-- Every ioctl keeps the invariant of the rate table. -/
theorem thk_ioctl_rate_table_inv (env : thk_env) (dev : thk_device) (cmd : Nat)
    (uarg : thk_uarg) (hinv : rate_table_inv dev.rate_hash) :
    rate_table_inv (thk_ioctl env dev cmd uarg).dev.rate_hash := by
  by_cases hv : cmd = THK_IOC_EXEC_VALIDATE
  · rw [hv, thk_ioctl_exec_validate]
    cases uarg.from_user_request with
    | none => exact hinv
    | some req =>
      simp only
      rw [validate_rate_hash]
      split
      · exact hinv
      · rw [rate_step_eq_hashed]
        exact rate_step_hashed_inv rate_bucket _ _ _ _ _ hinv
  · by_cases hs : cmd = THK_IOC_SET_CONFIG
    · rw [hs, thk_ioctl_set_config]
      split
      · exact hinv
      · cases uarg.from_user_config with
        | none => exact hinv
        | some cfg => exact hinv
    · rw [thk_ioctl_dev_other env dev cmd uarg hv hs]
      exact hinv

theorem ioctl_seq_rate_table_inv :
    ∀ (ops : List thk_ioctl_call) (dev : thk_device), rate_table_inv dev.rate_hash →
      rate_table_inv (ioctl_seq dev ops).rate_hash := by
  intro ops
  induction ops with
  | nil => intro dev h; exact h
  | cons c cs ih =>
    intro dev h
    simp only [ioctl_seq]
    exact ih _ (thk_ioctl_rate_table_inv c.env dev c.cmd c.uarg h)

/-- C33: the invariant of the rate table. In every state reached from the device built
by `thk_init` (whose table is empty) by any sequence of ioctls, and in every state
reached by any run of `thk_check_rate_limit` from a state that satisfies it, every entry
lies in the bucket with index `thk_uid_hash(uid)`, which is below `THK_RATE_HASH_SIZE`,
every entry has `count >= 1`, and no two entries carry the same uid; so the bucket scan
for a uid finds the entry of that uid whenever the table holds one. -/
theorem rate_table_invariant (load_time : Int) (ops : List thk_ioctl_call) :
    rate_table_inv (thk_init load_time).rate_hash ∧
    rate_table_inv (ioctl_seq (thk_init load_time) ops).rate_hash ∧
    (∀ uid : Nat, thk_uid_hash uid < THK_RATE_HASH_SIZE) ∧
    (∀ (b : Fin THK_RATE_HASH_SIZE) (e : thk_rate_entry),
      e ∈ (ioctl_seq (thk_init load_time) ops).rate_hash b →
      thk_uid_hash e.uid = b.val ∧ 1 ≤ e.count ∧
      rate_lookup (ioctl_seq (thk_init load_time) ops).rate_hash e.uid = some e) ∧
    (∀ (b1 b2 : Fin THK_RATE_HASH_SIZE) (e1 e2 : thk_rate_entry),
      e1 ∈ (ioctl_seq (thk_init load_time) ops).rate_hash b1 →
      e2 ∈ (ioctl_seq (thk_init load_time) ops).rate_hash b2 →
      e1.uid = e2.uid → b1 = b2 ∧ e1 = e2) ∧
    (∀ (dev : thk_device) (calls : List rate_call), rate_table_inv dev.rate_hash →
      rate_table_inv (check_rate_limit_run dev calls).2.rate_hash) := by
  have h0 : rate_table_inv (thk_init load_time).rate_hash :=
    rate_table_inv_empty rate_bucket
  have hinv := ioctl_seq_rate_table_inv ops (thk_init load_time) h0
  refine ⟨h0, hinv, fun uid => (rate_bucket uid).isLt, ?_, ?_, ?_⟩
  · intro b e he
    refine ⟨?_, ((hinv b).1 e he).2, rate_table_inv_lookup _ hinv b e he⟩
    have := ((hinv b).1 e he).1
    rw [← this]
    rfl
  · intro b1 b2 e1 e2 h1 h2 hu
    have l1 := rate_table_inv_lookup _ hinv b1 e1 h1
    have l2 := rate_table_inv_lookup _ hinv b2 e2 h2
    rw [hu, l2] at l1
    refine ⟨?_, (Option.some.inj l1).symm⟩
    rw [← ((hinv b1).1 e1 h1).1, ← ((hinv b2).1 e2 h2).1, hu]
  · intro dev calls hd
    rw [(check_rate_limit_run_eq calls dev).2]
    have hgen : ∀ (cs : List rate_call) (tbl : rate_table),
        rate_table_inv_hashed rate_bucket tbl →
        rate_table_inv_hashed rate_bucket (rate_run_hashed rate_bucket tbl cs).2 := by
      intro cs
      induction cs with
      | nil => intro tbl h; exact h
      | cons c cs ih =>
        intro tbl h
        simp only [rate_run_hashed]
        exact ih _ (rate_step_hashed_inv rate_bucket _ _ _ _ _ h)
    exact hgen calls dev.rate_hash hd

/-- Non-vacuity of C33: the table of the fresh device, which is empty, and two requests
of uid 1000 followed by one of uid 7. -/
theorem rate_table_invariant_witness :
    rate_table_inv (check_rate_limit_run (thk_init 0)
      [ { uid := 1000, limit := 10, now := 0, alloc_ok := true },
        { uid := 1000, limit := 10, now := 5, alloc_ok := true },
        { uid := 7, limit := 10, now := 9, alloc_ok := true } ]).2.rate_hash :=
  (rate_table_invariant 0 []).2.2.2.2.2 (thk_init 0) _ (rate_table_inv_empty rate_bucket)

/-- Non-vacuity of C34: the fresh device, limit 1, two requests of uid 1000 and one of
uid 7. -/
theorem rate_table_refines_finite_map_witness :
    (check_rate_limit_run (thk_init 0)
      [ { uid := 1000, limit := 1, now := 0, alloc_ok := true },
        { uid := 1000, limit := 1, now := 5, alloc_ok := true },
        { uid := 7, limit := 1, now := 9, alloc_ok := true } ]).1
      = (abstract_rate_run ∅
      [ { uid := 1000, limit := 1, now := 0, alloc_ok := true },
        { uid := 1000, limit := 1, now := 5, alloc_ok := true },
        { uid := 7, limit := 1, now := 9, alloc_ok := true } ]).1 :=
  (rate_table_refines_finite_map (thk_init 0) _ rfl).1

/-- The sample run evaluated: the second request of uid 1000 is limited, on the table and
on the map. -/
theorem rate_run_sample :
    (check_rate_limit_run (thk_init 0)
      [ { uid := 1000, limit := 1, now := 0, alloc_ok := true },
        { uid := 1000, limit := 1, now := 5, alloc_ok := true },
        { uid := 7, limit := 1, now := 9, alloc_ok := true } ]).1 = [false, true, false] ∧
    (abstract_rate_run ∅
      [ { uid := 1000, limit := 1, now := 0, alloc_ok := true },
        { uid := 1000, limit := 1, now := 5, alloc_ok := true },
        { uid := 7, limit := 1, now := 9, alloc_ok := true } ]).1 = [false, true, false] := by
  constructor <;> decide

/-! ## Locks held during a validation -/

theorem audit_call_locks_append (held : List thk_lock) (a b : List thk_event) :
    audit_call_locks held (a ++ b)
      = audit_call_locks held a ++ audit_call_locks (locks_held held a) b := by
  induction a generalizing held with
  | nil => rfl
  | cons e es ih =>
    cases e with
    | spin_lock l => exact ih (l :: held)
    | spin_unlock l => exact ih (held.erase l)
    | call_thk_audit_log =>
      show held :: audit_call_locks held (es ++ b) = _
      rw [ih held]
      rfl

theorem locks_held_append (held : List thk_lock) (a b : List thk_event) :
    locks_held held (a ++ b) = locks_held (locks_held held a) b := by
  induction a generalizing held with
  | nil => rfl
  | cons e es ih =>
    cases e with
    | spin_lock l => exact ih (l :: held)
    | spin_unlock l => exact ih (held.erase l)
    | call_thk_audit_log => exact ih held

/-- The part from `out:` on, entered with no lock held: `thk_audit_log` is called under
`config_lock` when the audit condition holds, and not at all otherwise; no lock is held
at the end. -/
theorem out_events_audit_under_config_lock (dev : thk_device) (req : thk_exec_request) :
    audit_call_locks [] (thk_exec_validate_out_events dev req) =
      (if dev.audit_enabled ≠ 0 ∧ req.flags &&& THK_EXEC_F_AUDIT ≠ 0 then
        [[thk_lock.config_lock]] else []) ∧
    locks_held [] (thk_exec_validate_out_events dev req) = [] := by
  unfold thk_exec_validate_out_events
  split <;> exact ⟨rfl, rfl⟩

theorem rate_limit_events_no_audit (dev : thk_device) :
    audit_call_locks [] (thk_check_rate_limit_events dev) = [] ∧
    locks_held [] (thk_check_rate_limit_events dev) = [] := by
  unfold thk_check_rate_limit_events
  split <;> exact ⟨rfl, rfl⟩

/-- C32 fails in the code: in every execution of `thk_exec_validate` in which
`thk_audit_log` is invoked (`audit_enabled` non-zero and `THK_EXEC_F_AUDIT` set in the
request), it is invoked exactly once and `config_lock` is held at that moment; when the
condition does not hold it is not invoked. Whenever an audit record is emitted, it is
emitted under `config_lock`. No lock is held when the function returns. -/
theorem audit_log_called_under_config_lock (env : thk_env) (dev : thk_device)
    (req : thk_exec_request) :
    audit_call_locks [] (thk_exec_validate_events env dev req) =
      (if dev.audit_enabled ≠ 0 ∧ req.flags &&& THK_EXEC_F_AUDIT ≠ 0 then
        [[thk_lock.config_lock]] else []) ∧
    ((thk_exec_validate env dev req).audit.isSome = true →
      audit_call_locks [] (thk_exec_validate_events env dev req)
        = [[thk_lock.config_lock]]) ∧
    locks_held [] (thk_exec_validate_events env dev req) = [] := by
  have hmain : audit_call_locks [] (thk_exec_validate_events env dev req) =
      (if dev.audit_enabled ≠ 0 ∧ req.flags &&& THK_EXEC_F_AUDIT ≠ 0 then
        [[thk_lock.config_lock]] else []) ∧
      locks_held [] (thk_exec_validate_events env dev req) = [] := by
    unfold thk_exec_validate_events
    simp only
    split
    · exact out_events_audit_under_config_lock _ req
    · have hrl := rate_limit_events_no_audit
        { dev with total_requests := atomic64_inc dev.total_requests }
      have haud : ∀ d2 : thk_device,
          (thk_check_rate_limit env d2 (make_kuid req.uid)).2.audit_enabled
            = d2.audit_enabled := by
        intro d2
        rw [thk_check_rate_limit_eq]
      rw [audit_call_locks_append, locks_held_append, hrl.1, hrl.2, List.nil_append]
      split
      · have h := out_events_audit_under_config_lock
          (thk_check_rate_limit env
            { dev with total_requests := atomic64_inc dev.total_requests }
            (make_kuid req.uid)).2 req
        rw [haud] at h
        exact h
      · have h := out_events_audit_under_config_lock
          (thk_check_rate_limit env
            { dev with total_requests := atomic64_inc dev.total_requests }
            (make_kuid req.uid)).2 req
        rw [haud] at h
        rw [audit_call_locks_append, locks_held_append]
        split
        · exact h
        · exact h
  refine ⟨hmain.1, ?_, hmain.2⟩
  intro hsome
  rw [hmain.1]
  rw [(validate_ret_audit env dev req).2] at hsome
  split at hsome
  · rename_i hc
    rw [if_pos hc]
  · exact Bool.noConfusion hsome

/-- The events of one validation, evaluated: the request `ls -la /tmp` with the AUDIT
flag on the freshly initialised device. `thk_audit_log` is called between the
`spin_lock` and the `spin_unlock` of `config_lock`. -/
theorem audit_log_called_under_config_lock_sample :
    thk_exec_validate_events (env_user 0) (thk_init 0)
        (mk_request "ls -la /tmp" THK_EXEC_F_AUDIT 1000) =
      [ .spin_lock .config_lock, .spin_unlock .config_lock,
        .spin_lock .rate_lock, .spin_unlock .rate_lock,
        .spin_lock .config_lock, .spin_unlock .config_lock,
        .spin_lock .config_lock, .call_thk_audit_log, .spin_unlock .config_lock,
        .spin_lock .result_lock, .spin_unlock .result_lock ] := by
  decide

/-- Non-vacuity of C32: the request `ls -la /tmp` with the AUDIT flag on the freshly
initialised device (`audit_enabled = 1`), for which an audit record is emitted. -/
theorem audit_log_called_under_config_lock_witness :
    audit_call_locks [] (thk_exec_validate_events (env_user 0) (thk_init 0)
        (mk_request "ls -la /tmp" THK_EXEC_F_AUDIT 1000))
      = [[thk_lock.config_lock]] :=
  (audit_log_called_under_config_lock (env_user 0) (thk_init 0)
    (mk_request "ls -la /tmp" THK_EXEC_F_AUDIT 1000)).2.1
    (by
      rw [(validate_ret_audit _ _ _).2, if_pos ⟨by decide, by decide⟩]
      rfl)

/-! ## The JSON response of the daemon -/

/-- The smallest case: `build_json_response` on a response of two steps with empty
summary, descriptions and commands (every string NUL-terminated, `step_count = 2`)
and `out_len = 16`. The first `snprintf` returns 30, the length of the whole text, so
`off` passes `out_len`; `out_len - off` then wraps to a huge `size_t`. With a C library
that formats anyway the second `snprintf` stores its text from index 30 on and the
function returns 146; with one that fails with `EOVERFLOW` the `,` before the second step
is stored at index 26 and the function returns 23. In both cases a byte is stored at an
index that is not below `out_len`, and the offset returned is not below `out_len`. -/
theorem build_json_response_overflows_small :
    (empty_response 2).step_count ≤ 32 ∧
    cstr (empty_response 2).summary = [] ∧
    (∀ st ∈ (empty_response 2).steps, cstr st.description = [] ∧ cstr st.command = []) ∧
    (30, 34) ∈ (build_json_response false (empty_response 2) 16).2 ∧
    (build_json_response false (empty_response 2) 16).1 = 146 ∧
    ¬ json_within 16 (build_json_response false (empty_response 2) 16) ∧
    (26, 44) ∈ (build_json_response true (empty_response 2) 16).2 ∧
    (build_json_response true (empty_response 2) 16).1 = 23 ∧
    ¬ json_within 16 (build_json_response true (empty_response 2) 16) := by
  refine ⟨by decide, by decide, by decide, by decide, by decide, ?_, by decide, by decide, ?_⟩
  · intro h
    exact absurd h.2 (by decide)
  · intro h
    exact absurd h.2 (by decide)

/-- A response that fits: one empty step and `out_len = 200`; 94 bytes of text, all
stored below `out_len`. -/
theorem build_json_response_fits_sample :
    (build_json_response false (empty_response 1) 200).1 = 94 ∧
    json_within 200 (build_json_response false (empty_response 1) 200) := by
  unfold json_within
  decide

theorem size_to_int_of_lt (n : Nat) (h : n < 2 ^ 31) : size_to_int n = (n : Int) := by
  unfold size_to_int
  have h1 : n % 2 ^ 32 = n := Nat.mod_eq_of_lt (by omega)
  rw [h1, if_pos h]

/-- With a library that formats anyway, `off += snprintf(...)` adds the length of the
text, whatever the size passed. -/
theorem json_snprintf_format_anyway (out_len : Nat) (s : List Nat)
    (w : Int × List out_write) :
    (json_snprintf false out_len s w).1 = w.1 + (s.length : Int) ∧
    w.2 <+: (json_snprintf false out_len s w).2 := by
  unfold json_snprintf snprintf
  have hf : ¬ (false = true ∧ ((size_sub out_len w.1 : Nat) : Int) > INT_MAX) :=
    fun h => Bool.noConfusion h.1
  rw [if_neg hf]
  split <;> exact ⟨rfl, List.prefix_append _ _⟩

theorem json_putc_spec (c : Nat) (w : Int × List out_write) :
    (json_putc c w).1 = w.1 + 1 ∧ w.2 <+: (json_putc c w).2 ∧
    (w.1, c) ∈ (json_putc c w).2 :=
  ⟨rfl, List.prefix_append _ _, List.mem_append_right _ (List.mem_singleton_self _)⟩

theorem strlen_cons_ne_zero (c : Nat) (cs : List Nat) (h : c ≠ 0) :
    strlen (c :: cs) = strlen cs + 1 := by
  unfold strlen cstr
  rw [List.takeWhile_cons]
  have : (c != 0) = true := by simpa using h
  rw [this]
  rfl

/-- The escaping loop never moves `off` back, keeps what was stored, and either reaches
the limit `(int)out_len - 10` or advances `off` by the length of the string at least. -/
theorem json_escape_loop_spec (lim : Int) :
    ∀ (s : List Nat) (w : Int × List out_write),
      w.1 ≤ (json_escape_loop lim s w).1 ∧
      w.2 <+: (json_escape_loop lim s w).2 ∧
      (lim ≤ (json_escape_loop lim s w).1 ∨
        w.1 + (strlen s : Int) ≤ (json_escape_loop lim s w).1) := by
  intro s
  induction s with
  | nil =>
    intro w
    exact ⟨le_refl _, List.prefix_refl _, Or.inr (by simp [json_escape_loop, strlen, cstr])⟩
  | cons c cs ih =>
    intro w
    by_cases hc : c ≠ 0 ∧ w.1 < lim
    · simp only [json_escape_loop, if_pos hc]
      obtain ⟨i1, i2, i3⟩ := ih (json_putc c (if c = 34 ∨ c = 92 then json_putc 92 w else w))
      have hstep : w.1 + 1 ≤ (json_putc c (if c = 34 ∨ c = 92 then json_putc 92 w else w)).1 ∧
          w.2 <+: (json_putc c (if c = 34 ∨ c = 92 then json_putc 92 w else w)).2 := by
        split
        · exact ⟨by simp only [json_putc]; omega,
            (json_putc_spec 92 w).2.1.trans (json_putc_spec c _).2.1⟩
        · exact ⟨by simp only [json_putc]; omega, (json_putc_spec c w).2.1⟩
      refine ⟨by omega, hstep.2.trans i2, ?_⟩
      rw [strlen_cons_ne_zero c cs hc.1]
      rcases i3 with h | h
      · exact Or.inl h
      · exact Or.inr (by push_cast; omega)
    · simp only [json_escape_loop, if_neg hc]
      refine ⟨le_refl _, List.prefix_refl _, ?_⟩
      by_cases h0 : c = 0
      · right
        have : strlen (c :: cs) = 0 := by
          rw [h0]
          rfl
        rw [this]
        simp
      · left
        have := not_and.mp hc h0
        omega

theorem bytes_length_append (a b : List Nat) : (a ++ b).length = a.length + b.length :=
  List.length_append a b

/-- One step of the loop, with a library that formats anyway: what was stored is kept,
`off` does not move back, a `,` is stored at `off` for `i > 0`, and `off` ends beyond
`out_len` or advanced by the length of the command and 11 at least. -/
theorem json_step_spec (out_len i : Nat) (step : thk_step) (w : Int × List out_write)
    (hmax : out_len < 2 ^ 31) :
    w.1 ≤ (json_step false out_len i step w).1 ∧
    w.2 <+: (json_step false out_len i step w).2 ∧
    (0 < i → (w.1, 44) ∈ (json_step false out_len i step w).2) ∧
    ((out_len : Int) + 1 ≤ (json_step false out_len i step w).1 ∨
      w.1 + (strlen step.command : Int) + 11 ≤ (json_step false out_len i step w).1) := by
  unfold json_step
  simp only [size_to_int_of_lt out_len hmax]
  generalize hw1 : (if i > 0 then json_putc 44 w else w) = w1
  have h1 : w.1 ≤ w1.1 ∧ w.2 <+: w1.2 ∧ (0 < i → (w.1, 44) ∈ w1.2) := by
    rw [← hw1]
    split
    · rename_i hi
      exact ⟨by simp only [json_putc]; omega, (json_putc_spec 44 w).2.1,
        fun _ => (json_putc_spec 44 w).2.2⟩
    · rename_i hi
      exact ⟨le_refl _, List.prefix_refl _, fun h => absurd h hi⟩
  generalize hw2 : json_snprintf false out_len
    (bytes "\x7b\"index\":" ++ fmt_d step.index ++ bytes ",\"description\":\"") w1 = w2
  have h2 := json_snprintf_format_anyway out_len
    (bytes "\x7b\"index\":" ++ fmt_d step.index ++ bytes ",\"description\":\"") w1
  rw [hw2] at h2
  generalize hw3 : json_escape_loop ((out_len : Int) - 10) step.description w2 = w3
  have h3 := json_escape_loop_spec ((out_len : Int) - 10) step.description w2
  rw [hw3] at h3
  generalize hw4 : json_snprintf false out_len (bytes "\",\"command\":\"") w3 = w4
  have h4 := json_snprintf_format_anyway out_len (bytes "\",\"command\":\"") w3
  rw [hw4] at h4
  generalize hw5 : json_escape_loop ((out_len : Int) - 10) step.command w4 = w5
  have h5 := json_escape_loop_spec ((out_len : Int) - 10) step.command w4
  rw [hw5] at h5
  have h6 := json_snprintf_format_anyway out_len
    (bytes "\",\"flags\":" ++ fmt_u step.flags ++ bytes "\x7d") w5
  have hl6 : 11 ≤ (bytes "\",\"flags\":" ++ fmt_u step.flags ++ bytes "\x7d").length := by
    rw [List.length_append, List.length_append]
    have : (bytes "\",\"flags\":").length = 10 := rfl
    have : (bytes "\x7d").length = 1 := rfl
    omega
  have hpre : w.2 <+: w5.2 :=
    h1.2.1.trans (h2.2.trans (h3.2.1.trans (h4.2.trans h5.2.1)))
  refine ⟨by omega, hpre.trans h6.2, fun hi => ?_, ?_⟩
  · exact (h6.2.subset) (h5.2.1.subset (h4.2.subset (h3.2.1.subset (h2.2.subset (h1.2.2 hi)))))
  · rcases h5.2.2 with h | h
    · left; omega
    · right; omega

theorem json_steps_loop_mono (resp : thk_response) (out_len : Nat) (hmax : out_len < 2 ^ 31) :
    ∀ (fuel i : Nat) (w : Int × List out_write),
      w.1 ≤ (json_steps_loop false resp out_len fuel i w).1 ∧
      w.2 <+: (json_steps_loop false resp out_len fuel i w).2 := by
  intro fuel
  induction fuel with
  | zero => intro i w; exact ⟨le_refl _, List.prefix_refl _⟩
  | succ f ih =>
    intro i w
    simp only [json_steps_loop]
    split
    · obtain ⟨s1, s2, _, _⟩ :=
        json_step_spec out_len i (resp.steps.getD i zero_step) w hmax
      obtain ⟨i1, i2⟩ := ih (i + 1) (json_step false out_len i (resp.steps.getD i zero_step) w)
      exact ⟨le_trans s1 i1, s2.trans i2⟩
    · exact ⟨le_refl _, List.prefix_refl _⟩

/-- The loop over the steps, with a library that formats anyway: when `m` further steps,
each with a command of `d` bytes at least, carry `off` beyond `out_len`, the `,` of the
step after them is stored at an index that is not below `out_len`, and `off` ends
beyond `out_len`. -/
theorem json_steps_loop_overflow (resp : thk_response) (out_len d : Nat)
    (hmax : out_len < 2 ^ 31) :
    ∀ (m fuel i : Nat) (w : Int × List out_write),
      m < fuel → ((i + m : Nat) : Int) < resp.step_count → 1 ≤ i + m →
      (∀ j, i ≤ j → j < i + m → d ≤ strlen (resp.steps.getD j zero_step).command) →
      (out_len : Int) + 1 ≤ w.1 + (m : Int) * ((d : Int) + 11) →
      (∃ idx : Int, (out_len : Int) ≤ idx ∧
        (idx, 44) ∈ (json_steps_loop false resp out_len fuel i w).2) ∧
      (out_len : Int) + 1 ≤ (json_steps_loop false resp out_len fuel i w).1 := by
  intro m
  induction m with
  | zero =>
    intro fuel i w hf hi h1 _ hoff
    obtain ⟨f, rfl⟩ : ∃ f, fuel = f + 1 := ⟨fuel - 1, by omega⟩
    simp only [json_steps_loop]
    have hi2 : (i : Int) < resp.step_count := by simpa using hi
    rw [if_pos hi2]
    obtain ⟨s1, _, s3, _⟩ := json_step_spec out_len i (resp.steps.getD i zero_step) w hmax
    obtain ⟨i1, i2⟩ := json_steps_loop_mono resp out_len hmax f (i + 1)
      (json_step false out_len i (resp.steps.getD i zero_step) w)
    refine ⟨⟨w.1, by omega, i2.subset (s3 (by omega))⟩, by omega⟩
  | succ m ih =>
    intro fuel i w hf hi h1 hcmd hoff
    obtain ⟨f, rfl⟩ : ∃ f, fuel = f + 1 := ⟨fuel - 1, by omega⟩
    simp only [json_steps_loop]
    have hi2 : (i : Int) < resp.step_count := by
      have : ((i + (m + 1) : Nat) : Int) = (i : Int) + (m : Int) + 1 := by push_cast; ring
      omega
    rw [if_pos hi2]
    obtain ⟨_, _, _, s4⟩ := json_step_spec out_len i (resp.steps.getD i zero_step) w hmax
    have hd := hcmd i (le_refl _) (by omega)
    apply ih f (i + 1) _ (by omega)
    · have : i + 1 + m = i + (m + 1) := by omega
      rw [this]
      exact hi
    · omega
    · intro j hj1 hj2
      exact hcmd j (by omega) (by omega)
    · have hexp : ((m + 1 : Nat) : Int) * ((d : Int) + 11)
          = (m : Int) * ((d : Int) + 11) + ((d : Int) + 11) := by push_cast; ring
      rw [hexp] at hoff
      have hnn : 0 ≤ (m : Int) * ((d : Int) + 11) := by positivity
      rcases s4 with h | h
      · omega
      · have : (d : Int) ≤ (strlen (resp.steps.getD i zero_step).command : Int) := by
          exact_mod_cast hd
        omega

/-- C40 fails in the code. With a C library whose `snprintf` formats anyway when the size
passed exceeds `INT_MAX`, `build_json_response` stores a `,` at an index that is not below
`out_len`, and returns an offset beyond `out_len`, whenever the
response has more than `k >= 1` steps whose first `k` commands have `d` bytes at least
and `41 + k * (d + 11)` exceeds `out_len`. -/
theorem build_json_response_overflow_of_long_commands (resp : thk_response)
    (out_len k d : Nat) (hmax : out_len < 2 ^ 31)
    (hk1 : 1 ≤ k) (hk : (k : Int) < resp.step_count)
    (hcmd : ∀ j, j < k → d ≤ strlen (resp.steps.getD j zero_step).command)
    (hsum : out_len + 1 ≤ 41 + k * (d + 11)) :
    (∃ idx : Int, (out_len : Int) ≤ idx ∧
      (idx, 44) ∈ (build_json_response false resp out_len).2) ∧
    (out_len : Int) < (build_json_response false resp out_len).1 ∧
    ¬ json_within out_len (build_json_response false resp out_len) := by
  have hmain : (∃ idx : Int, (out_len : Int) ≤ idx ∧
      (idx, 44) ∈ (build_json_response false resp out_len).2) ∧
      (out_len : Int) < (build_json_response false resp out_len).1 := by
    unfold build_json_response
    simp only
    generalize hw1 : json_snprintf false out_len
      (bytes "\x7b\"type\":\"response\",\"summary\":\"") (0, []) = w1
    have h1 := json_snprintf_format_anyway out_len
      (bytes "\x7b\"type\":\"response\",\"summary\":\"") (0, [])
    rw [hw1] at h1
    have hl1 : (bytes "\x7b\"type\":\"response\",\"summary\":\"").length = 30 := rfl
    rw [hl1] at h1
    generalize hw2 : json_escape_loop (size_to_int out_len - 10) resp.summary w1 = w2
    have h2 := json_escape_loop_spec (size_to_int out_len - 10) resp.summary w1
    rw [hw2] at h2
    generalize hw3 : json_snprintf false out_len (bytes "\",\"steps\":[") w2 = w3
    have h3 := json_snprintf_format_anyway out_len (bytes "\",\"steps\":[") w2
    rw [hw3] at h3
    have hl3 : (bytes "\",\"steps\":[").length = 11 := rfl
    rw [hl3] at h3
    have hw3off : (41 : Int) ≤ w3.1 := by
      have := h1.1
      have := h2.1
      have := h3.1
      simp only at *
      omega
    have hloop := json_steps_loop_overflow resp out_len d hmax k resp.step_count.toNat 0 w3
      (by omega) (by simpa using hk) (by omega)
      (fun j _ hj => hcmd j (by omega))
      (by
        have hcast : ((out_len + 1 : Nat) : Int) ≤ ((41 + k * (d + 11) : Nat) : Int) := by
          exact_mod_cast hsum
        push_cast at hcast
        omega)
    have h5 := json_snprintf_format_anyway out_len (bytes "]\x7d")
      (json_steps_loop false resp out_len resp.step_count.toNat 0 w3)
    obtain ⟨⟨idx, hidx, hmem⟩, hoff⟩ := hloop
    refine ⟨⟨idx, hidx, h5.2.subset hmem⟩, ?_⟩
    rw [h5.1]
    have : (0 : Int) ≤ ((bytes "]\x7d").length : Int) := Int.natCast_nonneg _
    omega
  refine ⟨hmain.1, hmain.2, ?_⟩
  intro h
  exact absurd h.2 (not_lt.mpr (le_of_lt hmain.2))

/-- The commands of `long_response` are strings of 4095 bytes in buffers of
`THK_MAX_CMD_LEN` bytes. -/
theorem long_response_commands :
    ∀ j, j < THK_MAX_STEPS →
      strlen (long_response.steps.getD j zero_step).command = 4095 ∧
      (long_response.steps.getD j zero_step).command.length = THK_MAX_CMD_LEN := by
  intro j hj
  have hget : long_response.steps.getD j zero_step =
      { index := 1, description := List.replicate THK_MAX_DESC_LEN 0,
        command := List.replicate (THK_MAX_CMD_LEN - 1) 97 ++ [0], flags := 0 } := by
    unfold long_response
    simp only
    rw [List.getD_eq_getElem _ _ (by rw [List.length_replicate]; exact hj),
      List.getElem_replicate]
  rw [hget]
  constructor
  · show (cstr (List.replicate (THK_MAX_CMD_LEN - 1) 97 ++ [0])).length = 4095
    rw [cstr_append_zero _ [] (fun b hb => by rw [(List.mem_replicate.mp hb).2]; decide),
      List.length_replicate]
    rfl
  · show (List.replicate (THK_MAX_CMD_LEN - 1) 97 ++ [0]).length = THK_MAX_CMD_LEN
    rw [List.length_append, List.length_replicate]
    rfl

/-- Non-vacuity of C40: the call of `handle_client`, `out_len = sizeof(json_response) =
THK_MAX_RESPONSE_LEN`, on a response of 32 steps with commands of 4095 bytes. After 16
steps `off` has passed `out_len`, and the `,` of the next step is stored behind the end
of the buffer. -/
theorem build_json_response_overflow_of_long_commands_witness :
    (∃ idx : Int, (THK_MAX_RESPONSE_LEN : Int) ≤ idx ∧
      (idx, 44) ∈ (build_json_response false long_response THK_MAX_RESPONSE_LEN).2) ∧
    (THK_MAX_RESPONSE_LEN : Int)
      < (build_json_response false long_response THK_MAX_RESPONSE_LEN).1 ∧
    ¬ json_within THK_MAX_RESPONSE_LEN
      (build_json_response false long_response THK_MAX_RESPONSE_LEN) :=
  build_json_response_overflow_of_long_commands long_response THK_MAX_RESPONSE_LEN 16 4095
    (by decide) (by decide) (by decide)
    (fun j hj => le_of_eq (long_response_commands j (by
      show j < 32
      omega)).1.symm)
    (by decide)

/-! ## Revised statements: the command string, the range of `ktime_t`, the reason text,
terminated slots and the bytes read -/

theorem takeWhile_append_of_lt (p : Nat → Bool) :
    ∀ (a r : List Nat), (a.takeWhile p).length < a.length →
      (a ++ r).takeWhile p = a.takeWhile p := by
  intro a
  induction a with
  | nil => intro r h; simp at h
  | cons x xs ih =>
    intro r h
    rw [List.cons_append, List.takeWhile_cons, List.takeWhile_cons]
    rw [List.takeWhile_cons] at h
    cases hp : p x with
    | true =>
      rw [hp] at h
      simp only [if_true, List.length_cons] at h ⊢
      rw [ih r (by omega)]
    | false => rfl

/-- In the array `blocklist[128][64]`, the string that starts at a slot holding a NUL
among its 64 bytes is the string of the slot taken alone. -/
theorem slot_string_in_array (blocklist : List (List Nat)) (i : Nat)
    (hi : i < blocklist.length)
    (hlen : (blocklist.getD i []).length = THK_MAX_BLOCKLIST_PAT)
    (hfit : strlen (blocklist.getD i []) < THK_MAX_BLOCKLIST_PAT) :
    cstr (blocklist_bytes_from blocklist i) = cstr (blocklist.getD i []) := by
  unfold blocklist_bytes_from
  have hget : blocklist.getD i [] = blocklist[i] := List.getD_eq_getElem _ _ hi
  rw [List.drop_eq_getElem_cons hi, List.flatten_cons, ← hget]
  unfold cstr
  apply takeWhile_append_of_lt
  unfold strlen cstr at hfit
  rw [hlen]
  exact hfit

theorem strnstr_loop_traced_fst (s2 : List Nat) (l2 : Nat) :
    ∀ (len : Nat) (s1 : List Nat) (off : Nat),
      (strnstr_loop_traced s2 l2 len s1 off).1 = strnstr_loop s2 l2 len s1 off := by
  intro len
  induction len with
  | zero =>
    intro s1 off
    simp only [strnstr_loop_traced, strnstr_loop]
    split <;> rfl
  | succ n ih =>
    intro s1 off
    simp only [strnstr_loop_traced, strnstr_loop]
    split
    · split
      · rfl
      · exact ih s1.tail (off + 1)
    · rfl

theorem strnstr_loop_traced_snd (s2 : List Nat) (l2 : Nat) :
    ∀ (len : Nat) (s1 : List Nat) (off : Nat),
      (strnstr_loop_traced s2 l2 len s1 off).2 = strnstr_loop_reads s2 l2 len s1 off := by
  intro len
  induction len with
  | zero =>
    intro s1 off
    simp only [strnstr_loop_traced, strnstr_loop_reads]
    split <;> rfl
  | succ n ih =>
    intro s1 off
    simp only [strnstr_loop_traced, strnstr_loop_reads]
    split
    · split
      · rfl
      · simp only [ih s1.tail (off + 1)]
    · rfl

/-- Dropping the trace of `strnstr_traced` gives `strnstr`. -/
theorem strnstr_traced_fst (s1 s2 : List Nat) (len : Nat) :
    (strnstr_traced s1 s2 len).1 = strnstr s1 s2 len := by
  unfold strnstr_traced strnstr
  simp only
  split
  · rfl
  · exact strnstr_loop_traced_fst _ _ _ _ _

/-- Every range read by `strnstr(s1, s2, len)` lies in the first `len` bytes of `s1`. -/
theorem strnstr_traced_bounded (s1 s2 : List Nat) (len : Nat) :
    ∀ r ∈ (strnstr_traced s1 s2 len).2, r.1 + r.2 ≤ len := by
  intro r hr
  unfold strnstr_traced at hr
  simp only at hr
  split at hr
  · simp at hr
  · rw [strnstr_loop_traced_snd] at hr
    have := (strnstr_loop_reads_bounded s2 (strlen s2) len s1 0 r hr).2
    omega

/-- Dropping the trace of `check_blocklist_loop_traced` gives `check_blocklist_loop`. -/
theorem check_blocklist_loop_traced_fst (bl : List (List Nat)) (cmd reason : List Nat)
    (rl : Nat) : ∀ (n i : Nat),
    (check_blocklist_loop_traced bl cmd reason rl n i).1
      = check_blocklist_loop bl cmd reason rl n i := by
  intro n
  induction n with
  | zero => intro i; rfl
  | succ n ih =>
    intro i
    simp only [check_blocklist_loop_traced, check_blocklist_loop, strnstr_traced_fst]
    split
    · rfl
    · exact ih (i + 1)

theorem check_blocklist_loop_traced_bounded (bl : List (List Nat)) (cmd reason : List Nat)
    (rl : Nat) : ∀ (n i : Nat),
    ∀ r ∈ (check_blocklist_loop_traced bl cmd reason rl n i).2,
      r.1 + r.2 ≤ THK_MAX_CMD_LEN := by
  intro n
  induction n with
  | zero =>
    intro i r hr
    simp [check_blocklist_loop_traced] at hr
  | succ n ih =>
    intro i r hr
    simp only [check_blocklist_loop_traced] at hr
    split at hr
    · exact strnstr_traced_bounded _ _ _ r hr
    · rcases List.mem_append.mp hr with h | h
      · exact strnstr_traced_bounded _ _ _ r h
      · exact ih (i + 1) r h

/-- Dropping the trace of `thk_check_blocklist_traced` gives `thk_check_blocklist`. -/
theorem thk_check_blocklist_traced_fst (dev : thk_device) (cmd reason : List Nat)
    (rl : Nat) :
    (thk_check_blocklist_traced dev cmd reason rl).1 = thk_check_blocklist dev cmd reason rl :=
  check_blocklist_loop_traced_fst _ _ _ _ _ _

/-- Dropping the trace of `thk_exec_validate_traced` gives `thk_exec_validate`. -/
theorem thk_exec_validate_traced_fst (env : thk_env) (dev : thk_device)
    (req : thk_exec_request) :
    (thk_exec_validate_traced env dev req).1 = thk_exec_validate env dev req := by
  unfold thk_exec_validate_traced thk_exec_validate
  simp only
  split
  · rfl
  · split
    · rfl
    · split
      · simp only [thk_check_blocklist_traced_fst]
        split <;> rfl
      · simp only [Bool.false_eq_true, if_false]

/-- An audit record is written only when the bytes of the command were read for it. -/
theorem thk_audit_log_reads_of_record (env : thk_env) (cmd : List Nat) (uid result : Nat) :
    (thk_audit_log env cmd uid result).isSome = true ↔
      thk_audit_log_reads env cmd = [(0, min 256 (strlen cmd + 1))] := by
  unfold thk_audit_log thk_audit_log_reads
  split
  · split
    · simp
    · simp
  · simp

/-- Every range of the command that `thk_exec_validate` reads ends at or before byte
`THK_MAX_CMD_LEN`, the length that `thk_check_blocklist` passes to `strnstr`. -/
theorem thk_exec_validate_traced_bounded (env : thk_env) (dev : thk_device)
    (req : thk_exec_request) :
    ∀ r ∈ (thk_exec_validate_traced env dev req).2, r.1 + r.2 ≤ THK_MAX_CMD_LEN := by
  have haudit : ∀ r ∈ thk_audit_log_reads env req.command, r.1 + r.2 ≤ THK_MAX_CMD_LEN := by
    intro r hr
    unfold thk_audit_log_reads at hr
    split at hr
    · split at hr
      · rw [List.mem_singleton] at hr
        rw [hr]
        show 0 + min 256 (strlen req.command + 1) ≤ 4096
        omega
      · simp at hr
    · simp at hr
  have hout : ∀ d : thk_device,
      ∀ r ∈ (if d.audit_enabled ≠ 0 ∧ req.flags &&& THK_EXEC_F_AUDIT ≠ 0 then
        thk_audit_log_reads env req.command else []), r.1 + r.2 ≤ THK_MAX_CMD_LEN := by
    intro d r hr
    split at hr
    · exact haudit r hr
    · simp at hr
  have hfirst : ∀ r : Nat × Nat, r = (0, 1) → r.1 + r.2 ≤ THK_MAX_CMD_LEN := by
    intro r hr
    rw [hr]
    decide
  intro r hr
  unfold thk_exec_validate_traced at hr
  simp only at hr
  split at hr
  · rcases List.mem_cons.mp hr with h | h
    · exact hfirst r h
    · exact hout _ r h
  · split at hr
    · rcases List.mem_cons.mp hr with h | h
      · exact hfirst r h
      · exact hout _ r h
    · split at hr
      · split at hr
        · rcases List.mem_cons.mp hr with h | h
          · exact hfirst r h
          · rcases List.mem_append.mp h with h | h
            · exact check_blocklist_loop_traced_bounded _ _ _ _ _ _ r h
            · exact hout _ r h
        · rcases List.mem_cons.mp hr with h | h
          · exact hfirst r h
          · rcases List.mem_append.mp h with h | h
            · exact check_blocklist_loop_traced_bounded _ _ _ _ _ _ r h
            · exact hout _ r h
      · simp only [Bool.false_eq_true, if_false, List.nil_append] at hr
        rcases List.mem_cons.mp hr with h | h
        · exact hfirst r h
        · exact hout _ r h

/-- C2 fails in the code: on the freshly initialised device, for an unprivileged caller
who is not rate limited, the request whose command buffer holds the string
`ls -la /tmp`, its NUL, and then the bytes `rm -rf /`. The command is non-empty and none
of the 20 configured patterns occurs in it, yet `thk_exec_validate` records
`THK_RESULT_BLOCKED`, not `THK_RESULT_OK`: the matcher is handed the 4096 bytes of the
buffer. -/
theorem clean_command_string_recorded_blocked :
    (bytes "ls -la /tmp" ++ 0 :: (bytes "rm -rf /" ++ List.replicate 4076 0)).getD 0 0 ≠ 0 ∧
    cstr (bytes "ls -la /tmp" ++ 0 :: (bytes "rm -rf /" ++ List.replicate 4076 0))
      = bytes "ls -la /tmp" ∧
    (∀ i, i < (thk_init 0).blocklist_count →
      ¬ pattern (thk_init 0) i <:+:
        cstr (bytes "ls -la /tmp" ++ 0 :: (bytes "rm -rf /" ++ List.replicate 4076 0))) ∧
    rate_limited (env_user 0) (thk_init 0) 1000 = false ∧
    (thk_exec_validate (env_user 0) (thk_init 0)
      { command := bytes "ls -la /tmp" ++ 0 :: (bytes "rm -rf /" ++ List.replicate 4076 0),
        flags := 0, uid := 1000 }).dev.last_result.result = THK_RESULT_BLOCKED ∧
    (thk_exec_validate (env_user 0) (thk_init 0)
      { command := bytes "ls -la /tmp" ++ 0 :: (bytes "rm -rf /" ++ List.replicate 4076 0),
        flags := 0, uid := 1000 }).dev.last_result.result ≠ THK_RESULT_OK := by
  have hc : cstr (bytes "ls -la /tmp" ++ 0 :: (bytes "rm -rf /" ++ List.replicate 4076 0))
      = bytes "ls -la /tmp" := cstr_append_zero _ _ (by decide)
  refine ⟨by decide, hc, ?_, by decide, by decide, by decide⟩
  intro i hi
  rw [hc]
  exact (seeded_patterns_not_in_ls i hi).2

/-- C29: `THK_IOC_EXEC_VALIDATE` bounds-checks the command before use. For every
4096-byte buffer copied in (with or without a NUL in it) the command handed to
`thk_exec_validate` is the buffer with byte 4095 set to NUL: still 4096 bytes, holding a
NUL-terminated string of at most 4095 bytes. The call returns 0 with one of the four
outcomes recorded; the reason buffer keeps its 256 bytes and holds a string of at most
255 bytes. Every byte range of the command that the validation reads (the test of
`command[0]`, the `memcmp` calls of the `strnstr` calls that `thk_check_blocklist` makes
with the length it passes, and the `%.256s` of `thk_audit_log`) lies inside the buffer
handed over; the traced validation, matcher and `strnstr` that list the ranges return
what `thk_exec_validate`, `thk_check_blocklist` and `strnstr` return. -/
theorem exec_validate_ioctl_bounds_checked (env : thk_env) (dev : thk_device)
    (uarg : thk_uarg) (req : thk_exec_request)
    (hcopy : uarg.from_user_request = some req)
    (hlen : req.command.length = THK_MAX_CMD_LEN) :
    (thk_ioctl env dev THK_IOC_EXEC_VALIDATE uarg).dev
      = (thk_exec_validate env dev
          { req with command := req.command.set (THK_MAX_CMD_LEN - 1) 0 }).dev ∧
    (req.command.set (THK_MAX_CMD_LEN - 1) 0).length = THK_MAX_CMD_LEN ∧
    (req.command.set (THK_MAX_CMD_LEN - 1) 0).getD (THK_MAX_CMD_LEN - 1) 1 = 0 ∧
    strlen (req.command.set (THK_MAX_CMD_LEN - 1) 0) ≤ THK_MAX_CMD_LEN - 1 ∧
    (thk_ioctl env dev THK_IOC_EXEC_VALIDATE uarg).ret = 0 ∧
    ((thk_ioctl env dev THK_IOC_EXEC_VALIDATE uarg).dev.last_result.result = THK_RESULT_OK ∨
      (thk_ioctl env dev THK_IOC_EXEC_VALIDATE uarg).dev.last_result.result
        = THK_RESULT_BLOCKED ∨
      (thk_ioctl env dev THK_IOC_EXEC_VALIDATE uarg).dev.last_result.result
        = THK_RESULT_RATE_LIMITED ∨
      (thk_ioctl env dev THK_IOC_EXEC_VALIDATE uarg).dev.last_result.result
        = THK_RESULT_INVALID) ∧
    (thk_ioctl env dev THK_IOC_EXEC_VALIDATE uarg).dev.last_result.reason.length
      = THK_MAX_REASON_LEN ∧
    strlen (thk_ioctl env dev THK_IOC_EXEC_VALIDATE uarg).dev.last_result.reason
      < THK_MAX_REASON_LEN ∧
    (∀ r ∈ (thk_exec_validate_traced env dev
        { req with command := req.command.set (THK_MAX_CMD_LEN - 1) 0 }).2,
      r.1 + r.2 ≤ (req.command.set (THK_MAX_CMD_LEN - 1) 0).length) ∧
    (thk_exec_validate_traced env dev
        { req with command := req.command.set (THK_MAX_CMD_LEN - 1) 0 }).1
      = thk_exec_validate env dev
          { req with command := req.command.set (THK_MAX_CMD_LEN - 1) 0 } ∧
    (∀ (d : thk_device) (cmd reason : List Nat) (reason_len : Nat),
      (thk_check_blocklist_traced d cmd reason reason_len).1
        = thk_check_blocklist d cmd reason reason_len) ∧
    (∀ (s1 s2 : List Nat) (len : Nat),
      (strnstr_traced s1 s2 len).1 = strnstr s1 s2 len) := by
  have h := exec_validate_ioctl_buffers env dev uarg req hcopy hlen
  refine ⟨h.1, h.2.1, h.2.2.1, h.2.2.2.1, h.2.2.2.2.1, h.2.2.2.2.2.1, h.2.2.2.2.2.2.1,
    h.2.2.2.2.2.2.2.1, ?_, thk_exec_validate_traced_fst env dev _,
    thk_check_blocklist_traced_fst, strnstr_traced_fst⟩
  intro r hr
  rw [h.2.1]
  exact thk_exec_validate_traced_bounded env dev _ r hr

/-- Non-vacuity of C29: a user buffer of 4096 bytes `A` with no NUL in it. -/
theorem exec_validate_ioctl_bounds_checked_witness :
    (thk_ioctl (env_user 0) (thk_init 0) THK_IOC_EXEC_VALIDATE
      (uarg_request
        { command := List.replicate THK_MAX_CMD_LEN 65, flags := 0, uid := 1000 })).ret = 0 ∧
    strlen ((List.replicate THK_MAX_CMD_LEN 65).set (THK_MAX_CMD_LEN - 1) 0)
      ≤ THK_MAX_CMD_LEN - 1 :=
  have h := exec_validate_ioctl_bounds_checked (env_user 0) (thk_init 0)
    (uarg_request { command := List.replicate THK_MAX_CMD_LEN 65, flags := 0, uid := 1000 })
    { command := List.replicate THK_MAX_CMD_LEN 65, flags := 0, uid := 1000 }
    rfl (List.length_replicate _ _)
  ⟨h.2.2.2.2.1, h.2.2.2.1⟩

end Thk
